import Mathlib

/-!
# The `advuilist` list engine

A shallow embedding of the list widget of `src/advuilist.h`, of the sourced list
of `src/advuilist_sourced.h`, of the two-pane window of `src/transaction_ui.h` and
of the pane swap of `src/advanced_inv_ng.cpp`, and of the properties their
specification states about sorting, grouping, pagination, filtering, cursor
movement, saved state, selection, sources and the exchange of the panes.

Conventions of the embedding.

* The element type of the container is a parameter `T`; the externally owned
  container the engine points to is the list of its elements in iteration order.
* A `std::function` that may be empty is an `Option`; `none` is the empty function.
* An iterator into the container (`ptr_t`) is the position it points at together
  with the element found there.  The engine only ever dereferences iterators.
* `size_t` values are natural numbers.  Where an operand of an addition or of a
  subtraction comes from the caller, the operation wraps modulo `2 ^ 64`
  (`size_add`, `size_sub`); counters bounded by the length of a list do not wrap,
  and a subtraction of 1 behind a test for zero is the subtraction of naturals.
* An operation whose C++ behaviour is undefined or which raises (indexing a
  vector out of range, `back()` of an empty vector, `at()` out of range, a
  failed `cata_assert`, the call of an empty `std::function`) yields `none`.
* A `std::map` is the list of its pairs in the order of the keys; an icon is the
  code of its character.
* What the user does (the action of a pass of `select()`, the answer of a dialog)
  and the size of the terminal are arguments of the operations that read them.
-/

/-! ## Data model -/

/-- Modulus of `size_t` arithmetic. -/
def size_mod : Nat := 2 ^ 64

/-- Addition of two `size_t` values. -/
def size_add (a b : Nat) : Nat := (a + b) % size_mod

/-- Subtraction of two `size_t` values. -/
def size_sub (a b : Nat) : Nat := (a + size_mod - b % size_mod) % size_mod

/-- Persisted state blob of one list (`advuilist_save_state`). -/
structure advuilist_save_state where
  slot : Nat := 0
  idx : Nat := 0
  sort : Nat := 0
  group : Nat := 0
  icon : Nat := 0
  filter : String := ""
  initialized : Bool := false
deriving DecidableEq

/-- Iterator into the container (`ptr_t`): the position and the element it refers to. -/
structure ptr_t (T : Type) where
  pos : Nat
  elem : T

/-- Entry of the internal list (`entry_t`): insertion index and iterator. -/
structure entry_t (T : Type) where
  idx : Nat
  ptr : ptr_t T

/-- Column (`col_t`): name, printer `(element, width)` and width weight. -/
structure col_t (T : Type) where
  name : String
  printer : T → Int → String
  width : Int := 0

/-- Sorter (`sorter_t`): name and an ordering function, empty for the "none" sorter. -/
structure sorter_t (T : Type) where
  name : String
  sorter : Option (T → T → Bool)

/-- Grouper (`grouper_t`): name, ordering function and group label printer. -/
structure grouper_t (T : Type) where
  name : String
  sorter : Option (T → T → Bool)
  fgid : Option (T → String)

/-- Page (`page_t`): pair of direct indices `[first, second)` of the internal list. -/
abbrev page_t : Type := Nat × Nat

/-- A point of the screen, or a size: two `int` coordinates. -/
structure point where
  x : Int
  y : Int
deriving DecidableEq

/-- Selection (`selection_t`): count and iterator. -/
structure selection_t (T : Type) where
  count : Nat
  ptr : ptr_t T

/-- The actions the input context hands to the lists and to the two-pane window.  Their
names are the constants of `advuilist_const.h`, which is not among the sources;
`SOURCE slot` is the action made of `ACTION_SOURCE_PRFX` and a slot number, and `other`
is any action the lists do not know. -/
inductive action_t where
  | UP
  | DOWN
  | MOUSE_SELECT
  | MOUSE_MOVE
  | PAGE_UP
  | SCROLL_UP
  | PAGE_DOWN
  | SCROLL_DOWN
  | SORT
  | FILTER
  | RESET_FILTER
  | SELECT
  | SELECT_PARTIAL
  | SELECT_WHOLE
  | SELECT_ALL
  | QUIT
  | CYCLE_SOURCES
  | NEXT_SLOT
  | PREV_SLOT
  | SOURCE (slot : Nat)
  | SWITCH_PANES
  | PANE_LEFT
  | PANE_RIGHT
  | other (name : String)
deriving DecidableEq

/-- What the user does in one pass of the loop of `select()`: the action, and what the
dialogs of that pass return.  `mouse_idx` is the index of the entry printed on the line
under the mouse, when the mouse is in the window on the line of an entry. -/
structure select_io where
  action : action_t
  mouse_idx : Option Nat := none
  menu_ret : Int := -1
  filter_rounds : List (String × Bool × Bool) := []
  amount : Nat := 0
  amount_canceled : Bool := false

/-- State of the list engine (`advuilist<Container, T>`), restricted to the members
the modelled operations read or write.  `_olist` is the container the engine points
to.  `_ffilter` receives the columns of the engine it is called from, which is what
the default filter installed by the constructor reads through `this`.
`_ffrebuild` is the `on_force_rebuild` hook, represented by what it does to the
container behind `_olist`.  `_fcounter` is the counting function. -/
structure advuilist (T : Type) where
  _pagesize : Nat := 1
  _list : List (entry_t T) := []
  _columns : List (col_t T) := []
  _sorters : List (sorter_t T)
  _groupers : List (grouper_t T)
  _pages : List page_t := []
  _ffilter : Option (List (col_t T) → T → String → Bool)
  _ffrebuild : Option (List T → List T) := none
  _filter : String := ""
  _filterdsc : String := ""
  _csort : Nat := 0
  _cgroup : Nat := 0
  _cidx : Nat := 0
  _cpage : Nat := 0
  _exit : Bool := true
  _needsinit : Bool := true
  _force_rebuild : Bool := false
  _olist : List T
  _fcounter : Option (T → Nat) := none
  _size : point := { x := 0, y := 0 }
  _osize : point := { x := -1, y := -1 }
  _origin : point := { x := 0, y := 0 }
  _oorigin : point := { x := -1, y := -1 }
  _innerw : Int := 0
  _headersize : Int := 2
  _footersize : Int := 1

/-- The end of one pass of the loop of `select()`: `select()` returns the selection, or
the loop goes on. -/
inductive select_step (T : Type) where
  | returned (sel : List (selection_t T)) (s : advuilist T)
  | continued (s : advuilist T)

/-- The end of `select()`: it returns a selection, or it waits for the next input. -/
inductive select_result (T : Type) where
  | returned (sel : List (selection_t T)) (s : advuilist T)
  | waiting (s : advuilist T)

/-! ## Text helpers used by the default filter -/

/-- Does `qry` start the list `str`? -/
def starts_with : List Char → List Char → Bool
  | _, [] => true
  | [], _ :: _ => false
  | c :: str, q :: qry => c == q && starts_with str qry

/-- Does `qry` occur in `str` as a contiguous block? -/
def contains_block : List Char → List Char → Bool
  | [], qry => starts_with [] qry
  | c :: str, qry => starts_with (c :: str) qry || contains_block str qry

/-- Modelled from the spec: `lcmatch` of `cata_utility.h`, which is not among the
sources; a case-insensitive substring match of `qry` in `str`. -/
def lcmatch (str qry : String) : Bool :=
  contains_block (str.data.map Char.toLower) (qry.data.map Char.toLower)

/-- Removal of every tag that opens with `<` and closes with the next `>`; the flag
tells whether the scan is inside a tag. -/
def strip_tags : Bool → List Char → List Char
  | _, [] => []
  | true, c :: cs => if c = '>' then strip_tags false cs else strip_tags true cs
  | false, c :: cs => if c = '<' then strip_tags true cs else c :: strip_tags false cs

/-- Modelled from the spec: `remove_color_tags` of `output.h`, which is not among the
sources; it strips the decoration markup of a printed text, taken here to be the
tags written between angle brackets. -/
def remove_color_tags (s : String) : String :=
  String.mk (strip_tags false s.data)

/-! ## `std::stable_sort` -/

/-- Insertion of `a` in front of a list sorted by `lt`: `a` passes the elements that
are strictly before it and stops in front of the first one that is not. -/
def stable_insert {α : Type} (lt : α → α → Bool) (a : α) : List α → List α
  | [] => [a]
  | b :: l => if lt b a then b :: stable_insert lt a l else a :: b :: l

/-- The library call `std::stable_sort(first, last, comp)`: a sort by the "less than"
function `comp` that keeps elements `comp` does not order in their input order.
It is rendered as an insertion sort that inserts from the back of the input; for a
strict weak order `comp` the result of a stable sort does not depend on the algorithm
(`stable_sort_unique`). -/
def stable_sort {α : Type} (lt : α → α → Bool) : List α → List α
  | [] => []
  | a :: l => stable_insert lt a (stable_sort lt l)

/-- The result of `std::find_if`, as the distance from `begin()`; `none` is `end()`. -/
def find_if {α : Type} (p : α → Bool) : List α → Option Nat
  | [] => none
  | a :: l => if p a then some 0 else (find_if p l).map (fun i => i + 1)

namespace advuilist

variable {T : Type}

/-! ## Construction and registries -/

/-- The member `_basicfilter`: some column prints a text that matches the filter. -/
def _basicfilter (s : advuilist T) (it : T) (filter : String) : Bool :=
  s._columns.any (fun col => lcmatch (remove_color_tags (col.printer it 0)) filter)

/-- The constructor: the dummy "none" sorter and grouper are installed and the filter
function is the closure over `this` that calls `_basicfilter`. -/
def create (list : List T) : advuilist T :=
  { _sorters := [{ name := "none", sorter := none }]
    _groupers := [{ name := "none", sorter := none, fgid := none }]
    _ffilter := some (fun columns it filter =>
      columns.any (fun col => lcmatch (remove_color_tags (col.printer it 0)) filter))
    _olist := list }

/-! ## Sorting -/

/-- The comparison `cmp::operator()` local to `_sort`. -/
def _sort.cmp (s : sorter_t T) (g : grouper_t T) (lhs rhs : entry_t T) : Bool :=
  let by_sorter : Bool :=
    match s.sorter with
    | some f => f lhs.ptr.elem rhs.ptr.elem
    | none => decide (lhs.idx < rhs.idx)
  match g.sorter, g.fgid with
  | some gsorter, some fgid =>
    if fgid lhs.ptr.elem = fgid rhs.ptr.elem then by_sorter
    else gsorter lhs.ptr.elem rhs.ptr.elem
  | _, _ => by_sorter

/-- The member `_sort(sidx, gidx)`. -/
def _sort (s : advuilist T) (sidx gidx : Nat) : Option (advuilist T) :=
  match s._sorters[sidx]?, s._groupers[gidx]? with
  | some so, some gr =>
    some { s with
      _list := stable_sort (_sort.cmp so gr) s._list
      _csort := sidx
      _cgroup := gidx }
  | _, _ => none

/-- The member `sort(name)`. -/
def sort (s : advuilist T) (name : String) : Option (advuilist T) :=
  match find_if (fun v : sorter_t T => decide (v.name = name)) s._sorters with
  | some i => s._sort i s._cgroup
  | none => some s

/-! ## Pagination -/

/-- Variables of the loop of `_paginate`. -/
structure paginate_st (T : Type) where
  pages : List page_t
  pbegin : Nat
  cpentries : Nat
  gbegin : entry_t T

/-- One iteration of the loop of `_paginate`, at the entry `it` of index `ci`. -/
def _paginate.body (fglabel : Option (T → String)) (lpagesize : Nat)
    (st : paginate_st T) (ci : Nat) (it : entry_t T) : Option (paginate_st T) :=
  let newgroup : Bool :=
    match fglabel with
    | some f => decide (f it.ptr.elem ≠ f st.gbegin.ptr.elem)
    | none => false
  let gbegin := if newgroup then it else st.gbegin
  let cpentries := (if newgroup then st.cpentries + 1 else st.cpentries) + 1
  if cpentries > lpagesize then
    if cpentries % lpagesize ≤ 2 then
      some { pages := st.pages ++ [(st.pbegin, ci)], pbegin := ci, cpentries := 1, gbegin := gbegin }
    else none
  else
    some { st with cpentries := cpentries, gbegin := gbegin }

/-- The loop of `_paginate` over the entries from index `ci` on. -/
def _paginate.loop (fglabel : Option (T → String)) (lpagesize : Nat) :
    List (entry_t T) → Nat → paginate_st T → Option (paginate_st T)
  | [], _, st => some st
  | it :: rest, ci, st =>
    match _paginate.body fglabel lpagesize st ci it with
    | some st1 => _paginate.loop fglabel lpagesize rest (ci + 1) st1
    | none => none

/-- The last statement of `_paginate`: the page that is still open is added. -/
def _paginate.finish (n : Nat) (pages : List page_t) (pbegin : Nat) : List page_t :=
  if pbegin < n ∨ n = 0 then pages ++ [(pbegin, n)] else pages

/-- The pages `_paginate` computes, from the members it reads: the page size, the
group index, the groupers and the list. -/
def _paginate.pages (pagesize cgroup : Nat) (groupers : List (grouper_t T))
    (list : List (entry_t T)) : Option (List page_t) :=
  let lpagesize := size_sub pagesize (if cgroup ≠ 0 then 1 else 0)
  if lpagesize ≠ 0 then
    match groupers[cgroup]? with
    | none => none
    | some g =>
      match list with
      | [] => some (_paginate.finish list.length [] 0)
      | e :: _ =>
        match _paginate.loop g.fgid lpagesize list 0
            { pages := [], pbegin := 0, cpentries := 0, gbegin := e } with
        | some st => some (_paginate.finish list.length st.pages st.pbegin)
        | none => none
  else some (_paginate.finish list.length [] 0)

/-- The member `_paginate`. -/
def _paginate (s : advuilist T) : Option (advuilist T) :=
  match _paginate.pages s._pagesize s._cgroup s._groupers s._list with
  | some pages => some { s with _pages := pages }
  | none => none

/-! ## Cursor -/

/-- The member `_idxtopage`, on the pages that are left to inspect. -/
def _idxtopage : List page_t → Nat → Option Nat
  | [], _ => none
  | p :: pages, idx =>
    if p.2 ≠ 0 ∧ p.2 ≤ idx then (_idxtopage pages idx).map (fun cpage => cpage + 1)
    else some 0

/-- The member `_setidx(idx)`. -/
def _setidx (s : advuilist T) (idx : Nat) : Option (advuilist T) :=
  match s._pages.getLast? with
  | none => none
  | some back =>
    let cidx := if back.2 = 0 then 0 else if idx > back.2 - 1 then back.2 - 1 else idx
    match _idxtopage s._pages cidx with
    | some cpage => some { s with _cidx := cidx, _cpage := cpage }
    | none => none

/-- The member `_incidx(amount)`. -/
def _incidx (s : advuilist T) (amount : Nat) : Option (advuilist T) :=
  match s._pages.head?, s._pages.getLast? with
  | some front, some back =>
    if back.2 = 0 then some { s with _cidx := 0, _cpage := 0 }
    else
      let cidx :=
        if s._cidx = back.2 - 1 then front.1
        else min (size_add s._cidx amount) (back.2 - 1)
      match _idxtopage s._pages cidx with
      | some cpage => some { s with _cidx := cidx, _cpage := cpage }
      | none => none
  | _, _ => none

/-- The member `_decidx(amount)`. -/
def _decidx (s : advuilist T) (amount : Nat) : Option (advuilist T) :=
  match s._pages.head?, s._pages.getLast? with
  | some front, some back =>
    if back.2 = 0 then some { s with _cidx := 0, _cpage := 0 }
    else
      let cidx :=
        if s._cidx = front.1 then back.2 - 1
        else if size_add front.1 amount > s._cidx then front.1 else size_sub s._cidx amount
      match _idxtopage s._pages cidx with
      | some cpage => some { s with _cidx := cidx, _cpage := cpage }
      | none => none
  | _, _ => none

/-! ## Rebuild -/

/-- The loop of `rebuild` over the container: `pos` is the position of the iterator
and `idx` the running insertion index. -/
def rebuild.scan (keep : T → Bool) : List T → Nat → Nat → List (entry_t T)
  | [], _, _ => []
  | x :: rest, pos, idx =>
    if keep x then
      { idx := idx, ptr := { pos := pos, elem := x } } :: rebuild.scan keep rest (pos + 1) (idx + 1)
    else rebuild.scan keep rest (pos + 1) idx

/-- The test of the loop of `rebuild`: is the element kept? -/
def rebuild.keep (s : advuilist T) (x : T) : Bool :=
  match s._ffilter with
  | none => true
  | some f => decide (s._filter = "") || f s._columns x s._filter

/-- The call of the `on_force_rebuild` hook at the start of `rebuild`: it runs when
`_force_rebuild` is set and the hook is not empty, and may replace the contents of the
container. -/
def rebuild.hook (s : advuilist T) : advuilist T :=
  match s._force_rebuild, s._ffrebuild with
  | true, some hook => { s with _olist := hook s._olist }
  | _, _ => s

/-- The container `rlist` the loop of `rebuild` walks: `list` when it is not null, the
engine's own container otherwise. -/
def rebuild.rlist (s : advuilist T) (list : Option (List T)) : List T :=
  match list with
  | none => s._olist
  | some l => l

/-- The statements of `rebuild` that follow its loop: `_sort`, `_paginate`, `_setidx`
and the reset of `_needsinit`. -/
def rebuild.finish (s1 : advuilist T) : Option (advuilist T) :=
  match s1._sort s1._csort s1._cgroup with
  | none => none
  | some s2 =>
    match s2._paginate with
    | none => none
    | some s3 =>
      match s3._setidx s3._cidx with
      | none => none
      | some s4 => some { s4 with _needsinit := false }

/-- The member `rebuild(list)`; `none` for `list` is the null pointer.  The
`on_rebuild` hook only reports to its owner and is left out. -/
def rebuild (s : advuilist T) (list : Option (List T)) : Option (advuilist T) :=
  let s0 : advuilist T := rebuild.hook s
  let rlist : List T := rebuild.rlist s0 list
  rebuild.finish { s0 with _list := rebuild.scan (rebuild.keep s0) rlist 0 0 }

/-! ## Saved state -/

/-- The member `save_state(state)`: the state the pointer refers to after the call. -/
def save_state (s : advuilist T) (state : advuilist_save_state) : advuilist_save_state :=
  { state with
    idx := s._cidx
    sort := s._csort
    group := s._cgroup
    filter := s._filter
    initialized := true }

/-- The member `load_state(state, reb)`. -/
def load_state (s : advuilist T) (state : advuilist_save_state) (reb : Bool) :
    Option (advuilist T) :=
  let s1 : advuilist T :=
    { s with _csort := state.sort, _cgroup := state.group, _filter := state.filter }
  if reb then s1.rebuild none else s1._setidx state.idx

/-! ## Registries of sorters and groupers -/

/-- The member `_add_common(cont, newc)`; `name` reads the member `name` of an element. -/
def _add_common {C : Type} (name : C → String) (cont : List C) (newc : C) : List C :=
  match find_if (fun v => decide (name v = name newc)) cont with
  | some i => cont.set i newc
  | none => cont ++ [newc]

/-- The member `add_sorter(sorter)`. -/
def add_sorter (s : advuilist T) (sorter : sorter_t T) : advuilist T :=
  { s with _sorters := _add_common sorter_t.name s._sorters sorter }

/-- The member `add_grouper(grouper)`. -/
def add_grouper (s : advuilist T) (grouper : grouper_t T) : advuilist T :=
  { s with _groupers := _add_common grouper_t.name s._groupers grouper }

/-! ## Filter change and resize -/

/-- The member `_setfilter(filter)`.  It calls `rebuild( _olist )`, which walks the
container the engine points to, as `rebuild()` does. -/
def _setfilter (s : advuilist T) (filter : String) : Option (advuilist T) :=
  rebuild { s with _filter := filter } none

/-- The size `resize` keeps for a wanted `size`: the wanted one where it is positive and
fits the terminal `TERM`, the terminal's where it does not fit, and the terminal's
divided as `dflt` says where it is not positive. -/
def resize.size (TERM size dflt : point) : point :=
  { x := if size.x > 0 then (if size.x > TERM.x then TERM.x else size.x) else dflt.x
    y := if size.y > 0 then (if size.y > TERM.y then TERM.y else size.y) else dflt.y }

/-- The origin `resize` keeps for a wanted `origin` and the size `size` it has kept. -/
def resize.origin (TERM size origin : point) : point :=
  { x := if origin.x ≥ 0 then (if origin.x + size.x > TERM.x then 0 else origin.x)
      else Int.tdiv TERM.x 2 - Int.tdiv size.x 2
    y := if origin.y ≥ 0 then (if origin.y + size.y > TERM.y then 0 else origin.y)
      else Int.tdiv TERM.y 2 - Int.tdiv size.y 2 }

/-- The assignments of `resize(size, origin, reserved_rows)` up to the test of the new
page size, with the new page size `npagesize`; `TERM` holds the globals `TERMX` and
`TERMY`. -/
def resize.geometry (TERM : point) (s : advuilist T) (size origin reserved_rows : point) :
    advuilist T × Nat :=
  let nsize := resize.size TERM size { x := Int.tdiv TERM.x 4, y := Int.tdiv TERM.y 4 }
  let norigin := resize.origin TERM nsize origin
  let headersize := if reserved_rows.x > 0 then reserved_rows.x else s._headersize
  let footersize := if reserved_rows.y > 0 then reserved_rows.y else s._footersize
  ({ s with
      _size := nsize
      _origin := norigin
      _headersize := headersize
      _footersize := footersize
      _innerw := nsize.x - 2 },
    (max 1 (nsize.y - (headersize + footersize + 1))).toNat)

/-- The member `resize(size, origin, reserved_rows)`; the window it opens is left out. -/
def resize (TERM : point) (s : advuilist T) (size origin reserved_rows : point) :
    Option (advuilist T) :=
  let g := resize.geometry TERM s size origin reserved_rows
  if g.2 ≠ s._pagesize then rebuild { g.1 with _pagesize := g.2 } none else some g.1

/-! ## Selection -/

/-- The redraw callback `init_ui` installs, as far as it changes the engine: it rebuilds
when `_force_rebuild` is set.  The loops of `select()` and of `_queryfilter()` run it
at the start of each pass. -/
def redraw (s : advuilist T) : Option (advuilist T) :=
  if s._force_rebuild then rebuild s none else some s

/-- The member `_peek(amount)`. -/
def _peek (s : advuilist T) (amount : Nat) : Option (List (selection_t T)) :=
  match s._list with
  | [] => some []
  | _ :: _ =>
    match s._list[s._cidx]? with
    | some e => some [{ count := amount, ptr := e.ptr }]
    | none => none

/-- The member `peek()`. -/
def peek (s : advuilist T) : Option (List (selection_t T)) :=
  s._peek 1

/-- The member `_count(idx)`. -/
def _count (s : advuilist T) (idx : Nat) : Option Nat :=
  match s._list with
  | [] => some 0
  | _ :: _ =>
    match s._fcounter with
    | some fcounter =>
      match s._list[idx]? with
      | some e => some (fcounter e.ptr.elem)
      | none => none
    | none => some 1

/-- The member `_peekcount()`. -/
def _peekcount (s : advuilist T) : Option Nat :=
  s._count s._cidx

/-- The loop of `_peekall` over the indices `idx` that are left. -/
def _peekall.loop (s : advuilist T) : List Nat → Option (List (selection_t T))
  | [] => some []
  | idx :: rest =>
    match s._count idx, s._list[idx]?, _peekall.loop s rest with
    | some amount, some e, some ret => some ({ count := amount, ptr := e.ptr } :: ret)
    | _, _, _ => none

/-- The member `_peekall()`. -/
def _peekall (s : advuilist T) : Option (List (selection_t T)) :=
  _peekall.loop s (List.range s._list.length)

/-- The member `_querypartial()`; `amount` is the number the popup returns, read as a
`count_t`, and `canceled` whether the popup was canceled. -/
def _querypartial (s : advuilist T) (amount : Nat) (canceled : Bool) : Option Nat :=
  match s._peekcount with
  | some max => some (if canceled then 0 else min max amount)
  | none => none

/-- The member `_querysort()`; `menu_ret` is the entry the menu returns. -/
def _querysort (s : advuilist T) (menu_ret : Int) : Option (advuilist T) :=
  if menu_ret ≥ 0 then
    if menu_ret < (s._sorters.length : Int) then s._sort menu_ret.toNat s._cgroup
    else
      match s._sort s._csort (menu_ret - (s._sorters.length : Int)).toNat with
      | some s1 => s1._paginate
      | none => none
  else some s

/-- The member `_queryfilter()`; each round of the popup gives the text it holds, whether
it was canceled and whether it was confirmed, and the loop ends with the rounds. -/
def _queryfilter (s : advuilist T) : List (String × Bool × Bool) → Option (advuilist T)
  | [] => some s
  | (nfilter, canceled, confirmed) :: rest =>
    match s.redraw with
    | some s0 =>
      match (if !canceled && decide (nfilter ≠ s0._filter) then s0._setfilter nfilter
          else some s0) with
      | some s1 => if !canceled && !confirmed then _queryfilter s1 rest else some s1
      | none => none
    | none => none

/-- The call of the input handler `_fctxt` that ends a pass of the loop of `select()`;
the handler is given the engine and the action. -/
def select.handler (fctxt : Option (advuilist T → action_t → Option (advuilist T)))
    (action : action_t) (s : Option (advuilist T)) : Option (select_step T) :=
  match s, fctxt with
  | none, _ => none
  | some s1, none => some (select_step.continued s1)
  | some s1, some f =>
    match f s1 action with
    | some s2 => some (select_step.continued s2)
    | none => none

/-- One pass of the loop of `select()`, with what the user does in it. -/
def select.step (fctxt : Option (advuilist T → action_t → Option (advuilist T)))
    (s : advuilist T) (io : select_io) : Option (select_step T) :=
  match io.action with
  | action_t.UP => select.handler fctxt io.action (s._decidx 1)
  | action_t.DOWN => select.handler fctxt io.action (s._incidx 1)
  | action_t.MOUSE_SELECT =>
    match io.mouse_idx with
    | some idx =>
      if idx = s._cidx then
        match s.peek with
        | some sel => some (select_step.returned sel s)
        | none => none
      else select.handler fctxt io.action (s._setidx idx)
    | none => select.handler fctxt io.action (some s)
  | action_t.MOUSE_MOVE =>
    match io.mouse_idx with
    | some idx => select.handler fctxt io.action (s._setidx idx)
    | none => select.handler fctxt io.action (some s)
  | action_t.PAGE_UP => select.handler fctxt io.action (s._decidx s._pagesize)
  | action_t.SCROLL_UP => select.handler fctxt io.action (s._decidx s._pagesize)
  | action_t.PAGE_DOWN => select.handler fctxt io.action (s._incidx s._pagesize)
  | action_t.SCROLL_DOWN => select.handler fctxt io.action (s._incidx s._pagesize)
  | action_t.SORT => select.handler fctxt io.action (s._querysort io.menu_ret)
  | action_t.FILTER => select.handler fctxt io.action (s._queryfilter io.filter_rounds)
  | action_t.RESET_FILTER => select.handler fctxt io.action (s._setfilter "")
  | action_t.SELECT =>
    match s.peek with
    | some sel => some (select_step.returned sel s)
    | none => none
  | action_t.SELECT_PARTIAL =>
    match s._list with
    | [] => select.handler fctxt io.action (some s)
    | _ :: _ =>
      match advuilist._querypartial s io.amount io.amount_canceled with
      | some input =>
        if input > 0 then
          match s._peek input with
          | some sel => some (select_step.returned sel s)
          | none => none
        else select.handler fctxt io.action (some s)
      | none => none
  | action_t.SELECT_WHOLE =>
    match s._peekcount with
    | some amount =>
      match s._peek amount with
      | some sel => some (select_step.returned sel s)
      | none => none
    | none => none
  | action_t.SELECT_ALL =>
    match s._peekall with
    | some sel => some (select_step.returned sel s)
    | none => none
  | action_t.QUIT => select.handler fctxt io.action (some { s with _exit := true })
  | _ => select.handler fctxt io.action (some s)

/-- One pass of the loop of `select()`: the redraw, then the action. -/
def select.pass (fctxt : Option (advuilist T → action_t → Option (advuilist T)))
    (s : advuilist T) (io : select_io) : Option (select_step T) :=
  match s.redraw with
  | some s0 => select.step fctxt s0 io
  | none => none

/-- The loop of `select()` over what the user does: it ends when `_exit` is set, when a
pass returns a selection, or waiting for input when the user does no more. -/
def select.loop (fctxt : Option (advuilist T → action_t → Option (advuilist T))) :
    List select_io → advuilist T → Option (select_result T)
  | [], s =>
    if s._exit then some (select_result.returned [] s)
    else
      match s.redraw with
      | some s0 => some (select_result.waiting s0)
      | none => none
  | io :: rest, s =>
    if s._exit then some (select_result.returned [] s)
    else
      match select.pass fctxt s io with
      | some (select_step.returned sel s1) => some (select_result.returned sel s1)
      | some (select_step.continued s1) => select.loop fctxt rest s1
      | none => none

/-- The member `select()`; the setup of the screen is left out. -/
def select (fctxt : Option (advuilist T → action_t → Option (advuilist T)))
    (s : advuilist T) (ios : List select_io) : Option (select_result T) :=
  match (if s._needsinit then rebuild { s with _exit := false } none
      else some { s with _exit := false }) with
  | some s1 => select.loop fctxt ios s1
  | none => none

/-- The member `suspend()`. -/
def suspend (s : advuilist T) : advuilist T :=
  { s with _exit := true }

/-- The member `force_rebuild(state)`. -/
def force_rebuild (s : advuilist T) (state : Bool) : advuilist T :=
  { s with _force_rebuild := state }

end advuilist

/-! ## `std::map`

A map is the list of its pairs in the order of its iteration, which is the order of the
keys.  Slot indices (`std::size_t`) are keys in the order of the naturals.  Icons
(`icon_t`, which is `char`) are keys too; an icon is the code of its character, from 0
to 255, and the map of a slot orders its icons by their values as `char`, which is a
signed type where the game is built: the codes from 128 on are the negative values. -/

/-- The member `find` of a map: the value under `k`, `none` for `end()`. -/
def map_find {V : Type} : List (Nat × V) → Nat → Option V
  | [], _ => none
  | (k1, v1) :: rest, k => if k1 = k then some v1 else map_find rest k

/-- The assignment `m[k] = v` of a map: the value under `k` is replaced, or the pair is
inserted at the place of `k` in the order of the keys. -/
def map_set {V : Type} : List (Nat × V) → Nat → V → List (Nat × V)
  | [], k, v => [(k, v)]
  | (k1, v1) :: rest, k, v =>
    if k < k1 then (k, v) :: (k1, v1) :: rest
    else if k = k1 then (k, v) :: rest
    else (k1, v1) :: map_set rest k v

/-- The value of the `char` with the code `c`, for a signed `char`: `std::less<char>`
compares these values. -/
def icon_key (c : Nat) : Int :=
  if c % 256 < 128 then ((c % 256 : Nat) : Int) else ((c % 256 : Nat) : Int) - 256

/-- The assignment `slotcont[icon] = src` of the map of a slot (`std::map<icon_t,
source_t>`): the source under `icon` is replaced, or the pair is inserted at the place
of `icon` in the order of the icons as values of `char`. -/
def slotcont_set {V : Type} : List (Nat × V) → Nat → V → List (Nat × V)
  | [], k, v => [(k, v)]
  | (k1, v1) :: rest, k, v =>
    if icon_key k < icon_key k1 then (k, v) :: (k1, v1) :: rest
    else if k = k1 then (k, v) :: rest
    else (k1, v1) :: slotcont_set rest k v

/-- The map after an access `m[k]` that only reads: a key that is missing is inserted
with the default value `dflt`. -/
def map_touch {V : Type} (dflt : V) (m : List (Nat × V)) (k : Nat) : List (Nat × V) :=
  match map_find m k with
  | some _ => m
  | none => map_set m k dflt

/-- The value an access `m[k]` reads. -/
def map_index {V : Type} (dflt : V) (m : List (Nat × V)) (k : Nat) : V :=
  match map_find m k with
  | some v => v
  | none => dflt

/-! ## Sourced list (`advuilist_sourced.h`) -/

/-- The triple `getsource_t`. -/
structure getsource_t where
  slotidx : Nat := 0
  icon : Nat := 0
  avail : Bool := false
deriving DecidableEq

/-- The operator `==` of `getsource_t`, which compares slot and icon only. -/
def getsource_t.eq (l r : getsource_t) : Bool :=
  decide (l.slotidx = r.slotidx) && decide (l.icon = r.icon)

/-- A source (`source_t`).  Each function member is given by what a call of it returns
during the operation at hand, and is `none` when the `std::function` is empty, whose
call throws. -/
structure source_t (T : Type) where
  label_printer : Option String := none
  icon : Nat := 0
  source_func : Option (List T) := none
  source_avail_func : Option Bool := none

/-- A slot (`slot_t`): the current icon and the sources under their icons. -/
structure slot_t (T : Type) where
  cur_icon : Nat := 0
  slotcont : List (Nat × source_t T) := []

/-- State of a sourced list (`advuilist_sourced<Container, T>`).  `base` is the engine
it derives from; the engine points to the member `_container`, which is therefore
`base._olist`.  The `on_force_rebuild` hook of the engine is the call of `_resource()`
the constructor installs; it reads the sources, so it is run by `base_rebuild` below. -/
structure advuilist_sourced (T : Type) where
  base : advuilist T
  _sources : List (Nat × slot_t T) := []
  _size : point := { x := -1, y := -1 }
  _origin : point := { x := -1, y := -1 }
  _map_size : point := { x := 0, y := 0 }
  _cslot : Nat := 0
  _hslot : Nat := size_mod - 1
  _prevsrc : getsource_t := {}
  needsinit : Bool := true

namespace advuilist_sourced

variable {T : Type}

/-- The member `add_source(slot, src)`; the registration of the action of a new slot
with the input context is left out. -/
def add_source (s : advuilist_sourced T) (slot : Nat) (src : source_t T) :
    advuilist_sourced T :=
  match map_find s._sources slot with
  | some sl =>
    { s with _sources :=
        (map_set s._sources slot
          { sl with slotcont := slotcont_set sl.slotcont src.icon src }) }
  | none =>
    { s with _sources :=
        (map_set s._sources slot
          { cur_icon := src.icon, slotcont := slotcont_set [] src.icon src }) }

/-- The call `std::find_if( first, last, pred )` of `_cycle_slot` on the pairs from
`first` to `last`: the icon of the first source whose availability function returns
true, `some none` when the search reaches `last`. -/
def find_avail : List (Nat × source_t T) → Option (Option Nat)
  | [] => some none
  | (icon, src) :: rest =>
    match src.source_avail_func with
    | none => none
    | some true => some (some icon)
    | some false => find_avail rest

/-- The position of the iterator `slotcont.find( icon )`: `none` for `end()`. -/
def find_pos : List (Nat × source_t T) → Nat → Option Nat
  | [], _ => none
  | (k, _) :: rest, icon => if k = icon then some 0 else (find_pos rest icon).map (fun i => i + 1)

/-- The body of `_cycle_slot` on the slot it has read. -/
def _cycle_slot.pick (slot : slot_t T) (first : Nat) : Option Nat :=
  let icon := if first = 0 then slot.cur_icon else first
  let it : Nat :=
    match find_pos slot.slotcont icon with
    | some i => if first = 0 then i + 1 else i
    | none => slot.slotcont.length
  match find_avail (slot.slotcont.drop it) with
  | none => none
  | some (some found) => some found
  | some none =>
    match find_avail (slot.slotcont.take it) with
    | none => none
    | some (some found) => some found
    | some none => some 0

/-- The member `_cycle_slot(idx, first)`, with the state it leaves: the access
`_sources[idx]` inserts an empty slot when `idx` is not bound. -/
def _cycle_slot (s : advuilist_sourced T) (idx first : Nat) :
    Option (Nat × advuilist_sourced T) :=
  match _cycle_slot.pick (map_index {} s._sources idx) first with
  | some icon => some (icon, { s with _sources := map_touch {} s._sources idx })
  | none => none

/-- The member `_resource()`.  When the current slot or its current icon is not bound
the accesses with `[]` insert a source whose function is empty, and its call throws. -/
def _resource (s : advuilist_sourced T) : Option (advuilist_sourced T) :=
  match map_find s._sources s._cslot with
  | none => none
  | some slot =>
    match map_find slot.slotcont slot.cur_icon with
    | none => none
    | some src =>
      match src.source_func with
      | some c => some { s with base := { s.base with _olist := c } }
      | none => none

/-- The member `rebuild()` of the engine as it runs in a sourced list: the
`on_force_rebuild` hook is the call of `_resource()`. -/
def base_rebuild (s : advuilist_sourced T) : Option (advuilist_sourced T) :=
  match (if s.base._force_rebuild then s._resource else some s) with
  | none => none
  | some s0 =>
    match advuilist.rebuild.finish { s0.base with
        _list := advuilist.rebuild.scan (advuilist.rebuild.keep s0.base) s0.base._olist 0 0 } with
    | some b => some { s0 with base := b }
    | none => none

/-- The member `_quick_rebuild()`. -/
def _quick_rebuild (s : advuilist_sourced T) : Option (advuilist_sourced T) :=
  match s._resource with
  | some s1 => s1.base_rebuild
  | none => none

/-- The assignment `slot.cur_icon = target` through the reference to the slot under
`slotidx`. -/
def set_cur_icon (m : List (Nat × slot_t T)) (slotidx target : Nat) : List (Nat × slot_t T) :=
  m.map (fun p => if p.1 = slotidx then (p.1, { p.2 with cur_icon := target }) else p)

/-- The test of `set_source` on the icon `target` of `slot`: is the icon missing or its
source not available? -/
def set_source.invalid (slot : slot_t T) (target : Nat) : Option Bool :=
  match map_find slot.slotcont target with
  | none => some true
  | some src =>
    match src.source_avail_func with
    | some a => some (!a)
    | none => none

/-- The icon `target` of `set_source` for the slot under `slotidx`, with the state the
search leaves.  The icon `slotcont.begin()->first` does not exist for a slot without
sources. -/
def set_source.target (s : advuilist_sourced T) (slot : slot_t T) (slotidx icon : Nat) :
    Option (Nat × advuilist_sourced T) :=
  let target := if icon = 0 then slot.cur_icon else icon
  match set_source.invalid slot target with
  | none => none
  | some false => some (target, s)
  | some true =>
    match slot.slotcont with
    | [] => none
    | (first, _) :: _ => s._cycle_slot slotidx first

/-- The three assignments of `set_source` for an icon `target` that is not 0: the
previous source, read with `_sources[_cslot]`, then the current icon of the slot and
the current slot. -/
def set_source.commit (s1 : advuilist_sourced T) (slotidx target : Nat) : advuilist_sourced T :=
  { s1 with
    _prevsrc :=
      { slotidx := s1._cslot
        icon := (map_index {} s1._sources s1._cslot).cur_icon
        avail := true }
    _sources := set_cur_icon (map_touch {} s1._sources s1._cslot) slotidx target
    _cslot := slotidx }

/-- The member `set_source(slotidx, icon, fallthrough, reb)`: the value it returns and
the state it leaves. -/
def set_source (s : advuilist_sourced T) (slotidx icon : Nat) (fallthrough reb : Bool) :
    Option (Bool × advuilist_sourced T) :=
  match map_find s._sources slotidx with
  | none => some (false, s)
  | some slot =>
    match set_source.target s slot slotidx icon with
    | none => none
    | some (target, s1) =>
      if target ≠ 0 then
        if reb then
          match (set_source.commit s1 slotidx target)._quick_rebuild with
          | some s3 => some (true, s3)
          | none => none
        else some (true, set_source.commit s1 slotidx target)
      else if fallthrough then
        match base_rebuild { s1 with base := { s1.base with _olist := [] } } with
        | some s3 => some (false, s3)
        | none => none
      else some (false, s1)

/-- The member `get_source()`; `at` throws for a key that is not bound. -/
def get_source (s : advuilist_sourced T) : Option getsource_t :=
  match map_find s._sources s._cslot with
  | none => none
  | some slot =>
    match map_find slot.slotcont slot.cur_icon with
    | none => none
    | some src =>
      match src.source_avail_func with
      | some a => some { slotidx := s._cslot, icon := slot.cur_icon, avail := a }
      | none => none

/-- The member `get_source_prev()`. -/
def get_source_prev (s : advuilist_sourced T) : getsource_t :=
  s._prevsrc

/-- The member `rebuild()`. -/
def rebuild (s : advuilist_sourced T) : Option (advuilist_sourced T) :=
  match set_source { s with needsinit := false } s._cslot 0 true true with
  | some r => some r.2
  | none => none

/-- The member `resize(size, origin, reserved_rows)` of the engine as it runs in a
sourced list. -/
def base_resize (TERM : point) (s : advuilist_sourced T) (size origin reserved_rows : point) :
    Option (advuilist_sourced T) :=
  let g := advuilist.resize.geometry TERM s.base size origin reserved_rows
  if g.2 ≠ s.base._pagesize then base_rebuild { s with base := { g.1 with _pagesize := g.2 } }
  else some { s with base := g.1 }

/-- The member `resize(size, origin, reserved_rows)`; the window of the source map is
left out. -/
def resize (TERM : point) (s : advuilist_sourced T) (size origin reserved_rows : point) :
    Option (advuilist_sourced T) :=
  let nsize := advuilist.resize.size TERM size
    { x := Int.tdiv TERM.x 4, y := Int.tdiv TERM.y 4 }
  let norigin := advuilist.resize.origin TERM nsize origin
  let offset : point := { x := 0, y := 1 + 1 + s._map_size.y }
  base_resize TERM { s with _size := nsize, _origin := norigin }
    { x := nsize.x - offset.x, y := nsize.y - offset.y }
    { x := norigin.x + offset.x, y := norigin.y + offset.y } reserved_rows

/-- The member `get_size()`. -/
def get_size (s : advuilist_sourced T) : point × point :=
  (s._size, s._origin)

/-- The member `suspend()`, which the sourced list takes from the engine. -/
def suspend (s : advuilist_sourced T) : advuilist_sourced T :=
  { s with base := s.base.suspend }

/-- The member `force_rebuild(state)`, which the sourced list takes from the engine. -/
def force_rebuild (s : advuilist_sourced T) (state : Bool) : advuilist_sourced T :=
  { s with base := s.base.force_rebuild state }

end advuilist_sourced

/-! ## Two-pane window (`transaction_ui.h`) -/

/-- The events of the two-pane window (`transaction_ui::event`). -/
inductive event where
  | QUIT
  | SWAP
  | SWITCH
  | ACTIVITY
  | NEVENTS
deriving DecidableEq

/-- State of the two-pane window (`transaction_ui<Container, T>`): `_panes` holds the
pane at `_left` and the pane at `_right`, `_queue` the events from front to back. -/
structure transaction_ui (T : Type) where
  _size : point := { x := -1, y := -1 }
  _origin : point := { x := -1, y := -1 }
  _panes : advuilist_sourced T × advuilist_sourced T
  _queue : List event := []
  _cpane : Nat := 0
  _exit : Bool := true

namespace transaction_ui

variable {T : Type}

/-- The element `_panes[i]`; an index that is not 0 or 1 is out of the array. -/
def pane (ui : transaction_ui T) (i : Nat) : Option (advuilist_sourced T) :=
  if i = 0 then some ui._panes.1 else if i = 1 then some ui._panes.2 else none

/-- The window with `p` written over the pane `_panes[i]`. -/
def set_pane (ui : transaction_ui T) (i : Nat) (p : advuilist_sourced T) :
    Option (transaction_ui T) :=
  if i = 0 then some { ui with _panes := (p, ui._panes.2) }
  else if i = 1 then some { ui with _panes := (ui._panes.1, p) }
  else none

/-- The member `left()`. -/
def left (ui : transaction_ui T) : advuilist_sourced T :=
  ui._panes.1

/-- The member `right()`. -/
def right (ui : transaction_ui T) : advuilist_sourced T :=
  ui._panes.2

/-- The member `cur_pane()`. -/
def cur_pane (ui : transaction_ui T) : Option (advuilist_sourced T) :=
  ui.pane ui._cpane

/-- The member `other_pane()`. -/
def other_pane (ui : transaction_ui T) : Option (advuilist_sourced T) :=
  ui.pane (size_sub 1 ui._cpane)

/-- The member `push_event(ev)`. -/
def push_event (ui : transaction_ui T) (ev : event) : transaction_ui T :=
  { ui with _queue := ui._queue ++ [ev] }

/-- The member `resize(size, origin)`. -/
def resize (TERM : point) (ui : transaction_ui T) (size origin : point) :
    Option (transaction_ui T) :=
  let nsize := advuilist.resize.size TERM size
    { x := Int.tdiv (TERM.x * 3) 4, y := TERM.y }
  let norigin := advuilist.resize.origin TERM nsize origin
  match advuilist_sourced.resize TERM ui._panes.1
      { x := Int.tdiv nsize.x 2, y := nsize.y } norigin { x := -1, y := -1 },
    advuilist_sourced.resize TERM ui._panes.2
      { x := Int.tdiv nsize.x 2, y := nsize.y }
      { x := norigin.x + Int.tdiv nsize.x 2, y := norigin.y } { x := -1, y := -1 } with
  | some l, some r => some { ui with _size := nsize, _origin := norigin, _panes := (l, r) }
  | _, _ => none

/-- The member `_swap_panes()`. -/
def _swap_panes (TERM : point) (ui : transaction_ui T) : Option (transaction_ui T) :=
  resize TERM { ui with _panes := (ui._panes.2, ui._panes.1) } ui._size ui._origin

/-- The member `force_rebuild(state)`. -/
def force_rebuild (ui : transaction_ui T) (state : Bool) : transaction_ui T :=
  { ui with _panes := (ui._panes.1.force_rebuild state, ui._panes.2.force_rebuild state) }

/-- The member `_process(ev)`; `hide()` only closes the windows. -/
def _process (TERM : point) (ui : transaction_ui T) (ev : event) : Option (transaction_ui T) :=
  match ev with
  | event.QUIT => some { ui with _exit := true }
  | event.SWAP => ui._swap_panes TERM
  | event.SWITCH => some { ui with _cpane := size_add (size_sub 0 ui._cpane) 1 }
  | event.ACTIVITY => some { ui.force_rebuild true with _exit := true }
  | event.NEVENTS => some ui

/-- The loop of `show()` that empties the queue, on the events `evs` left in it. -/
def process_queue (TERM : point) : List event → transaction_ui T → Option (transaction_ui T)
  | [], ui => some ui
  | ev :: evs, ui =>
    match ui._process TERM ev with
    | some ui1 => process_queue TERM evs ui1
    | none => none

end transaction_ui

/-! ## Advanced inventory (`advanced_inv_ng.cpp`) -/

/-- The constant `SOURCE_DRAGGED_i`, the character D. -/
def SOURCE_DRAGGED_i : Nat := 68

/-- The constant `SOURCE_VEHICLE_i`, the character V. -/
def SOURCE_VEHICLE_i : Nat := 86

/-- The constant `DRAGGED_IDX`. -/
def DRAGGED_IDX : Nat := 1

/-- The function `is_vehicle(icon)`. -/
def is_vehicle (icon : Nat) : Bool :=
  decide (icon = SOURCE_DRAGGED_i) || decide (icon = SOURCE_VEHICLE_i)

/-- The function `is_dragged(src)`; `grab` is the slot `offset_to_slotidx` gives for the
grab point of the avatar. -/
def is_dragged (grab : Nat) (src : getsource_t) : Bool :=
  is_vehicle src.icon && (decide (src.slotidx = DRAGGED_IDX) || decide (src.slotidx = grab))

/-- The function `swap_panes_maybe(ui, mouse)`: the value it returns and the window it
leaves. -/
def swap_panes_maybe {T : Type} (grab : Nat) (ui : transaction_ui T) (mouse : Bool) :
    Option (Bool × transaction_ui T) :=
  match ui.cur_pane, ui.other_pane with
  | some cur, some other =>
    let psrc := cur.get_source_prev
    match cur.get_source, other.get_source with
    | some csrc, some osrc =>
      if csrc.avail && osrc.avail &&
          (csrc.eq osrc || (csrc.eq psrc && !mouse) ||
            (is_dragged grab csrc && is_dragged grab osrc)) then
        match cur.set_source psrc.slotidx psrc.icon false false with
        | some (_, cur1) =>
          match ui.set_pane ui._cpane cur1.suspend with
          | some ui1 => some (true, ui1.push_event event.SWAP)
          | none => none
        | none => none
      else some (false, ui)
    | _, _ => none
  | _, _ => none

/-! ## Rows of a page -/

/-- The value of `cpentries` at the test `cpentries > lpagesize` of the loop of
`_paginate`, for the entry `it`: one more for the entry, and one more before that when
the entry opens a group. -/
def advuilist._paginate.count {T : Type} (fglabel : Option (T → String))
    (st : paginate_st T) (it : entry_t T) : Nat :=
  (if (match fglabel with
      | some f => decide (f it.ptr.elem ≠ f st.gbegin.ptr.elem)
      | none => false) = true then st.cpentries + 1 else st.cpentries) + 1

/-- The rows the loop of `_print` writes for the entries of a page: a row for each
entry, and before it a row for the group header when grouping is on (`_cgroup != 0`)
and the label of the entry is not the string `cgroup`, which starts empty. -/
def advuilist._print.rows {T : Type} (grouped : Bool) (fglabel : T → String) :
    List (entry_t T) → String → Nat
  | [], _ => 0
  | it :: rest, cgroup =>
    if grouped = true ∧ fglabel it.ptr.elem ≠ cgroup then
      1 + 1 + advuilist._print.rows grouped fglabel rest (fglabel it.ptr.elem)
    else 1 + advuilist._print.rows grouped fglabel rest cgroup

/-! ## Saved state of the sourced list and of the two-pane window -/

/-- Persisted state blob of the two-pane window (`transaction_ui_save_state`). -/
structure transaction_ui_save_state where
  left : advuilist_save_state := {}
  right : advuilist_save_state := {}
  cpane : Nat := 0
  initialized : Bool := false
deriving DecidableEq

/-- The constructor of the sourced list: the engine over the empty member `_container`,
with the size, the origin and the reserved rows handed on, and the layout of the source
map. -/
def advuilist_sourced.create {T : Type} (srclayout size origin reserved_rows : point) :
    advuilist_sourced T :=
  { base := { advuilist.create [] with
      _osize := size
      _oorigin := origin
      _headersize := reserved_rows.x
      _footersize := reserved_rows.y }
    _size := size
    _origin := origin
    _map_size := srclayout }

/-- The member `save_state(state)` of the sourced list; `at` throws when the current slot
is not bound. -/
def advuilist_sourced.save_state {T : Type} (s : advuilist_sourced T)
    (state : advuilist_save_state) : Option advuilist_save_state :=
  match map_find s._sources s._cslot with
  | some slot => some { s.base.save_state state with slot := s._cslot, icon := slot.cur_icon }
  | none => none

/-- The member `load_state(state, reb)` of the sourced list. -/
def advuilist_sourced.load_state {T : Type} (s : advuilist_sourced T)
    (state : advuilist_save_state) (reb : Bool) : Option (advuilist_sourced T) :=
  match advuilist_sourced.set_source { s with _cslot := state.slot } state.slot state.icon
      true false with
  | none => none
  | some r =>
    match r.2.base.load_state state false with
    | none => none
    | some b =>
      if reb then advuilist_sourced.rebuild { r.2 with base := b }
      else some { r.2 with base := b }

/-- The member `_set_cycle_slot()`. -/
def advuilist_sourced._set_cycle_slot {T : Type} (s : advuilist_sourced T) :
    Option (Bool × advuilist_sourced T) :=
  match s._cycle_slot s._cslot 0 with
  | none => none
  | some r =>
    if r.1 ≠ 0 then advuilist_sourced.set_source r.2 r.2._cslot r.1 false false
    else some (false, r.2)

/-- The constructor of the two-pane window: two sourced lists, then `resize`; the
handlers it registers with the panes are `_ctxthandler` below. -/
def transaction_ui.create {T : Type} (TERM srclayout size origin reserved_rows : point) :
    Option (transaction_ui T) :=
  transaction_ui.resize TERM
    { _size := size
      _origin := origin
      _panes := (advuilist_sourced.create srclayout size origin reserved_rows,
        advuilist_sourced.create srclayout size origin reserved_rows) }
    size origin

/-- The member `save_state(state)` of the two-pane window. -/
def transaction_ui.save_state {T : Type} (ui : transaction_ui T)
    (state : transaction_ui_save_state) : Option transaction_ui_save_state :=
  match ui._panes.1.save_state state.left, ui._panes.2.save_state state.right with
  | some l, some r => some { left := l, right := r, cpane := ui._cpane, initialized := true }
  | _, _ => none

/-- The member `load_state(state, reb)` of the two-pane window. -/
def transaction_ui.load_state {T : Type} (ui : transaction_ui T)
    (state : transaction_ui_save_state) (reb : Bool) : Option (transaction_ui T) :=
  match ui._panes.1.load_state state.left reb, ui._panes.2.load_state state.right reb with
  | some l, some r => some { ui with _panes := (l, r), _cpane := state.cpane }
  | _, _ => none

/-! ## Input handler of the two-pane window -/

/-- Modelled from the spec: `inclusive_rectangle<point>::contains` of
`cuboid_rectangle.h`, which is not among the sources.  The rectangle holds both of its
corners, as the name of the type says and as `_print_map` relies on when it makes the
rectangle of an icon from two corners of the same row. -/
def inclusive_rectangle_contains (p_min p_max p : point) : Bool :=
  decide (p_min.x ≤ p.x) && decide (p.x ≤ p_max.x) &&
    decide (p_min.y ≤ p.y) && decide (p.y ≤ p_max.y)

/-- The two statements `_queue.emplace( event::SWITCH ); ui->suspend();` of
`_ctxthandler`.  The pane `ui` that hands the action on is the one whose `select()`
runs, which `show()` takes from `_panes[_cpane]`. -/
def transaction_ui._ctxthandler.switch {T : Type} (ui : transaction_ui T) :
    Option (transaction_ui T) :=
  match ui.cur_pane with
  | some cur => (ui.push_event event.SWITCH).set_pane ui._cpane cur.suspend
  | none => none

/-- The branch of `_ctxthandler` for the two mouse actions; `o_p` is the position
`get_coordinates_text` reports, if it reports one. -/
def transaction_ui._ctxthandler.mouse {T : Type} (ui : transaction_ui T)
    (o_p : Option point) : Option (transaction_ui T) :=
  match ui.other_pane with
  | none => none
  | some other =>
    match o_p with
    | some p =>
      if inclusive_rectangle_contains other.get_size.2
          { x := other.get_size.1.x + other.get_size.2.x,
            y := other.get_size.1.y + other.get_size.2.y } p = true then
        transaction_ui._ctxthandler.switch ui
      else some ui
    | none => some ui

/-- The statements of `_ctxthandler(ui, action)` before the call of the handler
`_fctxt`. -/
def transaction_ui._ctxthandler.events {T : Type} (ui : transaction_ui T) (action : action_t)
    (o_p : Option point) : Option (transaction_ui T) :=
  match action with
  | action_t.QUIT => some (ui.push_event event.QUIT)
  | action_t.SWITCH_PANES => transaction_ui._ctxthandler.switch ui
  | action_t.PANE_LEFT =>
    if ui._cpane = 1 then transaction_ui._ctxthandler.switch ui else some ui
  | action_t.PANE_RIGHT =>
    if ui._cpane = 0 then transaction_ui._ctxthandler.switch ui else some ui
  | action_t.MOUSE_SELECT => transaction_ui._ctxthandler.mouse ui o_p
  | action_t.MOUSE_MOVE => transaction_ui._ctxthandler.mouse ui o_p
  | _ => some ui

/-- The member `_ctxthandler(ui, action)`; `fctxt` is the handler `_fctxt` of the
window. -/
def transaction_ui._ctxthandler {T : Type}
    (fctxt : Option (transaction_ui T → action_t → Option (transaction_ui T)))
    (ui : transaction_ui T) (action : action_t) (o_p : Option point) :
    Option (transaction_ui T) :=
  match transaction_ui._ctxthandler.events ui action o_p, fctxt with
  | none, _ => none
  | some ui1, none => some ui1
  | some ui1, some f => f ui1 action

/-! ## Persistence (`advuilist.cpp`, `transaction_ui.cpp`) -/

/-- Modelled from the spec: the values `JsonOut` writes and `JsonObject` reads, of
`json.h`, which is not among the sources: numbers, texts, and objects that are lists of
named members. -/
inductive json_value where
  | number (n : Nat)
  | text (s : String)
  | object (members : List (String × json_value))

/-- Modelled from the spec: the member of the name `name` of a JSON object, if there is
one. -/
def json_member (jo : List (String × json_value)) (name : String) : Option json_value :=
  match jo.find? (fun m => decide (m.1 = name)) with
  | some m => some m.2
  | none => none

/-- Modelled from the spec: `JsonObject::read( name, var )` for a variable that holds a
number.  The new value of the variable, `none` when the call returns false: the member
is missing or is not a number. -/
def json_read_number (jo : List (String × json_value)) (name : String) : Option Nat :=
  match json_member jo name with
  | some (json_value.number n) => some n
  | _ => none

/-- Modelled from the spec: `JsonObject::read( name, var )` for a variable that holds a
text. -/
def json_read_text (jo : List (String × json_value)) (name : String) : Option String :=
  match json_member jo name with
  | some (json_value.text s) => some s
  | _ => none

/-- Modelled from the spec: `JsonObject::read( name, var )` for a variable with a member
`deserialize`: the object it is handed when the member is an object. -/
def json_read_object (jo : List (String × json_value)) (name : String) :
    Option (List (String × json_value)) :=
  match json_member jo name with
  | some (json_value.object members) => some members
  | _ => none

/-- The member `advuilist_save_state::serialize`: the object it writes. -/
def advuilist_save_state.serialize (s : advuilist_save_state) : json_value :=
  json_value.object
    [("slot", json_value.number s.slot), ("idx", json_value.number s.idx),
      ("sort", json_value.number s.sort), ("group", json_value.number s.group),
      ("icon", json_value.number s.icon), ("filter", json_value.text s.filter)]

/-- The member `advuilist_save_state::deserialize`: a member that `read` finds is
assigned, the others stay, and `initialized` is what the `read` of "slot" returns. -/
def advuilist_save_state.deserialize (s : advuilist_save_state)
    (jo : List (String × json_value)) : advuilist_save_state :=
  { slot := (json_read_number jo "slot").getD s.slot
    idx := (json_read_number jo "idx").getD s.idx
    sort := (json_read_number jo "sort").getD s.sort
    group := (json_read_number jo "group").getD s.group
    icon := (json_read_number jo "icon").getD s.icon
    filter := (json_read_text jo "filter").getD s.filter
    initialized := (json_read_number jo "slot").isSome }

/-- The member `transaction_ui_save_state::serialize`: the object it writes. -/
def transaction_ui_save_state.serialize (t : transaction_ui_save_state) : json_value :=
  json_value.object
    [("cpane", json_value.number t.cpane), ("left", t.left.serialize),
      ("right", t.right.serialize)]

/-- The member `transaction_ui_save_state::deserialize`. -/
def transaction_ui_save_state.deserialize (t : transaction_ui_save_state)
    (jo : List (String × json_value)) : transaction_ui_save_state :=
  { cpane := (json_read_number jo "cpane").getD t.cpane
    left :=
      match json_read_object jo "left" with
      | some members => t.left.deserialize members
      | none => t.left
    right :=
      match json_read_object jo "right" with
      | some members => t.right.deserialize members
      | none => t.right
    initialized := (json_read_number jo "cpane").isSome &&
      (json_read_object jo "left").isSome && (json_read_object jo "right").isSome }

/-- Modelled from the spec: the object `JsonObject` a value written by `serialize` is
read back as; a value that is not an object has no members. -/
def json_object_of (v : json_value) : List (String × json_value) :=
  match v with
  | json_value.object members => members
  | _ => []

/-! ## Saved state of the advanced inventory (`advanced_inv_ng.cpp`) -/

/-- The constant `INV_IDX`. -/
def INV_IDX : Nat := 7

/-- The constant `ALL_IDX`. -/
def ALL_IDX : Nat := 12

/-- The constant `aim_default_state`: the left pane shows the slot `ALL_IDX` and the
right pane the slot `INV_IDX`, both with the sort index 1 and the group index 1. -/
def aim_default_state : transaction_ui_save_state :=
  { left :=
      { slot := ALL_IDX, idx := 0, sort := 1, group := 1, icon := 0, filter := "",
        initialized := false }
    right :=
      { slot := INV_IDX, idx := 0, sort := 1, group := 1, icon := 0, filter := "",
        initialized := false }
    cpane := 0 }

/-- The function `save_adv_inv_state`: the members it writes for the two states
`adv_inv_state` and `adv_inv_default_state`. -/
def save_adv_inv_state (adv_inv_state adv_inv_default_state : transaction_ui_save_state) :
    List (String × json_value) :=
  [("adv_inv_state", adv_inv_state.serialize),
    ("adv_inv_default_state", adv_inv_default_state.serialize)]

/-- The function `load_adv_inv_state`: the states `adv_inv_state` and
`adv_inv_default_state` after it.  A `read` that finds its member hands the object to
`deserialize`; a state whose member is missing stays as it is. -/
def load_adv_inv_state (jo : List (String × json_value))
    (adv_inv_state adv_inv_default_state : transaction_ui_save_state) :
    transaction_ui_save_state × transaction_ui_save_state :=
  (match json_read_object jo "adv_inv_state" with
    | some members => adv_inv_state.deserialize members
    | none => adv_inv_state,
   match json_read_object jo "adv_inv_default_state" with
    | some members => adv_inv_default_state.deserialize members
    | none => adv_inv_default_state)

/-- The state `create_advanced_inv` hands to `load_state` of the window: `saved_state`
when its flag `initialized` is set, and `aim_default_state` otherwise. -/
def create_advanced_inv.state (saved_state : transaction_ui_save_state) :
    transaction_ui_save_state :=
  if saved_state.initialized then saved_state else aim_default_state

/-! ## Vocabulary of the specification -/

/-- The indices of the half-open range of a page. -/
def page_entries (p : page_t) : List Nat := List.range' p.1 (p.2 - p.1)

/-- The pages are consecutive half-open ranges leading from `a` to `b`. -/
def covers : List page_t → Nat → Nat → Prop
  | [], a, b => a = b
  | p :: ps, a, b => p.1 = a ∧ p.1 ≤ p.2 ∧ covers ps p.2 b

/-- Strict weak ordering: what the C++ library requires of a comparison function. -/
structure strict_weak_order {α : Type} (lt : α → α → Bool) : Prop where
  irrefl : ∀ a, lt a a = false
  trans : ∀ a b c, lt a b = true → lt b c = true → lt a c = true
  incomp : ∀ a b c, lt a b = false → lt b a = false → lt b c = false → lt c b = false →
    lt a c = false ∧ lt c a = false

/-- The order of the active sorter on entries: its function on the elements, or the
order of the insertion indices for the "none" sorter. -/
def sorter_lt {T : Type} (so : sorter_t T) (a b : entry_t T) : Bool :=
  match so.sorter with
  | some f => f a.ptr.elem b.ptr.elem
  | none => decide (a.idx < b.idx)

/-- Two values are not ordered by `lt`, in either direction. -/
def unordered {α : Type} (lt : α → α → Bool) (a b : α) : Bool := !lt a b && !lt b a

/-- The ordering function of a grouper agrees with its labels: it is a strict weak
order and it leaves two elements unordered exactly when their labels are equal. -/
def grouper_consistent {T : Type} (gs : T → T → Bool) (gl : T → String) : Prop :=
  strict_weak_order gs ∧ ∀ a b, unordered gs a b = true ↔ gl a = gl b

/-- The pages partition the index range `[0, n)`: there is a page, the first page begins
at 0, the end of every page is the begin of the next one, the last page ends at `n`,
and the ranges of the pages, one after the other, are exactly `0, 1, ..., n - 1`. -/
def pages_partition (pages : List page_t) (n : Nat) : Prop :=
  pages ≠ [] ∧
  pages.head?.map Prod.fst = some 0 ∧
  List.Chain' (fun p q : page_t => p.2 = q.1) pages ∧
  pages.getLast?.map Prod.snd = some n ∧
  (pages.map page_entries).flatten = List.range n

/-- The entries of one label form one contiguous run of the list: an entry between two
entries of equal label carries their label. -/
def groups_contiguous {T : Type} (gl : T → String) (l : List (entry_t T)) : Prop :=
  ∀ (i j k : Nat) (a b c : entry_t T), i < j → j < k →
    l[i]? = some a → l[j]? = some b → l[k]? = some c →
    gl a.ptr.elem = gl c.ptr.elem → gl b.ptr.elem = gl a.ptr.elem

/-- The list follows the composite order: an entry placed before another one is not
after it in the grouper's order when their labels differ, and not after it in the
sorter's order when their labels are equal. -/
def composite_ordered {T : Type} (so : sorter_t T) (gs : T → T → Bool) (gl : T → String)
    (l : List (entry_t T)) : Prop :=
  l.Pairwise (fun a b =>
    (gl a.ptr.elem ≠ gl b.ptr.elem → gs b.ptr.elem a.ptr.elem = false) ∧
    (gl a.ptr.elem = gl b.ptr.elem → sorter_lt so b a = false))

/-- The list `output` is a stable sort of `input` by `lt`, in the words of the
specification: a permutation of the input, no element placed before one that `lt` puts
before it, and the elements `lt` does not order among themselves in their input order. -/
def is_stable_sort {α : Type} (lt : α → α → Bool) (input output : List α) : Prop :=
  output.Perm input ∧
  output.Pairwise (fun a b => lt b a = false) ∧
  ∀ x, output.filter (unordered lt x) = input.filter (unordered lt x)

/-- The cursor index `idx` clamped to the last valid index of a list of length `n`, 0 for
an empty list. -/
def clamp_idx (idx n : Nat) : Nat := if n = 0 then 0 else if idx > n - 1 then n - 1 else idx

/-- The iterator of an entry, as the pair of its position and its element. -/
def entry_pair {T : Type} (e : entry_t T) : Nat × T := (e.ptr.pos, e.ptr.elem)

/-- Is `after` the registry `before` with `newc` upserted by name?  Either an entry of
that name exists, and the first one, at index `i`, is overwritten while the length and
every other entry stay; or no entry has the name and `newc` is appended at the end. -/
def is_upsert {C : Type} (name : C → String) (before : List C) (newc : C) (after : List C) :
    Prop :=
  (∃ i old, before[i]? = some old ∧ name old = name newc ∧
      (∀ (j : Nat) (b : C), j < i → before[j]? = some b → name b ≠ name newc) ∧
      after.length = before.length ∧ after[i]? = some newc ∧
      ∀ j : Nat, j ≠ i → after[j]? = before[j]?) ∨
    ((∀ b ∈ before, name b ≠ name newc) ∧ after = before ++ [newc])

/-- Does index 0 of a registry hold an entry named "none"? -/
def none_at_zero {C : Type} (name : C → String) (reg : List C) : Prop :=
  ∃ n, reg[0]? = some n ∧ name n = "none"

/-- The selectable count of the element of the entry `e`: the value of the counting
function, or 1 when no counting function is set. -/
def selectable_count {T : Type} (s : advuilist T) (e : entry_t T) : Nat :=
  match s._fcounter with
  | some fcounter => fcounter e.ptr.elem
  | none => 1

/-- What `select()` hands back, for comparison: the count and the position of each
selection it returns, `none` while it waits for input. -/
def selection_view {T : Type} : select_result T → Option (List (Nat × Nat))
  | select_result.returned sel _ => some (sel.map (fun x => (x.count, x.ptr.pos)))
  | select_result.waiting _ => none

/-- The source bound under the pair of `slot` and `icon`, if there is one. -/
def advuilist_sourced.binding {T : Type} (s : advuilist_sourced T) (slot icon : Nat) :
    Option (source_t T) :=
  (map_find s._sources slot).bind (fun sl => map_find sl.slotcont icon)

/-- The current icon of `slot`, if the slot has an entry. -/
def advuilist_sourced.cur_icon_of {T : Type} (s : advuilist_sourced T) (slot : Nat) :
    Option Nat :=
  (map_find s._sources slot).map slot_t.cur_icon

/-- Does every slot that has an entry hold at least one source?  `add_source` makes
slots that do. -/
def slots_bound {T : Type} (s : advuilist_sourced T) : Prop :=
  ∀ p ∈ s._sources, p.2.slotcont.length ≠ 0

instance slots_bound_decidable {T : Type} (s : advuilist_sourced T) :
    Decidable (slots_bound s) := by
  unfold slots_bound
  infer_instance



/-- Do the rebuilds that `set_source` may run for the slot `slotidx` return?  The sort
index and the group index of the engine are valid, no source function of the slot is
empty, and under forced rebuild the current source can be read. -/
def rebuild_ready {T : Type} (s : advuilist_sourced T) (slotidx : Nat) : Prop :=
  s.base._csort < s.base._sorters.length ∧ s.base._cgroup < s.base._groupers.length ∧
    (∀ p ∈ (map_index {} s._sources slotidx).slotcont, p.2.source_func.isSome = true) ∧
    (s.base._force_rebuild = true → s._resource.isSome = true)

instance rebuild_ready_decidable {T : Type} (s : advuilist_sourced T) (slotidx : Nat) :
    Decidable (rebuild_ready s slotidx) := by
  unfold rebuild_ready
  infer_instance

/-- Is the source under `icon` in the slot bound and available? -/
def icon_available {T : Type} (slot : slot_t T) (icon : Nat) : Prop :=
  ∃ src, map_find slot.slotcont icon = some src ∧ src.source_avail_func = some true

/-- Are the icons of the map of a slot in increasing order as values of `char`, as its
iteration gives them? -/
def icons_ordered {V : Type} (m : List (Nat × V)) : Prop :=
  (m.map (fun p => icon_key p.1)).Pairwise (fun a b => a < b)

instance icons_ordered_decidable {V : Type} (m : List (Nat × V)) :
    Decidable (icons_ordered m) := by
  unfold icons_ordered
  infer_instance

/-- Is the slot well formed for `set_source`?  It holds a source, its icons are in the
order of its map, no source is under the icon 0, and no availability function is
empty. -/
def slot_ok {T : Type} (slot : slot_t T) : Prop :=
  slot.slotcont.length ≠ 0 ∧ icons_ordered slot.slotcont ∧
    ∀ p ∈ slot.slotcont, p.1 ≠ 0 ∧ p.2.source_avail_func.isSome = true

instance slot_ok_decidable {T : Type} (slot : slot_t T) : Decidable (slot_ok slot) := by
  unfold slot_ok
  infer_instance

/-- The search the specification describes for `set_source`: forward and cyclic from
the wanted icon, so the first available icon among those after `icon`, in the order of
the icons, and then the first available one among those before it; `none` when no other
icon is available. -/
def cyclic_search_from {T : Type} (slot : slot_t T) (icon : Nat) : Option Nat :=
  let avail := fun p : Nat × source_t T => p.2.source_avail_func == some true
  match (slot.slotcont.filter (fun p => decide (icon_key icon < icon_key p.1))).find? avail with
  | some p => some p.1
  | none =>
    match (slot.slotcont.filter (fun p => decide (icon_key p.1 < icon_key icon))).find? avail with
    | some p => some p.1
    | none => none

/-- Does the position `p` lie in the rectangle `_ctxthandler` makes of a pane: from the
origin of the pane to the origin plus the size, both corners taken in? -/
def in_pane_rectangle {T : Type} (pane : advuilist_sourced T) (p : point) : Prop :=
  pane._origin.x ≤ p.x ∧ p.x ≤ pane._origin.x + pane._size.x ∧
    pane._origin.y ≤ p.y ∧ p.y ≤ pane._origin.y + pane._size.y

/-- Does the position `p` lie in the bounds of a pane as the specification puts them:
from the origin on and before the origin plus the size? -/
def in_pane_bounds {T : Type} (pane : advuilist_sourced T) (p : point) : Prop :=
  pane._origin.x ≤ p.x ∧ p.x < pane._origin.x + pane._size.x ∧
    pane._origin.y ≤ p.y ∧ p.y < pane._origin.y + pane._size.y

instance in_pane_bounds_decidable {T : Type} (pane : advuilist_sourced T) (p : point) :
    Decidable (in_pane_bounds pane p) := by
  unfold in_pane_bounds
  infer_instance

/-- Cursor and page agree: the current page index is an index of the page list and that
page holds the cursor index, or the list is empty and the cursor index and the page
index are 0. -/
def cursor_on_page {T : Type} (s : advuilist T) : Prop :=
  (∃ p ∈ s._pages[s._cpage]?, p.1 ≤ s._cidx ∧ s._cidx < p.2) ∨
    (s._list.length = 0 ∧ s._cidx = 0 ∧ s._cpage = 0)

instance cursor_on_page_decidable {T : Type} (s : advuilist T) : Decidable (cursor_on_page s) := by
  unfold cursor_on_page
  infer_instance

/-- The pages the specification gives for a list of `N` entries without grouping and a
page size `P`: the one page [0,0) for no entry, and else the pages
[k*P, min((k+1)*P, N)) for k below the number `N / P` rounded up, which is
`(N + P - 1) / P`. -/
def uniform_pages (P N : Nat) : List page_t :=
  if N = 0 then [(0, 0)]
  else (List.range ((N + P - 1) / P)).map (fun k => (k * P, min ((k + 1) * P) N))

/-- The entries of the page `p` of the list `l`: those at the indices from `p.1` on and
before `p.2`. -/
def page_slice {α : Type} (l : List α) (p : page_t) : List α := (l.drop p.1).take (p.2 - p.1)

/-- The number of positions of a run of entries where the group label differs from the
label of the entry before it in the run. -/
def label_changes {T : Type} (gl : T → String) : List (entry_t T) → Nat
  | a :: b :: rest =>
    (if gl b.ptr.elem ≠ gl a.ptr.elem then 1 else 0) + label_changes gl (b :: rest)
  | _ => 0

/-- The rows a run of entries takes below the header at the top of its page: a row for
each entry and, with a label function, a row for each change of the label. -/
def page_weight {T : Type} (fglabel : Option (T → String)) (xs : List (entry_t T)) : Nat :=
  xs.length +
    match fglabel with
    | some gl => label_changes gl xs
    | none => 0

/-! ## Worked examples -/

/-- The "none" sorter the constructor installs. -/
def none_sorter (T : Type) : sorter_t T := { name := "none", sorter := none }

/-- The "none" grouper the constructor installs. -/
def none_grouper (T : Type) : grouper_t T := { name := "none", sorter := none, fgid := none }

/-- A sorter of numbers by value. -/
def value_sorter : sorter_t Nat := { name := "value", sorter := some (fun a b => decide (a < b)) }

/-- The label of a number under the parity grouper. -/
def parity_label (a : Nat) : String := if a % 2 = 0 then "even" else "odd"

/-- The order of the parity grouper: even numbers before odd ones. -/
def parity_lt (a b : Nat) : Bool := decide (a % 2 < b % 2)

/-- A grouper of numbers by parity. -/
def parity_grouper : grouper_t Nat :=
  { name := "parity", sorter := some parity_lt, fgid := some parity_label }

/-- An engine over seven numbers, with a sorter by value and a grouper by parity
registered, a page size of 3, and the entries of all seven numbers in the list. -/
def numbers : advuilist Nat :=
  { advuilist.create [5, 2, 7, 4, 1, 6, 8] with
    _sorters := [none_sorter Nat, value_sorter]
    _groupers := [none_grouper Nat, parity_grouper]
    _pagesize := 3
    _list := advuilist.rebuild.scan (fun _ => true) [5, 2, 7, 4, 1, 6, 8] 0 0 }

/-- The engine `numbers` with grouping disabled, its pages computed and the cursor at
the index `c`. -/
def numbers_at (c : Nat) : advuilist Nat :=
  { numbers with
    _pages := [(0, 3), (3, 6), (6, 7)]
    _cidx := c
    _cpage := c / 3
    _needsinit := false }

/-- The element type of the scenarios of the specification: a name and a count. -/
structure item where
  name : String
  n : Nat
deriving DecidableEq

/-- The collection of the filter scenario. -/
def rocks : List item := [⟨"rock", 1⟩, ⟨"rag", 2⟩, ⟨"rope", 1⟩]

/-- The engine of the filter scenario: a fresh engine over `rocks` with one column that
prints the name, and the filter text "ro". -/
def rocks_engine : advuilist item :=
  { advuilist.create rocks with
    _columns := [{ name := "name", printer := fun x _ => x.name }]
    _filter := "ro" }

/-- An engine over a stack of five arrows and an empty quiver, counted by the member
`n`, with its entries and pages built and the cursor at the index `c`. -/
def stacks_at (c : Nat) : advuilist item :=
  { advuilist.create [⟨"arrow", 5⟩, ⟨"quiver", 0⟩] with
    _pagesize := 3
    _list := advuilist.rebuild.scan (fun _ => true) [⟨"arrow", 5⟩, ⟨"quiver", 0⟩] 0 0
    _pages := [(0, 2)]
    _cidx := c
    _needsinit := false
    _fcounter := some item.n }

/-- A source of numbers with the icon `icon`: whether it is available and the numbers it
gives. -/
def number_source (icon : Nat) (avail : Bool) (c : List Nat) : source_t Nat :=
  { label_printer := some "numbers"
    icon := icon
    source_func := some c
    source_avail_func := some avail }

/-- A sourced list of numbers without sources, of page size 3. -/
def bare : advuilist_sourced Nat :=
  { base := { advuilist.create [] with _pagesize := 3 } }

/-- The sourced list `bare` after four calls of `add_source`: slot 0 holds the icons A
(65, available), B (66, not available) and C (67, available), and slot 1 holds the icon
A, not available. -/
def shelf : advuilist_sourced Nat :=
  (((bare.add_source 0 (number_source 65 true [5, 2])).add_source 0
    (number_source 66 false [7])).add_source 0 (number_source 67 true [4, 1])).add_source 1
    (number_source 65 false [9])

/-- The sourced list `shelf` after `set_source( 0 )`, which shows the available icon A
of slot 0: the buffer holds the numbers 5 and 2. -/
def stocked : advuilist_sourced Nat :=
  match shelf.set_source 0 0 false true with
  | some r => r.2
  | none => shelf

/-- A sourced list with two slots, each with the available icon A: slot 0 gives the
numbers 5 and 2, slot 1 the number 9. -/
def pantry : advuilist_sourced Nat :=
  (bare.add_source 0 (number_source 65 true [5, 2])).add_source 1 (number_source 65 true [9])

/-- The sourced list `pantry` after `set_source( slot )`. -/
def pantry_at (slot : Nat) : advuilist_sourced Nat :=
  match pantry.set_source slot 0 false true with
  | some r => r.2
  | none => pantry

/-- The terminal of the scenarios: 80 columns and 24 rows. -/
def screen : point := { x := 80, y := 24 }

/-- A two-pane window whose focus is on the left pane.  The left pane showed slot 0 and
has just been switched to slot 1 by an action; the right pane shows slot 1. -/
def counter : transaction_ui Nat :=
  { _size := { x := 80, y := 24 }
    _origin := { x := 0, y := 0 }
    _panes := (advuilist_sourced.set_source.commit (pantry_at 0) 1 65, pantry_at 1)
    _cpane := 0
    _exit := false }

/-- The two-pane window `counter` with the focus on the right pane, laid out on the
terminal `screen`: the left pane takes the columns from 0 and the right pane those from
40, each 40 wide and 24 high. -/
def laid_out : transaction_ui Nat :=
  match transaction_ui.resize screen { counter with _cpane := 1 } { x := 80, y := 24 }
      { x := 0, y := 0 } with
  | some u => u
  | none => counter

/-- A sourced list whose only slot is slot 5, with the available icon A that gives the
number 3; its current slot is still the slot 0 of the constructor, which is not bound. -/
def attic : advuilist_sourced Nat :=
  bare.add_source 5 (number_source 65 true [3])

/-- The engine `numbers` grouped by parity, with the cursor index 6, before its first
rebuild. -/
def grouped : advuilist Nat := { numbers with _cgroup := 1, _cidx := 6 }

/-- The sourced list `attic` after `set_source( 5 )` without rebuild. -/
def loft : advuilist_sourced Nat :=
  match attic.set_source 5 0 false false with
  | some r => r.2
  | none => attic

/-- A sourced list whose slot 0 holds two available sources, added in this order: one
under the icon Z (90) and one under the icon of code 200, whose value as a `char` is
-56. -/
def cellar : advuilist_sourced Nat :=
  (bare.add_source 0 (number_source 90 true [1])).add_source 0 (number_source 200 true [2])

/-- The sourced list `pantry_at 0`, which shows the icon A of slot 0, once that source
is no longer available: it is registered again with an availability function that
returns false. -/
def spoiled : advuilist_sourced Nat :=
  (pantry_at 0).add_source 0 (number_source 65 false [5, 2])

/-- The sourced list `spoiled` after an action has switched it to slot 1 with
`set_source( 1, 0, false, false )`. -/
def stale_pane : advuilist_sourced Nat :=
  match spoiled.set_source 1 0 false false with
  | some r => r.2
  | none => spoiled

/-- A two-pane window whose focus is on the left pane `stale_pane`; the right pane shows
slot 1. -/
def stale : transaction_ui Nat := { counter with _panes := (stale_pane, pantry_at 1) }

/-! ## Lemmas on pages -/

theorem covers_le : ∀ (ps : List page_t) (a b : Nat), covers ps a b → a ≤ b
  | [], a, b, h => by simp [covers] at h; omega
  | p :: ps, a, b, h => by
    obtain ⟨h1, h2, h3⟩ := h
    have := covers_le ps p.2 b h3
    omega

theorem covers_append : ∀ (ps : List page_t) (a b c : Nat),
    covers ps a b → b ≤ c → covers (ps ++ [(b, c)]) a c
  | [], a, b, c, h, hbc => by
    simp only [covers] at h
    subst h
    simp [covers, hbc]
  | p :: ps, a, b, c, h, hbc => by
    obtain ⟨h1, h2, h3⟩ := h
    exact ⟨h1, h2, covers_append ps p.2 b c h3 hbc⟩

theorem covers_head (ps : List page_t) (a b : Nat) (h : covers ps a b) (hne : ps ≠ []) :
    ps.head?.map Prod.fst = some a := by
  cases ps with
  | nil => exact absurd rfl hne
  | cons p ps => simp [h.1]

theorem covers_last : ∀ (ps : List page_t) (a b : Nat), covers ps a b → ps ≠ [] →
    ps.getLast?.map Prod.snd = some b
  | [], _, _, _, hne => absurd rfl hne
  | [p], a, b, h, _ => by
    obtain ⟨_, _, h3⟩ := h
    simp only [covers] at h3
    simp [h3]
  | p :: q :: ps, a, b, h, _ => by
    obtain ⟨_, _, h3⟩ := h
    have := covers_last (q :: ps) p.2 b h3 (by simp)
    simpa [List.getLast?_cons_cons] using this

theorem covers_chain : ∀ (ps : List page_t) (a b : Nat), covers ps a b →
    List.Chain' (fun p q : page_t => p.2 = q.1) ps
  | [], _, _, _ => List.chain'_nil
  | [p], _, _, _ => List.chain'_singleton p
  | p :: q :: ps, a, b, h => by
    obtain ⟨_, _, h3⟩ := h
    have hq : q.1 = p.2 := h3.1
    exact List.Chain'.cons hq.symm (covers_chain (q :: ps) p.2 b h3)

theorem covers_flatten : ∀ (ps : List page_t) (a b : Nat), covers ps a b →
    (ps.map page_entries).flatten = List.range' a (b - a)
  | [], a, b, h => by
    simp only [covers] at h
    subst h
    simp
  | p :: ps, a, b, h => by
    obtain ⟨h1, h2, h3⟩ := h
    have ih := covers_flatten ps p.2 b h3
    have hle := covers_le ps p.2 b h3
    simp only [List.map_cons, List.flatten_cons, ih, page_entries]
    subst h1
    have e1 : p.2 = p.1 + (p.2 - p.1) := by omega
    have e2 : b - p.1 = (b - p.2) + (p.2 - p.1) := by omega
    rw [e2]
    nth_rewrite 2 [e1]
    exact List.range'_append_1 p.1 (p.2 - p.1) (b - p.2)

namespace advuilist
variable {T : Type}

theorem paginate_body_spec (fglabel : Option (T → String)) (L : Nat) (st : paginate_st T)
    (ci : Nat) (it : entry_t T) (hL : 1 ≤ L) (hc : st.cpentries ≤ L) :
    ∃ st1, _paginate.body fglabel L st ci it = some st1 ∧ st1.cpentries ≤ L ∧
      ((st1.pages = st.pages ∧ st1.pbegin = st.pbegin) ∨
       (st1.pages = st.pages ++ [(st.pbegin, ci)] ∧ st1.pbegin = ci)) := by
  unfold _paginate.body
  simp only []
  split_ifs with h1 h2 h3 h2 h3
  · exact ⟨_, rfl, hL, Or.inr ⟨rfl, rfl⟩⟩
  · exfalso
    apply h3
    have e : st.cpentries + 1 + 1 = L + (st.cpentries + 2 - L) := by omega
    rw [e, Nat.add_mod_left]
    exact le_trans (Nat.mod_le _ _) (by omega)
  · exact ⟨_, rfl, by simpa using h2, Or.inl ⟨rfl, rfl⟩⟩
  · exact ⟨_, rfl, hL, Or.inr ⟨rfl, rfl⟩⟩
  · exfalso
    apply h3
    have e : st.cpentries + 1 = L + (st.cpentries + 1 - L) := by omega
    rw [e, Nat.add_mod_left]
    exact le_trans (Nat.mod_le _ _) (by omega)
  · exact ⟨_, rfl, by simpa using h2, Or.inl ⟨rfl, rfl⟩⟩

theorem paginate_loop_spec (fglabel : Option (T → String)) (L : Nat) (hL : 1 ≤ L) :
    ∀ (rest : List (entry_t T)) (ci : Nat) (st : paginate_st T),
      st.cpentries ≤ L → covers st.pages 0 st.pbegin → st.pbegin ≤ ci →
      ∃ st1, _paginate.loop fglabel L rest ci st = some st1 ∧
        covers st1.pages 0 st1.pbegin ∧ st1.pbegin ≤ max st.pbegin (ci + rest.length - 1)
  | [], ci, st, _, hcov, _ => ⟨st, rfl, hcov, le_max_left _ _⟩
  | it :: rest, ci, st, hc, hcov, hle => by
    obtain ⟨st1, hb, hc1, hpg⟩ := paginate_body_spec fglabel L st ci it hL hc
    have hcov1 : covers st1.pages 0 st1.pbegin := by
      rcases hpg with ⟨hp, hq⟩ | ⟨hp, hq⟩
      · rw [hp, hq]; exact hcov
      · rw [hp, hq]; exact covers_append _ _ _ _ hcov hle
    have hle1 : st1.pbegin ≤ ci := by
      rcases hpg with ⟨_, hq⟩ | ⟨_, hq⟩ <;> omega
    obtain ⟨st2, hl, hcov2, hle2⟩ :=
      paginate_loop_spec fglabel L hL rest (ci + 1) st1 hc1 hcov1 (by omega)
    refine ⟨st2, ?_, hcov2, ?_⟩
    · simp only [_paginate.loop, hb, hl]
    · simp only [List.length_cons]
      have : max st1.pbegin (ci + 1 + rest.length - 1) ≤ ci + rest.length := by
        apply max_le <;> omega
      exact le_trans hle2 (le_trans this (le_trans (by omega) (le_max_right _ _)))

theorem paginate_finish_covers (n : Nat) (pages : List page_t) (pbegin : Nat)
    (hcov : covers pages 0 pbegin) (hle : pbegin ≤ n - 1) :
    _paginate.finish n pages pbegin ≠ [] ∧ covers (_paginate.finish n pages pbegin) 0 n := by
  have h : pbegin < n ∨ n = 0 := by omega
  simp only [_paginate.finish, if_pos h]
  exact ⟨by simp, covers_append _ _ _ _ hcov (by omega)⟩

theorem paginate_pages_covers (pagesize cgroup : Nat) (groupers : List (grouper_t T))
    (list : List (entry_t T)) (hg : cgroup < groupers.length) :
    ∃ pages, _paginate.pages pagesize cgroup groupers list = some pages ∧ pages ≠ [] ∧
      covers pages 0 list.length ∧ (list = [] → pages = [(0, 0)]) := by
  unfold _paginate.pages
  simp only []
  generalize size_sub pagesize (if cgroup ≠ 0 then 1 else 0) = L
  by_cases hL : L ≠ 0
  · rw [if_pos hL, List.getElem?_eq_getElem hg]
    simp only []
    cases list with
    | nil =>
      refine ⟨_, rfl, ?_, ?_, fun _ => ?_⟩ <;> simp [_paginate.finish, covers]
    | cons e rest =>
      simp only []
      obtain ⟨st, hl, hcov, hle⟩ := paginate_loop_spec groupers[cgroup].fgid L (by omega)
        (e :: rest) 0 { pages := [], pbegin := 0, cpentries := 0, gbegin := e }
        (Nat.zero_le _) (by simp [covers]) (Nat.le_refl _)
      simp only [] at hle
      rw [hl]
      simp only []
      have := paginate_finish_covers (e :: rest).length st.pages st.pbegin hcov (by simpa using hle)
      exact ⟨_, rfl, this.1, this.2, fun h => by simp at h⟩
  · rw [if_neg hL]
    have := paginate_finish_covers list.length [] 0 (by simp [covers]) (Nat.zero_le _)
    refine ⟨_, rfl, this.1, this.2, fun h => ?_⟩
    simp [h, _paginate.finish]

theorem paginate_covers (s : advuilist T) (hg : s._cgroup < s._groupers.length) :
    ∃ pages, s._paginate = some { s with _pages := pages } ∧ pages ≠ [] ∧
      covers pages 0 s._list.length ∧ (s._list = [] → pages = [(0, 0)]) := by
  obtain ⟨pages, hp, h⟩ := paginate_pages_covers s._pagesize s._cgroup s._groupers s._list hg
  exact ⟨pages, by simp only [_paginate, hp], h⟩

end advuilist

/-! ## Lemmas on sorting -/

section sorting
variable {α : Type} {lt : α → α → Bool}

theorem swo_asymm (h : strict_weak_order lt) (a b : α) (hab : lt a b = true) : lt b a = false := by
  cases hba : lt b a with
  | false => rfl
  | true =>
    have := h.trans a b a hab hba
    rw [h.irrefl a] at this
    exact absurd this (by simp)

theorem swo_neg_trans (h : strict_weak_order lt) (a b c : α) (hab : lt a b = false)
    (hbc : lt b c = false) : lt a c = false := by
  cases hac : lt a c with
  | false => rfl
  | true =>
    have hba : lt b a = false := by
      cases hba : lt b a with
      | false => rfl
      | true => rw [h.trans b a c hba hac] at hbc; exact absurd hbc (by simp)
    have hcb : lt c b = false := by
      cases hcb : lt c b with
      | false => rfl
      | true => rw [h.trans a c b hac hcb] at hab; exact absurd hab (by simp)
    have := (h.incomp a b c hab hba hbc hcb).1
    rw [hac] at this
    exact absurd this (by simp)

theorem swo_of_asymm_neg_trans (hasymm : ∀ a b, lt a b = true → lt b a = false)
    (hneg : ∀ a b c, lt a b = false → lt b c = false → lt a c = false) :
    strict_weak_order lt where
  irrefl a := by
    cases h : lt a a with
    | false => rfl
    | true => have := hasymm a a h; rw [h] at this; exact absurd this (by simp)
  trans a b c hab hbc := by
    cases hac : lt a c with
    | true => rfl
    | false =>
      have := hneg a c b hac (hasymm b c hbc)
      rw [hab] at this
      exact absurd this (by simp)
  incomp a b c hab hba hbc hcb := ⟨hneg a b c hab hbc, hneg c b a hcb hba⟩

theorem stable_insert_perm (lt : α → α → Bool) (a : α) :
    ∀ l : List α, (stable_insert lt a l).Perm (a :: l)
  | [] => List.Perm.refl _
  | b :: l => by
    unfold stable_insert
    split_ifs
    · exact ((stable_insert_perm lt a l).cons b).trans (List.Perm.swap a b l)
    · exact List.Perm.refl _

theorem stable_sort_perm (lt : α → α → Bool) : ∀ l : List α, (stable_sort lt l).Perm l
  | [] => List.Perm.refl _
  | a :: l => (stable_insert_perm lt a _).trans ((stable_sort_perm lt l).cons a)

theorem stable_insert_sorted (h : strict_weak_order lt) (a : α) :
    ∀ l : List α, l.Pairwise (fun x y => lt y x = false) →
      (stable_insert lt a l).Pairwise (fun x y => lt y x = false)
  | [], _ => by simp [stable_insert]
  | b :: l, hl => by
    have hb : ∀ y ∈ l, lt y b = false := fun y hy => List.rel_of_pairwise_cons hl hy
    have htl := List.Pairwise.of_cons hl
    unfold stable_insert
    split_ifs with hba
    · refine List.Pairwise.cons ?_ (stable_insert_sorted h a l htl)
      intro x hx
      rcases List.mem_cons.mp ((stable_insert_perm lt a l).mem_iff.mp hx) with rfl | hx
      · exact swo_asymm h b x hba
      · exact hb x hx
    · refine List.Pairwise.cons ?_ hl
      intro x hx
      rcases List.mem_cons.mp hx with rfl | hx
      · simpa using hba
      · exact swo_neg_trans h x b a (hb x hx) (by simpa using hba)

theorem stable_sort_sorted (h : strict_weak_order lt) :
    ∀ l : List α, (stable_sort lt l).Pairwise (fun x y => lt y x = false)
  | [] => List.Pairwise.nil
  | a :: l => stable_insert_sorted h a _ (stable_sort_sorted h l)

theorem stable_sort_of_sorted (lt : α → α → Bool) :
    ∀ l : List α, l.Pairwise (fun x y => lt y x = false) → stable_sort lt l = l
  | [], _ => rfl
  | a :: l, hl => by
    have ih := stable_sort_of_sorted lt l (List.Pairwise.of_cons hl)
    simp only [stable_sort, ih]
    cases l with
    | nil => rfl
    | cons b l =>
      have hba : lt b a = false := List.rel_of_pairwise_cons hl (List.mem_cons_self b l)
      simp [stable_insert, hba]

theorem stable_insert_filter (h : strict_weak_order lt) (x a : α) :
    ∀ l : List α, (stable_insert lt a l).filter (unordered lt x) = (a :: l).filter (unordered lt x)
  | [] => rfl
  | b :: l => by
    unfold stable_insert
    split_ifs with hba
    · have ih := stable_insert_filter h x a l
      by_cases hxb : unordered lt x b = true
      · have hxa : unordered lt x a = false := by
          cases hxa : unordered lt x a with
          | false => rfl
          | true =>
            simp only [unordered, Bool.and_eq_true, Bool.not_eq_true'] at hxb hxa
            have := (h.incomp b x a hxb.2 hxb.1 hxa.1 hxa.2).1
            rw [hba] at this
            exact absurd this (by simp)
        simp only [List.filter_cons, hxb, hxa, if_true] at ih ⊢
        simpa using ih
      · simp only [List.filter_cons, hxb] at ih ⊢
        simpa using ih
    · rfl

theorem stable_sort_filter (h : strict_weak_order lt) (x : α) :
    ∀ l : List α, (stable_sort lt l).filter (unordered lt x) = l.filter (unordered lt x)
  | [] => rfl
  | a :: l => by
    rw [stable_sort, stable_insert_filter h x a, List.filter_cons, List.filter_cons,
      stable_sort_filter h x l]

theorem sorted_unique (h : strict_weak_order lt) :
    ∀ (o1 o2 : List α), o1.Perm o2 →
      o1.Pairwise (fun a b => lt b a = false) → o2.Pairwise (fun a b => lt b a = false) →
      (∀ x, o1.filter (unordered lt x) = o2.filter (unordered lt x)) → o1 = o2
  | [], o2, hp, _, _, _ => (List.Perm.nil_eq hp)
  | a :: t1, [], hp, _, _, _ => absurd hp.symm (List.not_perm_nil_cons _ _)
  | a :: t1, b :: t2, hp, hs1, hs2, hf => by
    have hba : lt b a = false := by
      rcases List.mem_cons.mp (hp.symm.subset (List.mem_cons_self b t2)) with rfl | hb
      · exact h.irrefl _
      · exact List.rel_of_pairwise_cons hs1 hb
    have hab : lt a b = false := by
      rcases List.mem_cons.mp (hp.subset (List.mem_cons_self a t1)) with rfl | ha
      · exact h.irrefl _
      · exact List.rel_of_pairwise_cons hs2 ha
    have haa : unordered lt a a = true := by simp [unordered, h.irrefl a]
    have hab' : unordered lt a b = true := by simp [unordered, hab, hba]
    have e := hf a
    simp only [List.filter_cons, haa, hab', if_true, List.cons.injEq] at e
    obtain ⟨rfl, -⟩ := e
    have ht : t1 = t2 := by
      apply sorted_unique h t1 t2 (List.Perm.cons_inv hp) (List.Pairwise.of_cons hs1)
        (List.Pairwise.of_cons hs2)
      intro x
      have e := hf x
      simp only [List.filter_cons] at e
      split_ifs at e with hx
      · exact (List.cons.inj e).2
      · exact e
    rw [ht]

theorem stable_sort_unique (h : strict_weak_order lt) (input o : List α)
    (ho : is_stable_sort lt input o) : o = stable_sort lt input := by
  obtain ⟨hp, hs, hf⟩ := ho
  apply sorted_unique h o (stable_sort lt input)
    (hp.trans (stable_sort_perm lt input).symm) hs (stable_sort_sorted h input)
  intro x
  rw [hf x, stable_sort_filter h x input]

end sorting

namespace advuilist
variable {T : Type}

theorem cmp_grouped (so : sorter_t T) (gr : grouper_t T) (gs : T → T → Bool) (gl : T → String)
    (hgs : gr.sorter = some gs) (hgl : gr.fgid = some gl) (a b : entry_t T) :
    _sort.cmp so gr a b =
      if gl a.ptr.elem = gl b.ptr.elem then sorter_lt so a b else gs a.ptr.elem b.ptr.elem := by
  simp only [_sort.cmp, sorter_lt, hgs, hgl]

theorem cmp_ungrouped (so : sorter_t T) (gr : grouper_t T)
    (h : gr.sorter = none ∨ gr.fgid = none) : _sort.cmp so gr = sorter_lt so := by
  funext a b
  rcases h with h | h
  · simp only [_sort.cmp, sorter_lt, h]
  · cases hs : gr.sorter <;> simp only [_sort.cmp, sorter_lt, h, hs]

theorem sorter_lt_swo (so : sorter_t T) (h : ∀ f, so.sorter = some f → strict_weak_order f) :
    strict_weak_order (sorter_lt so) := by
  cases hs : so.sorter with
  | none =>
    have e : sorter_lt so = fun a b => decide (a.idx < b.idx) := by
      funext a b; simp only [sorter_lt, hs]
    rw [e]
    refine ⟨fun a => by simp, fun a b c hab hbc => ?_, fun a b c h1 h2 h3 h4 => ?_⟩
    · simp only [decide_eq_true_eq] at *; omega
    · simp only [decide_eq_false_iff_not, not_lt] at *; constructor <;> omega
  | some f =>
    have hf := h f hs
    have e : sorter_lt so = fun a b => f a.ptr.elem b.ptr.elem := by
      funext a b; simp only [sorter_lt, hs]
    rw [e]
    exact ⟨fun a => hf.irrefl _, fun a b c => hf.trans _ _ _, fun a b c => hf.incomp _ _ _⟩

theorem unordered_iff {α : Type} (lt : α → α → Bool) (a b : α) :
    unordered lt a b = true ↔ lt a b = false ∧ lt b a = false := by
  simp [unordered]

theorem grouper_diff {gs : T → T → Bool} {gl : T → String} (h : grouper_consistent gs gl)
    (a b : T) (hne : gl a ≠ gl b) (hab : gs a b = false) : gs b a = true := by
  cases hba : gs b a with
  | true => rfl
  | false => exact absurd ((h.2 a b).mp ((unordered_iff gs a b).mpr ⟨hab, hba⟩)) hne

theorem grouper_same {gs : T → T → Bool} {gl : T → String} (h : grouper_consistent gs gl)
    (a b : T) (he : gl a = gl b) : gs a b = false :=
  ((unordered_iff gs a b).mp ((h.2 a b).mpr he)).1

theorem cmp_swo (so : sorter_t T) (gr : grouper_t T)
    (hso : ∀ f, so.sorter = some f → strict_weak_order f)
    (hgr : ∀ gs gl, gr.sorter = some gs → gr.fgid = some gl → grouper_consistent gs gl) :
    strict_weak_order (_sort.cmp so gr) := by
  have hs := sorter_lt_swo so hso
  cases hgs : gr.sorter with
  | none => rw [cmp_ungrouped so gr (Or.inl hgs)]; exact hs
  | some gs =>
    cases hgl : gr.fgid with
    | none => rw [cmp_ungrouped so gr (Or.inr hgl)]; exact hs
    | some gl =>
      have hcons := hgr gs gl hgs hgl
      have hg := hcons.1
      have hdiff := grouper_diff hcons
      have hsame := grouper_same hcons
      apply swo_of_asymm_neg_trans
      · intro a b
        rw [cmp_grouped so gr gs gl hgs hgl, cmp_grouped so gr gs gl hgs hgl]
        by_cases he : gl a.ptr.elem = gl b.ptr.elem
        · rw [if_pos he, if_pos he.symm]; exact swo_asymm hs a b
        · rw [if_neg he, if_neg (Ne.symm he)]; exact swo_asymm hg _ _
      · intro a b c
        rw [cmp_grouped so gr gs gl hgs hgl, cmp_grouped so gr gs gl hgs hgl,
          cmp_grouped so gr gs gl hgs hgl]
        by_cases hab : gl a.ptr.elem = gl b.ptr.elem <;>
          by_cases hbc : gl b.ptr.elem = gl c.ptr.elem
        · rw [if_pos hab, if_pos hbc, if_pos (hab.trans hbc)]
          exact swo_neg_trans hs a b c
        · have hac : gl a.ptr.elem ≠ gl c.ptr.elem := fun h => hbc (hab.symm.trans h)
          rw [if_pos hab, if_neg hbc, if_neg hac]
          intro _ h2
          exact swo_neg_trans hg _ _ _ (hsame _ _ hab) h2
        · have hac : gl a.ptr.elem ≠ gl c.ptr.elem := fun h => hab (h.trans hbc.symm)
          rw [if_neg hab, if_pos hbc, if_neg hac]
          intro h1 _
          exact swo_neg_trans hg _ _ _ h1 (hsame _ _ hbc)
        · rw [if_neg hab, if_neg hbc]
          intro h1 h2
          by_cases hac : gl a.ptr.elem = gl c.ptr.elem
          · exfalso
            have h3 := hg.trans _ _ _ (hdiff _ _ hbc h2) (hdiff _ _ hab h1)
            rw [hsame _ _ hac.symm] at h3
            exact absurd h3 (by simp)
          · rw [if_neg hac]
            exact swo_neg_trans hg _ _ _ h1 h2

theorem sort_eq (s : advuilist T) (sidx gidx : Nat) (so : sorter_t T) (gr : grouper_t T)
    (hso : s._sorters[sidx]? = some so) (hgr : s._groupers[gidx]? = some gr) :
    s._sort sidx gidx = some { s with
      _list := stable_sort (_sort.cmp so gr) s._list
      _csort := sidx
      _cgroup := gidx } := by
  simp only [_sort, hso, hgr]

end advuilist

/-! ## Lemmas on the cursor and on rebuild -/

namespace advuilist
variable {T : Type}

theorem idxtopage_some : ∀ (ps : List page_t) (a n c : Nat), covers ps a n → ps ≠ [] →
    (c < n ∨ n = 0) → ∃ k, _idxtopage ps c = some k
  | [], _, _, _, _, hne, _ => absurd rfl hne
  | [p], a, n, c, hcov, _, hc => by
    obtain ⟨_, _, h3⟩ := hcov
    simp only [covers] at h3
    refine ⟨0, ?_⟩
    simp only [_idxtopage]
    rw [if_neg]
    omega
  | p :: q :: rest, a, n, c, hcov, _, hc => by
    obtain ⟨_, _, h3⟩ := hcov
    obtain ⟨k, hk⟩ := idxtopage_some (q :: rest) p.2 n c h3 (by simp) hc
    by_cases hcond : p.2 ≠ 0 ∧ p.2 ≤ c
    · exact ⟨k + 1, by rw [_idxtopage, if_pos hcond, hk]; rfl⟩
    · exact ⟨0, by rw [_idxtopage, if_neg hcond]⟩

theorem setidx_some (s : advuilist T) (idx n : Nat) (hne : s._pages ≠ [])
    (hcov : covers s._pages 0 n) :
    ∃ cpage, s._setidx idx = some { s with _cidx := clamp_idx idx n, _cpage := cpage } ∧
      _idxtopage s._pages (clamp_idx idx n) = some cpage := by
  have hlast := covers_last _ _ _ hcov hne
  cases hb : s._pages.getLast? with
  | none => rw [hb] at hlast; simp at hlast
  | some back =>
    rw [hb] at hlast
    simp only [Option.map_some', Option.some.injEq] at hlast
    obtain ⟨k, hk⟩ := idxtopage_some s._pages 0 n (clamp_idx idx n) hcov hne (by
      unfold clamp_idx; split_ifs <;> omega)
    refine ⟨k, ?_, hk⟩
    simp only [_setidx, hb, hlast]
    have e : (if n = 0 then 0 else if idx > n - 1 then n - 1 else idx) = clamp_idx idx n := rfl
    rw [e, hk]

theorem rebuild_finish_some (s1 : advuilist T) (so : sorter_t T) (gr : grouper_t T)
    (hso : s1._sorters[s1._csort]? = some so) (hgr : s1._groupers[s1._cgroup]? = some gr) :
    ∃ pages cpage,
      rebuild.finish s1 = some { s1 with
        _list := stable_sort (_sort.cmp so gr) s1._list
        _pages := pages
        _cidx := clamp_idx s1._cidx s1._list.length
        _cpage := cpage
        _needsinit := false } ∧
      _paginate.pages s1._pagesize s1._cgroup s1._groupers
        (stable_sort (_sort.cmp so gr) s1._list) = some pages ∧
      _idxtopage pages (clamp_idx s1._cidx s1._list.length) = some cpage := by
  have hg : s1._cgroup < s1._groupers.length := (List.getElem?_eq_some.mp hgr).1
  obtain ⟨pages, hp, hne, hcov, _⟩ := paginate_pages_covers s1._pagesize s1._cgroup s1._groupers
    (stable_sort (_sort.cmp so gr) s1._list) hg
  have hlen : (stable_sort (_sort.cmp so gr) s1._list).length = s1._list.length :=
    (stable_sort_perm _ s1._list).length_eq
  rw [hlen] at hcov
  obtain ⟨cpage, hset, hidx⟩ := setidx_some
    ({ s1 with _list := stable_sort (_sort.cmp so gr) s1._list, _pages := pages })
    s1._cidx s1._list.length hne hcov
  refine ⟨pages, cpage, ?_, hp, hidx⟩
  simp only [rebuild.finish, _sort, hso, hgr, _paginate, hp]
  simp only [] at hset
  rw [hset]

theorem scan_pairs (keep : T → Bool) : ∀ (c : List T) (pos idx : Nat),
    (rebuild.scan keep c pos idx).map entry_pair = (c.enumFrom pos).filter (fun q => keep q.2)
  | [], _, _ => rfl
  | x :: rest, pos, idx => by
    simp only [rebuild.scan, List.enumFrom_cons, List.filter_cons]
    split_ifs with h
    · simp only [List.map_cons, scan_pairs keep rest (pos + 1) (idx + 1), entry_pair]
    · exact scan_pairs keep rest (pos + 1) idx

theorem scan_idx (keep : T → Bool) : ∀ (c : List T) (pos idx : Nat),
    (rebuild.scan keep c pos idx).map entry_t.idx =
      List.range' idx (rebuild.scan keep c pos idx).length
  | [], _, _ => rfl
  | x :: rest, pos, idx => by
    simp only [rebuild.scan]
    split_ifs with h
    · simp only [List.map_cons, List.length_cons, List.range'_succ,
        scan_idx keep rest (pos + 1) (idx + 1)]
    · exact scan_idx keep rest (pos + 1) idx

theorem scan_sorted (keep : T → Bool) (c : List T) (so : sorter_t T) (hnone : so.sorter = none) :
    (rebuild.scan keep c 0 0).Pairwise (fun x y => sorter_lt so y x = false) := by
  have h : ((rebuild.scan keep c 0 0).map entry_t.idx).Pairwise (· < ·) := by
    rw [scan_idx]
    exact List.pairwise_lt_range' 0 _
  refine (List.pairwise_map.mp h).imp ?_
  intro a b hab
  simp only [sorter_lt, hnone, decide_eq_false_iff_not, not_lt]
  omega

theorem keep_eq (s : advuilist T) (p : List (col_t T) → T → String → Bool)
    (hp : s._ffilter = some p) (x : T) :
    rebuild.keep (rebuild.hook s) x = (decide (s._filter = "") || p s._columns x s._filter) := by
  have hk : (rebuild.hook s)._ffilter = s._ffilter ∧ (rebuild.hook s)._filter = s._filter ∧
      (rebuild.hook s)._columns = s._columns := by
    unfold rebuild.hook
    split <;> simp
  simp only [rebuild.keep, hk.1, hk.2.1, hk.2.2, hp]

end advuilist

/-! ## Lemmas on the text helpers -/

theorem starts_with_iff : ∀ (str qry : List Char),
    starts_with str qry = true ↔ ∃ post, str = qry ++ post
  | str, [] => by cases str <;> simp [starts_with]
  | [], q :: qry => by simp [starts_with]
  | c :: str, q :: qry => by
    simp only [starts_with, Bool.and_eq_true, beq_iff_eq, starts_with_iff str qry,
      List.cons_append, List.cons.injEq]
    constructor
    · rintro ⟨rfl, post, rfl⟩
      exact ⟨post, rfl, rfl⟩
    · rintro ⟨post, rfl, rfl⟩
      exact ⟨rfl, post, rfl⟩

theorem contains_block_iff : ∀ (str qry : List Char),
    contains_block str qry = true ↔ ∃ pre post, str = pre ++ qry ++ post
  | [], qry => by
    simp only [contains_block, starts_with_iff]
    constructor
    · rintro ⟨post, h⟩
      exact ⟨[], post, h⟩
    · rintro ⟨pre, post, h⟩
      have h1 := congrArg List.length h
      simp only [List.length_nil, List.length_append] at h1
      have hq : qry = [] := List.length_eq_zero.mp (by omega)
      exact ⟨[], by simp [hq]⟩
  | c :: str, qry => by
    simp only [contains_block, Bool.or_eq_true, starts_with_iff, contains_block_iff str qry]
    constructor
    · rintro (⟨post, h⟩ | ⟨pre, post, h⟩)
      · exact ⟨[], post, h⟩
      · exact ⟨c :: pre, post, by simp [h]⟩
    · rintro ⟨pre, post, h⟩
      cases pre with
      | nil => exact Or.inl ⟨post, h⟩
      | cons d pre =>
        simp only [List.cons_append, List.cons.injEq] at h
        exact Or.inr ⟨pre, post, h.2⟩

/-! ## Lemmas on the worked examples -/

theorem value_swo : strict_weak_order (fun a b : Nat => decide (a < b)) := by
  refine ⟨fun a => by simp, fun a b c hab hbc => ?_, fun a b c h1 h2 h3 h4 => ?_⟩
  · simp only [decide_eq_true_eq] at *; omega
  · simp only [decide_eq_false_iff_not, not_lt] at *; constructor <;> omega

theorem parity_consistent : grouper_consistent parity_lt parity_label := by
  refine ⟨⟨fun a => by simp [parity_lt], fun a b c hab hbc => ?_, fun a b c h1 h2 h3 h4 => ?_⟩,
    fun a b => ?_⟩
  · simp only [parity_lt, decide_eq_true_eq] at *; omega
  · simp only [parity_lt, decide_eq_false_iff_not, not_lt] at *; constructor <;> omega
  · have ha : a % 2 = 0 ∨ a % 2 = 1 := by omega
    have hb : b % 2 = 0 ∨ b % 2 = 1 := by omega
    have hne : ("even" : String) ≠ "odd" := by decide
    rcases ha with ha | ha <;> rcases hb with hb | hb <;>
      simp [unordered, parity_lt, parity_label, ha, hb, hne, hne.symm]

/-! ## Pagination and sorting claims -/

/-- C1: for every entry list, every page size and every valid group index, `_paginate`
returns, changes nothing but the pages, and the pages it leaves are non-empty, the
first begins at 0, the end of each is the begin of the next, the last ends at the
length `N` of the list, their ranges concatenate to `[0, N)`, and for `N = 0` there is
exactly the one page `[0, 0)`. -/
theorem paginate_partitions {T : Type} (s : advuilist T)
    (hgroup : s._cgroup < s._groupers.length) :
    ∃ pages, s._paginate = some { s with _pages := pages } ∧
      pages_partition pages s._list.length ∧
      (s._list.length = 0 → pages = [(0, 0)]) := by
  obtain ⟨pages, hp, hne, hcov, hnil⟩ := advuilist.paginate_covers s hgroup
  refine ⟨pages, hp, ⟨hne, covers_head _ _ _ hcov hne, covers_chain _ _ _ hcov,
    covers_last _ _ _ hcov hne, ?_⟩, fun h => hnil (List.length_eq_zero.mp h)⟩
  rw [covers_flatten _ _ _ hcov, List.range_eq_range']
  simp

/-- C1 at the engine `numbers` with the parity grouper active. -/
theorem paginate_partitions_witness :
    ∃ pages, advuilist._paginate { numbers with _cgroup := 1 } =
        some { { numbers with _cgroup := 1 } with _pages := pages } ∧
      pages_partition pages 7 ∧ ((7 : Nat) = 0 → pages = [(0, 0)]) :=
  paginate_partitions { numbers with _cgroup := 1 } (by decide)

/-- C2: after `_sort` with a grouper that has an ordering function and a label function,
the ordering function being a strict weak order that leaves two elements unordered
exactly when their labels are equal, and with a sorter whose function, when it has
one, is a strict weak order, `_sort` returns and any entry placed between two entries
of equal label has that label too: the entries of one label form one contiguous run. -/
theorem sort_groups_contiguous {T : Type} (s : advuilist T) (sidx gidx : Nat)
    (so : sorter_t T) (gr : grouper_t T) (gs : T → T → Bool) (gl : T → String)
    (hso : s._sorters[sidx]? = some so) (hgr : s._groupers[gidx]? = some gr)
    (hgs : gr.sorter = some gs) (hgl : gr.fgid = some gl)
    (hsorter : ∀ f, so.sorter = some f → strict_weak_order f)
    (hgrouper : grouper_consistent gs gl) :
    ∃ s', s._sort sidx gidx = some s' ∧ groups_contiguous gl s'._list := by
  refine ⟨_, advuilist.sort_eq s sidx gidx so gr hso hgr, ?_⟩
  intro i j k a b c hij hjk ha hb hc hac
  simp only [] at ha hb hc
  have hswo : strict_weak_order (advuilist._sort.cmp so gr) :=
    advuilist.cmp_swo so gr hsorter (fun gs' gl' h1 h2 => by
      rw [hgs] at h1; rw [hgl] at h2
      cases h1; cases h2; exact hgrouper)
  have hsorted := stable_sort_sorted hswo s._list
  rw [List.pairwise_iff_getElem] at hsorted
  obtain ⟨hi, rfl⟩ := List.getElem?_eq_some.mp ha
  obtain ⟨hj, rfl⟩ := List.getElem?_eq_some.mp hb
  obtain ⟨hk, rfl⟩ := List.getElem?_eq_some.mp hc
  have h1 := hsorted i j hi hj hij
  have h2 := hsorted j k hj hk hjk
  rw [advuilist.cmp_grouped so gr gs gl hgs hgl] at h1 h2
  by_contra hne
  have hne2 : ¬ gl (s._list |> stable_sort (advuilist._sort.cmp so gr))[k].ptr.elem =
      gl (s._list |> stable_sort (advuilist._sort.cmp so gr))[j].ptr.elem :=
    fun h => hne (h.symm.trans hac.symm)
  rw [if_neg hne] at h1
  rw [if_neg hne2] at h2
  have h3 := hgrouper.1.trans _ _ _ (advuilist.grouper_diff hgrouper _ _ hne h1)
    (advuilist.grouper_diff hgrouper _ _ hne2 h2)
  rw [advuilist.grouper_same hgrouper _ _ hac] at h3
  exact absurd h3 (by simp)

/-- C2 at the engine `numbers`, sorted by value and grouped by parity. -/
theorem sort_groups_contiguous_witness :
    ∃ s', numbers._sort 1 1 = some s' ∧ groups_contiguous parity_label s'._list :=
  sort_groups_contiguous numbers 1 1 value_sorter parity_grouper parity_lt parity_label
    rfl rfl rfl rfl (fun f hf => by cases hf; exact value_swo) parity_consistent

/-- C3: with a sorter and a grouper whose functions are strict weak orders, the grouper
agreeing with its labels, `_sort` returns and its result is a permutation of the input;
an entry placed before another one is not after it in the grouper's order when their
labels differ and not after it in the sorter's order (the order of the insertion
indices for the "none" sorter) when their labels are equal; with grouping disabled the
result is a stable sort of the input by the sorter alone, the one `std::stable_sort`
computes with the sorter's order, and every stable sort of the input by the sorter is
this list. -/
theorem sort_composite_order {T : Type} (s : advuilist T) (sidx gidx : Nat)
    (so : sorter_t T) (gr : grouper_t T)
    (hso : s._sorters[sidx]? = some so) (hgr : s._groupers[gidx]? = some gr)
    (hsorter : ∀ f, so.sorter = some f → strict_weak_order f)
    (hgrouper : ∀ gs gl, gr.sorter = some gs → gr.fgid = some gl → grouper_consistent gs gl) :
    ∃ s', s._sort sidx gidx = some s' ∧
      s'._list.Perm s._list ∧
      (∀ gs gl, gr.sorter = some gs → gr.fgid = some gl →
        composite_ordered so gs gl s'._list) ∧
      (gr.sorter = none ∨ gr.fgid = none →
        is_stable_sort (sorter_lt so) s._list s'._list ∧
        s'._list = stable_sort (sorter_lt so) s._list ∧
        ∀ o, is_stable_sort (sorter_lt so) s._list o → o = s'._list) := by
  refine ⟨_, advuilist.sort_eq s sidx gidx so gr hso hgr, stable_sort_perm _ _, ?_, ?_⟩
  · intro gs gl hgs hgl
    have hswo := advuilist.cmp_swo so gr hsorter hgrouper
    refine (stable_sort_sorted hswo s._list).imp ?_
    intro a b hba
    rw [advuilist.cmp_grouped so gr gs gl hgs hgl] at hba
    constructor
    · intro hne
      rwa [if_neg (Ne.symm hne)] at hba
    · intro he
      rwa [if_pos he.symm] at hba
  · intro hoff
    have hs := advuilist.sorter_lt_swo so hsorter
    have e : (stable_sort (advuilist._sort.cmp so gr) s._list) =
        stable_sort (sorter_lt so) s._list := by
      rw [advuilist.cmp_ungrouped so gr hoff]
    exact ⟨⟨e ▸ stable_sort_perm _ _, e ▸ stable_sort_sorted hs _,
      fun x => e ▸ stable_sort_filter hs x _⟩, e,
      fun o ho => (stable_sort_unique hs s._list o ho).trans e.symm⟩

/-- C3 at the engine `numbers`, sorted by value and grouped by parity. -/
theorem sort_composite_order_witness :
    ∃ s', numbers._sort 1 1 = some s' ∧
      s'._list.Perm numbers._list ∧
      (∀ gs gl, parity_grouper.sorter = some gs → parity_grouper.fgid = some gl →
        composite_ordered value_sorter gs gl s'._list) ∧
      (parity_grouper.sorter = none ∨ parity_grouper.fgid = none →
        is_stable_sort (sorter_lt value_sorter) numbers._list s'._list ∧
        s'._list = stable_sort (sorter_lt value_sorter) numbers._list ∧
        ∀ o, is_stable_sort (sorter_lt value_sorter) numbers._list o → o = s'._list) :=
  sort_composite_order numbers 1 1 value_sorter parity_grouper rfl rfl
    (fun f hf => by cases hf; exact value_swo)
    (fun gs gl h1 h2 => by cases h1; cases h2; exact parity_consistent)

/-- C4, as amended: when the sorter registered under the name "none" is the dummy one
without a function and grouping is disabled, `sort("none")` returns and leaves the
entries, whose insertion indices are distinct, in strictly increasing order of their
insertion indices, whatever sorter was active and whatever the order of the list. -/
theorem sort_none_insertion_order {T : Type} (s : advuilist T) (i : Nat)
    (so : sorter_t T) (gr : grouper_t T)
    (hfind : find_if (fun v : sorter_t T => decide (v.name = "none")) s._sorters = some i)
    (hso : s._sorters[i]? = some so) (hnone : so.sorter = none)
    (hgr : s._groupers[s._cgroup]? = some gr) (hoff : gr.sorter = none ∨ gr.fgid = none)
    (hidx : (s._list.map entry_t.idx).Nodup) :
    ∃ s', s.sort "none" = some s' ∧ s'._csort = i ∧ s'._cgroup = s._cgroup ∧
      s'._list.Perm s._list ∧ (s'._list.map entry_t.idx).Sorted (· < ·) := by
  have hsort : s.sort "none" = some { s with
      _list := stable_sort (sorter_lt so) s._list
      _csort := i
      _cgroup := s._cgroup } := by
    simp only [advuilist.sort, hfind]
    rw [advuilist.sort_eq s i s._cgroup so gr hso hgr, advuilist.cmp_ungrouped so gr hoff]
  refine ⟨_, hsort, rfl, rfl, stable_sort_perm _ _, ?_⟩
  · have hs := advuilist.sorter_lt_swo so (fun f hf => by rw [hnone] at hf; cases hf)
    have h1 := stable_sort_sorted hs s._list
    have h2 : (stable_sort (sorter_lt so) s._list).Pairwise (fun a b => a.idx ≠ b.idx) := by
      have := ((stable_sort_perm (sorter_lt so) s._list).map entry_t.idx).nodup_iff.mpr hidx
      exact List.pairwise_map.mp this
    rw [List.Sorted, List.pairwise_map]
    refine (h1.and h2).imp ?_
    intro a b ⟨hle, hne⟩
    simp only [sorter_lt, hnone, decide_eq_false_iff_not, not_lt] at hle
    omega

/-- C4, as amended, at the engine `numbers` left sorted by value with grouping disabled. -/
theorem sort_none_insertion_order_witness :
    ∃ s', advuilist.sort { numbers with
          _list := stable_sort (sorter_lt value_sorter) numbers._list, _csort := 1 } "none" =
        some s' ∧ s'._csort = 0 ∧ s'._cgroup = 0 ∧
      s'._list.Perm (stable_sort (sorter_lt value_sorter) numbers._list) ∧
      (s'._list.map entry_t.idx).Sorted (· < ·) :=
  sort_none_insertion_order { numbers with
      _list := stable_sort (sorter_lt value_sorter) numbers._list, _csort := 1 } 0
    (none_sorter Nat) (none_grouper Nat) (by decide) rfl rfl rfl (Or.inl rfl) (by decide)

/-- C4 fails as stated: in the engine `numbers` grouped by parity, `sort("none")` keeps
the grouping and leaves the insertion indices in the order 1, 3, 5, 6, 0, 2, 4, which
is not increasing. -/
theorem sort_none_keeps_grouping :
    ((advuilist._sort numbers 1 1).bind (fun s => s.sort "none")).map
        (fun s => (s._csort, s._cgroup, s._list.map entry_t.idx)) =
      some (0, 1, [1, 3, 5, 6, 0, 2, 4]) ∧
    ¬ List.Sorted (· < ·) [1, 3, 5, 6, 0, 2, 4] :=
  ⟨by decide, by decide⟩

/-! ## Rebuild claims -/

/-- C5: `rebuild` returns for valid sort and group indices.  With a filter function `p`
and a non-empty filter text the entries are, up to order, exactly the elements of the
scanned collection, taken with their positions, that `p` accepts, each once; with an
empty filter text they are all the elements, whatever `p` is; under the "none" sorter
with grouping disabled they are in the order of the collection and their insertion
indices are 0, 1, ..., k - 1.  The filter the constructor installs accepts an element if
and only if the text some column prints for it, markup stripped, contains the filter
text when both are put in lower case.  In the scenario of the collection rock, rag,
rope with the filter text "ro" the entries are rock and rope, in this order. -/
theorem rebuild_filters {T : Type} (s : advuilist T) (list : Option (List T))
    (p : List (col_t T) → T → String → Bool) (so : sorter_t T) (gr : grouper_t T)
    (hp : s._ffilter = some p)
    (hso : s._sorters[s._csort]? = some so) (hgr : s._groupers[s._cgroup]? = some gr) :
    (∃ s', s.rebuild list = some s' ∧
      (s._filter ≠ "" →
        (s'._list.map entry_pair).Perm
          ((advuilist.rebuild.rlist (advuilist.rebuild.hook s) list).enum.filter
            (fun q => p s._columns q.2 s._filter)) ∧
        (so.sorter = none → gr.sorter = none ∨ gr.fgid = none →
          s'._list.map entry_pair =
            (advuilist.rebuild.rlist (advuilist.rebuild.hook s) list).enum.filter
              (fun q => p s._columns q.2 s._filter))) ∧
      (s._filter = "" →
        (s'._list.map entry_pair).Perm
          (advuilist.rebuild.rlist (advuilist.rebuild.hook s) list).enum ∧
        (so.sorter = none → gr.sorter = none ∨ gr.fgid = none →
          s'._list.map entry_pair =
            (advuilist.rebuild.rlist (advuilist.rebuild.hook s) list).enum)) ∧
      (s'._list.map entry_t.idx).Perm (List.range s'._list.length) ∧
      (so.sorter = none → gr.sorter = none ∨ gr.fgid = none →
        s'._list.map entry_t.idx = List.range s'._list.length)) ∧
    (∀ (c : List T) (columns : List (col_t T)) (x : T) (f : String),
      ∃ p0, (advuilist.create c)._ffilter = some p0 ∧
        (∀ e : advuilist T, e._columns = columns → e._basicfilter x f = p0 columns x f) ∧
        (p0 columns x f = true ↔ ∃ col ∈ columns, ∃ pre post,
          (remove_color_tags (col.printer x 0)).data.map Char.toLower =
            pre ++ f.data.map Char.toLower ++ post)) ∧
    (rocks_engine.rebuild none).map (fun s' => s'._list.map (fun e => e.ptr.elem.name)) =
      some ["rock", "rope"] := by
  refine ⟨?_, ?_, by decide⟩
  · obtain ⟨pages, cpage, hreb, -, -⟩ := advuilist.rebuild_finish_some
      { advuilist.rebuild.hook s with
        _list := advuilist.rebuild.scan (advuilist.rebuild.keep (advuilist.rebuild.hook s))
          (advuilist.rebuild.rlist (advuilist.rebuild.hook s) list) 0 0 } so gr
      (by rw [← hso]; unfold advuilist.rebuild.hook; split <;> rfl)
      (by rw [← hgr]; unfold advuilist.rebuild.hook; split <;> rfl)
    have hkeep : advuilist.rebuild.keep (advuilist.rebuild.hook s) =
        fun x => (decide (s._filter = "") || p s._columns x s._filter) :=
      funext (advuilist.keep_eq s p hp)
    simp only [] at hreb
    have hreb' : s.rebuild list = _ := hreb
    obtain ⟨c, hc⟩ : ∃ c, c = advuilist.rebuild.rlist (advuilist.rebuild.hook s) list := ⟨_, rfl⟩
    rw [hkeep, ← hc] at hreb'
    rw [← hc]
    refine ⟨_, hreb', ?_, ?_, ?_, ?_⟩
    · intro hf
      have e : (fun x => (decide (s._filter = "") || p s._columns x s._filter)) =
          fun x => p s._columns x s._filter := by
        funext x; simp [hf]
      simp only [e]
      refine ⟨?_, fun hnone hoff => ?_⟩
      · rw [List.enum_eq_enumFrom,
          ← advuilist.scan_pairs (fun x => p s._columns x s._filter) c 0 0]
        exact (stable_sort_perm _ _).map _
      · rw [advuilist.cmp_ungrouped so gr hoff,
          stable_sort_of_sorted _ _ (advuilist.scan_sorted _ c so hnone),
          advuilist.scan_pairs (fun x => p s._columns x s._filter) c 0 0,
          List.enum_eq_enumFrom]
    · intro hf
      have e : (fun x => (decide (s._filter = "") || p s._columns x s._filter)) =
          fun _ => true := by
        funext x; simp [hf]
      simp only [e]
      have hall : (c.enumFrom 0).filter (fun _ => true) = c.enumFrom 0 := by simp
      refine ⟨?_, fun hnone hoff => ?_⟩
      · rw [List.enum_eq_enumFrom, ← hall, ← advuilist.scan_pairs (fun _ => true) c 0 0]
        exact (stable_sort_perm _ _).map _
      · rw [advuilist.cmp_ungrouped so gr hoff,
          stable_sort_of_sorted _ _ (advuilist.scan_sorted _ c so hnone),
          advuilist.scan_pairs (fun _ => true) c 0 0, List.enum_eq_enumFrom, hall]
    · simp only []
      have h1 := (stable_sort_perm (advuilist._sort.cmp so gr)
        (advuilist.rebuild.scan (fun x => (decide (s._filter = "") || p s._columns x s._filter))
          c 0 0))
      rw [h1.length_eq, List.range_eq_range', ← advuilist.scan_idx]
      exact h1.map _
    · intro hnone hoff
      simp only []
      rw [advuilist.cmp_ungrouped so gr hoff,
        stable_sort_of_sorted _ _ (advuilist.scan_sorted _ c so hnone),
        advuilist.scan_idx, List.range_eq_range']
  · intro c columns x f
    refine ⟨_, rfl, fun e he => ?_, ?_⟩
    · simp only [advuilist._basicfilter, he]
    · simp only [List.any_eq_true, lcmatch, contains_block_iff]

/-- C5 at the engine of the filter scenario. -/
theorem rebuild_filters_witness :
    ∃ s', rocks_engine.rebuild none = some s' ∧
      s'._list.map entry_pair = [(0, ⟨"rock", 1⟩), (2, ⟨"rope", 1⟩)] ∧
      s'._list.map entry_t.idx = [0, 1] := by
  obtain ⟨⟨s', h1, h2, -, -, h4⟩, -⟩ := rebuild_filters rocks_engine none
    (fun columns it filter =>
      columns.any (fun col => lcmatch (remove_color_tags (col.printer it 0)) filter))
    (none_sorter item) (none_grouper item) rfl rfl rfl
  have h5 := (h2 (by decide)).2 rfl (Or.inl rfl)
  have h6 := h4 rfl (Or.inl rfl)
  refine ⟨s', h1, h5.trans (by decide), ?_⟩
  rw [h6]
  have hl : s'._list.length = 2 := by
    have := congrArg List.length h5
    rw [List.length_map] at this
    rw [this]
    decide
  rw [hl]
  rfl

/-! ## Idempotence of rebuild -/

namespace advuilist
variable {T : Type}

theorem clamp_idx_idem (idx n : Nat) : clamp_idx (clamp_idx idx n) n = clamp_idx idx n := by
  unfold clamp_idx
  split_ifs <;> omega

theorem finish_valid (s1 s2 : advuilist T) (h : rebuild.finish s1 = some s2) :
    ∃ so gr, s1._sorters[s1._csort]? = some so ∧ s1._groupers[s1._cgroup]? = some gr := by
  cases hso : s1._sorters[s1._csort]? with
  | none => simp [rebuild.finish, _sort, hso] at h
  | some so =>
    cases hgr : s1._groupers[s1._cgroup]? with
    | none => simp [rebuild.finish, _sort, hso, hgr] at h
    | some gr => exact ⟨so, gr, rfl, rfl⟩

theorem finish_idem (s0 s1 : advuilist T) (L : List (entry_t T))
    (h : rebuild.finish { s0 with _list := L } = some s1) :
    rebuild.finish { s1 with _list := L } = some s1 := by
  obtain ⟨so, gr, hso, hgr⟩ := finish_valid _ _ h
  obtain ⟨pages, cpage, hr, hp, hi⟩ := rebuild_finish_some { s0 with _list := L } so gr hso hgr
  rw [hr] at h
  simp only [Option.some.injEq] at h
  subst h
  obtain ⟨pages', cpage', hr', hp', hi'⟩ := rebuild_finish_some
    { ({ s0 with _list := L } : advuilist T) with
        _list := L
        _pages := pages
        _cidx := clamp_idx s0._cidx L.length
        _cpage := cpage
        _needsinit := false } so gr hso hgr
  simp only [] at hp' hi' hp hi
  rw [hp] at hp'
  simp only [Option.some.injEq] at hp'
  subst hp'
  rw [clamp_idx_idem, hi] at hi'
  simp only [Option.some.injEq] at hi'
  subst hi'
  simp only [clamp_idx_idem] at hr'
  exact hr'

end advuilist

namespace advuilist
variable {T : Type}

theorem finish_frame (s1 s2 : advuilist T) (h : rebuild.finish s1 = some s2) :
    s2._pagesize = s1._pagesize ∧ s2._columns = s1._columns ∧ s2._sorters = s1._sorters ∧
    s2._groupers = s1._groupers ∧ s2._ffilter = s1._ffilter ∧ s2._ffrebuild = s1._ffrebuild ∧
    s2._filter = s1._filter ∧ s2._filterdsc = s1._filterdsc ∧ s2._csort = s1._csort ∧
    s2._cgroup = s1._cgroup ∧ s2._exit = s1._exit ∧ s2._force_rebuild = s1._force_rebuild ∧
    s2._olist = s1._olist ∧ s2._cidx = clamp_idx s1._cidx s1._list.length ∧
    s2._list.Perm s1._list := by
  obtain ⟨so, gr, hso, hgr⟩ := finish_valid _ _ h
  obtain ⟨pages, cpage, hr, -, -⟩ := rebuild_finish_some s1 so gr hso hgr
  rw [hr] at h
  simp only [Option.some.injEq] at h
  subst h
  exact ⟨rfl, rfl, rfl, rfl, rfl, rfl, rfl, rfl, rfl, rfl, rfl, rfl, rfl, rfl,
    stable_sort_perm _ _⟩

theorem hook_fixed (s : advuilist T)
    (h : ∀ hook, s._force_rebuild = true → s._ffrebuild = some hook → hook s._olist = s._olist) :
    rebuild.hook s = s := by
  unfold rebuild.hook
  split
  · next hook hf hh =>
    rw [h hook hf hh]
  · rfl

theorem hook_olist (s : advuilist T) (c : List T) (hc : (rebuild.hook s)._olist = c)
    (hst : ∀ hook, s._force_rebuild = true → s._ffrebuild = some hook →
      hook (hook s._olist) = hook s._olist) :
    ∀ hook, s._force_rebuild = true → s._ffrebuild = some hook → hook c = c := by
  intro hook hf hh
  have : (rebuild.hook s)._olist = hook s._olist := by
    unfold rebuild.hook
    simp only [hf, hh]
  rw [← hc, this]
  exact hst hook hf hh

end advuilist

/-- C6: `rebuild` is idempotent.  When a call `rebuild(list)` returns and the forced
rebuild hook, if it runs, leaves the container as its first run left it, the same call
made again returns the very state the first call returned: the entry list, the pages,
the cursor index, the current page and everything else are unchanged. -/
theorem rebuild_idempotent {T : Type} (s s1 : advuilist T) (list : Option (List T))
    (hstable : ∀ hook, s._force_rebuild = true → s._ffrebuild = some hook →
      hook (hook s._olist) = hook s._olist)
    (hfirst : s.rebuild list = some s1) :
    s1.rebuild list = some s1 := by
  have hfirst' : advuilist.rebuild.finish { advuilist.rebuild.hook s with
      _list := advuilist.rebuild.scan (advuilist.rebuild.keep (advuilist.rebuild.hook s))
        (advuilist.rebuild.rlist (advuilist.rebuild.hook s) list) 0 0 } = some s1 := hfirst
  have hfr := advuilist.finish_frame _ _ hfirst'
  simp only [] at hfr
  obtain ⟨-, h2, -, -, h5, h6, h7, -, -, -, -, h12, h13, -, -⟩ := hfr
  have hfix : advuilist.rebuild.hook s1 = s1 := by
    apply advuilist.hook_fixed
    intro hook hf hh
    rw [h13]
    have hk : (advuilist.rebuild.hook s)._force_rebuild = s._force_rebuild ∧
        (advuilist.rebuild.hook s)._ffrebuild = s._ffrebuild := by
      unfold advuilist.rebuild.hook
      split <;> simp
    exact advuilist.hook_olist s _ rfl hstable hook (by rw [← hk.1, ← h12]; exact hf)
      (by rw [← hk.2, ← h6]; exact hh)
  have hkeep : advuilist.rebuild.keep s1 = advuilist.rebuild.keep (advuilist.rebuild.hook s) := by
    funext x
    simp only [advuilist.rebuild.keep, h2, h5, h7]
  have hrl : advuilist.rebuild.rlist s1 list =
      advuilist.rebuild.rlist (advuilist.rebuild.hook s) list := by
    cases list <;> simp only [advuilist.rebuild.rlist, h13]
  show advuilist.rebuild.finish { advuilist.rebuild.hook s1 with
      _list := advuilist.rebuild.scan (advuilist.rebuild.keep (advuilist.rebuild.hook s1))
        (advuilist.rebuild.rlist (advuilist.rebuild.hook s1) list) 0 0 } = some s1
  rw [hfix, hkeep, hrl]
  exact advuilist.finish_idem _ _ _ hfirst'

/-- C6 at the engine of the filter scenario. -/
theorem rebuild_idempotent_witness :
    advuilist.rebuild
      { rocks_engine with
        _list := advuilist.rebuild.scan (fun x => x.name = "rock" ∨ x.name = "rope") rocks 0 0
        _pages := [(0, 1), (1, 2)]
        _needsinit := false } none =
    some { rocks_engine with
        _list := advuilist.rebuild.scan (fun x => x.name = "rock" ∨ x.name = "rope") rocks 0 0
        _pages := [(0, 1), (1, 2)]
        _needsinit := false } :=
  rebuild_idempotent rocks_engine _ none (fun hook hf => by cases hf) rfl

/-! ## Cursor movement -/

namespace advuilist
variable {T : Type}

theorem paginate_pages_sound (pagesize cgroup : Nat) (groupers : List (grouper_t T))
    (list : List (entry_t T)) (pages : List page_t)
    (h : _paginate.pages pagesize cgroup groupers list = some pages) :
    pages ≠ [] ∧ covers pages 0 list.length := by
  by_cases hg : cgroup < groupers.length
  · obtain ⟨pages', hp, hne, hcov, -⟩ := paginate_pages_covers pagesize cgroup groupers list hg
    rw [hp] at h
    cases h
    exact ⟨hne, hcov⟩
  · have hnone : groupers[cgroup]? = none := List.getElem?_eq_none (by omega)
    have := paginate_finish_covers list.length [] 0 (by simp [covers]) (Nat.zero_le _)
    unfold _paginate.pages at h
    simp only [hnone] at h
    split_ifs at h <;> cases h <;> exact ⟨this.1, this.2⟩

theorem paginated_covers (s : advuilist T) (h : s._paginate = some s) :
    s._pages ≠ [] ∧ covers s._pages 0 s._list.length := by
  unfold _paginate at h
  cases hp : _paginate.pages s._pagesize s._cgroup s._groupers s._list with
  | none => rw [hp] at h; cases h
  | some pages =>
    rw [hp] at h
    simp only [Option.some.injEq] at h
    have e : s._pages = pages := by rw [← h]
    rw [e]
    exact paginate_pages_sound _ _ _ _ _ hp

theorem pages_ends (ps : List page_t) (n : Nat) (hne : ps ≠ []) (hcov : covers ps 0 n) :
    ∃ front back, ps.head? = some front ∧ ps.getLast? = some back ∧ front.1 = 0 ∧ back.2 = n := by
  have h1 := covers_head ps 0 n hcov hne
  have h2 := covers_last ps 0 n hcov hne
  cases hf : ps.head? with
  | none => rw [hf] at h1; simp at h1
  | some front =>
    cases hb : ps.getLast? with
    | none => rw [hb] at h2; simp at h2
    | some back =>
      rw [hf] at h1
      rw [hb] at h2
      simp only [Option.map_some', Option.some.injEq] at h1 h2
      exact ⟨front, back, rfl, rfl, h1, h2⟩

theorem incidx_empty (s : advuilist T) (amount : Nat) (hne : s._pages ≠ [])
    (hcov : covers s._pages 0 0) :
    s._incidx amount = some { s with _cidx := 0, _cpage := 0 } := by
  obtain ⟨front, back, hf, hb, -, hb2⟩ := pages_ends _ _ hne hcov
  simp only [_incidx, hf, hb, hb2, if_true]

theorem decidx_empty (s : advuilist T) (amount : Nat) (hne : s._pages ≠ [])
    (hcov : covers s._pages 0 0) :
    s._decidx amount = some { s with _cidx := 0, _cpage := 0 } := by
  obtain ⟨front, back, hf, hb, -, hb2⟩ := pages_ends _ _ hne hcov
  simp only [_decidx, hf, hb, hb2, if_true]

theorem incidx_some (s : advuilist T) (amount n : Nat) (hne : s._pages ≠ [])
    (hcov : covers s._pages 0 n) (hn : n ≠ 0) :
    ∃ cpage, s._incidx amount = some { s with
        _cidx := if s._cidx = n - 1 then 0 else min (size_add s._cidx amount) (n - 1)
        _cpage := cpage } ∧
      _idxtopage s._pages
        (if s._cidx = n - 1 then 0 else min (size_add s._cidx amount) (n - 1)) =
        some cpage := by
  obtain ⟨front, back, hf, hb, hf1, hb2⟩ := pages_ends _ _ hne hcov
  obtain ⟨k, hk⟩ := idxtopage_some s._pages 0 n
    (if s._cidx = n - 1 then 0 else min (size_add s._cidx amount) (n - 1)) hcov hne (by
      split_ifs
      · omega
      · have := Nat.min_le_right (size_add s._cidx amount) (n - 1)
        omega)
  refine ⟨k, ?_, hk⟩
  simp only [_incidx, hf, hb, hb2, hf1, if_neg hn, hk]

theorem size_sub_le (a b : Nat) (h : b % size_mod ≤ a) : size_sub a b ≤ a := by
  unfold size_sub
  have e : a + size_mod - b % size_mod = (a - b % size_mod) + size_mod := by omega
  rw [e, Nat.add_mod_right]
  exact le_trans (Nat.mod_le _ _) (Nat.sub_le _ _)

theorem decidx_some (s : advuilist T) (amount n : Nat) (hne : s._pages ≠ [])
    (hcov : covers s._pages 0 n) (hcur : s._cidx < n) :
    ∃ cpage, s._decidx amount = some { s with
        _cidx := if s._cidx = 0 then n - 1
          else if size_add 0 amount > s._cidx then 0 else size_sub s._cidx amount
        _cpage := cpage } ∧
      _idxtopage s._pages (if s._cidx = 0 then n - 1
          else if size_add 0 amount > s._cidx then 0 else size_sub s._cidx amount) =
        some cpage := by
  obtain ⟨front, back, hf, hb, hf1, hb2⟩ := pages_ends _ _ hne hcov
  obtain ⟨k, hk⟩ := idxtopage_some s._pages 0 n
    (if s._cidx = 0 then n - 1
      else if size_add 0 amount > s._cidx then 0 else size_sub s._cidx amount) hcov hne (by
      split_ifs with h1 h2
      · omega
      · omega
      · have h3 : amount % size_mod ≤ s._cidx := by
          simp only [size_add, Nat.zero_add] at h2
          omega
        have := size_sub_le s._cidx amount h3
        omega)
  refine ⟨k, ?_, hk⟩
  have hn : n ≠ 0 := by omega
  simp only [_decidx, hf, hb, hb2, hf1, if_neg hn, hk]

end advuilist

/-- C7: in an engine whose pages are those `_paginate` computes for its list, with an
amount that does not take the cursor index past the range of `size_t`: on a non-empty
list of length `N`, with the cursor at a valid index, `_incidx` returns and sets the
cursor to 0 from `N - 1` and to the smaller of cursor plus amount and `N - 1` from any
other index, `_decidx` returns and sets the cursor to `N - 1` from 0 and to the cursor
minus the amount, or 0 when the amount is larger, from any other index; on an empty
list both return and leave the cursor and the page at 0. -/
theorem cursor_moves {T : Type} (s : advuilist T) (amount : Nat)
    (hpag : s._paginate = some s) (hfit : s._cidx + amount < size_mod) :
    (s._list ≠ [] → s._cidx < s._list.length →
      (∃ s', s._incidx amount = some s' ∧
        s'._cidx = if s._cidx = s._list.length - 1 then 0
          else min (s._cidx + amount) (s._list.length - 1)) ∧
      (∃ s', s._decidx amount = some s' ∧
        s'._cidx = if s._cidx = 0 then s._list.length - 1
          else if amount > s._cidx then 0 else s._cidx - amount)) ∧
    (s._list = [] →
      (∃ s', s._incidx amount = some s' ∧ s'._cidx = 0 ∧ s'._cpage = 0) ∧
      (∃ s', s._decidx amount = some s' ∧ s'._cidx = 0 ∧ s'._cpage = 0)) := by
  obtain ⟨hne, hcov⟩ := advuilist.paginated_covers s hpag
  have hsum : size_add s._cidx amount = s._cidx + amount := Nat.mod_eq_of_lt hfit
  have hamount : size_add 0 amount = amount := by
    unfold size_add
    rw [Nat.zero_add]
    exact Nat.mod_eq_of_lt (by omega)
  have hsub : amount ≤ s._cidx → size_sub s._cidx amount = s._cidx - amount := by
    intro hle
    unfold size_sub
    have e : s._cidx + size_mod - amount % size_mod = (s._cidx - amount) + size_mod := by
      rw [Nat.mod_eq_of_lt (by omega : amount < size_mod)]
      omega
    rw [e, Nat.add_mod_right]
    exact Nat.mod_eq_of_lt (by omega)
  constructor
  · intro _ hcur
    obtain ⟨k1, h1, -⟩ := advuilist.incidx_some s amount _ hne hcov (by omega)
    obtain ⟨k2, h2, -⟩ := advuilist.decidx_some s amount _ hne hcov hcur
    rw [hsum] at h1
    rw [hamount] at h2
    refine ⟨⟨_, h1, rfl⟩, ⟨_, h2, ?_⟩⟩
    simp only []
    split_ifs with h3 h4
    · rfl
    · rfl
    · exact hsub (by omega)
  · intro hnil
    rw [hnil] at hcov
    exact ⟨⟨_, advuilist.incidx_empty s amount hne hcov, rfl, rfl⟩,
      ⟨_, advuilist.decidx_empty s amount hne hcov, rfl, rfl⟩⟩

/-- C7 at the engine `numbers` with the cursor on the last of its seven entries. -/
theorem cursor_moves_witness :
    ((numbers_at 6)._list ≠ [] → (numbers_at 6)._cidx < (numbers_at 6)._list.length →
      (∃ s', (numbers_at 6)._incidx 1 = some s' ∧
        s'._cidx = if (numbers_at 6)._cidx = (numbers_at 6)._list.length - 1 then 0
          else min ((numbers_at 6)._cidx + 1) ((numbers_at 6)._list.length - 1)) ∧
      (∃ s', (numbers_at 6)._decidx 1 = some s' ∧
        s'._cidx = if (numbers_at 6)._cidx = 0 then (numbers_at 6)._list.length - 1
          else if 1 > (numbers_at 6)._cidx then 0 else (numbers_at 6)._cidx - 1)) ∧
    ((numbers_at 6)._list = [] →
      (∃ s', (numbers_at 6)._incidx 1 = some s' ∧ s'._cidx = 0 ∧ s'._cpage = 0) ∧
      (∃ s', (numbers_at 6)._decidx 1 = some s' ∧ s'._cidx = 0 ∧ s'._cpage = 0)) :=
  cursor_moves (numbers_at 6) 1 rfl (by decide)

/-! ## Saved state -/

namespace advuilist
variable {T : Type}

theorem hook_frame (s : advuilist T) :
    (rebuild.hook s)._pagesize = s._pagesize ∧ (rebuild.hook s)._columns = s._columns ∧
    (rebuild.hook s)._sorters = s._sorters ∧ (rebuild.hook s)._groupers = s._groupers ∧
    (rebuild.hook s)._ffilter = s._ffilter ∧ (rebuild.hook s)._ffrebuild = s._ffrebuild ∧
    (rebuild.hook s)._filter = s._filter ∧ (rebuild.hook s)._csort = s._csort ∧
    (rebuild.hook s)._cgroup = s._cgroup ∧ (rebuild.hook s)._cidx = s._cidx ∧
    (rebuild.hook s)._force_rebuild = s._force_rebuild := by
  unfold rebuild.hook
  split <;> simp

theorem rebuild_frame (s s' : advuilist T) (list : Option (List T))
    (h : s.rebuild list = some s') :
    s'._pagesize = s._pagesize ∧ s'._columns = s._columns ∧ s'._sorters = s._sorters ∧
    s'._groupers = s._groupers ∧ s'._ffilter = s._ffilter ∧ s'._ffrebuild = s._ffrebuild ∧
    s'._filter = s._filter ∧ s'._csort = s._csort ∧ s'._cgroup = s._cgroup ∧
    s'._force_rebuild = s._force_rebuild ∧
    s'._cidx = clamp_idx s._cidx s'._list.length := by
  have h' : rebuild.finish { rebuild.hook s with
      _list := rebuild.scan (rebuild.keep (rebuild.hook s))
        (rebuild.rlist (rebuild.hook s) list) 0 0 } = some s' := h
  obtain ⟨a1, a2, a3, a4, a5, a6, a7, -, a9, a10, -, a12, -, a14, a15⟩ := finish_frame _ _ h'
  obtain ⟨b1, b2, b3, b4, b5, b6, b7, b8, b9, b10, b11⟩ := hook_frame s
  simp only [] at a1 a2 a3 a4 a5 a6 a7 a9 a10 a12 a14 a15
  refine ⟨a1.trans b1, a2.trans b2, a3.trans b3, a4.trans b4, a5.trans b5, a6.trans b6,
    a7.trans b7, a9.trans b8, a10.trans b9, a12.trans b11, ?_⟩
  rw [a14, b10, a15.length_eq]

theorem rebuild_valid (s s' : advuilist T) (list : Option (List T))
    (h : s.rebuild list = some s') :
    ∃ so gr, s._sorters[s._csort]? = some so ∧ s._groupers[s._cgroup]? = some gr := by
  have h' : rebuild.finish { rebuild.hook s with
      _list := rebuild.scan (rebuild.keep (rebuild.hook s))
        (rebuild.rlist (rebuild.hook s) list) 0 0 } = some s' := h
  obtain ⟨so, gr, hso, hgr⟩ := finish_valid _ _ h'
  obtain ⟨-, -, b3, b4, -, -, -, b8, b9, -, -⟩ := hook_frame s
  simp only [b3, b4, b8, b9] at hso hgr
  exact ⟨so, gr, hso, hgr⟩

theorem rebuild_returns (s : advuilist T) (list : Option (List T)) (so : sorter_t T)
    (gr : grouper_t T) (hso : s._sorters[s._csort]? = some so)
    (hgr : s._groupers[s._cgroup]? = some gr) : ∃ s', s.rebuild list = some s' := by
  obtain ⟨-, -, b3, b4, -, -, -, b8, b9, -, -⟩ := hook_frame s
  obtain ⟨pages, cpage, hreb, -, -⟩ := rebuild_finish_some
    { rebuild.hook s with
      _list := rebuild.scan (rebuild.keep (rebuild.hook s))
        (rebuild.rlist (rebuild.hook s) list) 0 0 } so gr
    (by simp only [b3, b8]; exact hso) (by simp only [b4, b9]; exact hgr)
  exact ⟨_, hreb⟩

theorem load_after_save (s : advuilist T) (st : advuilist_save_state) (c : List T)
    (csort cgroup : Nat) (filter : String) :
    load_state { s with _olist := c, _csort := csort, _cgroup := cgroup, _filter := filter }
        (s.save_state st) true =
      rebuild { s with _olist := c } none := by
  simp only [load_state, save_state, if_true]

/-- The entries after `rebuild`: the elements of the container the loop walks, each
with its position, that pass the test of the loop, in some order. -/
theorem rebuild_list_perm (s s' : advuilist T) (list : Option (List T))
    (h : s.rebuild list = some s') :
    (s'._list.map entry_pair).Perm
      ((rebuild.rlist (rebuild.hook s) list).enum.filter
        (fun q => rebuild.keep (rebuild.hook s) q.2)) := by
  have h' : rebuild.finish { rebuild.hook s with
      _list := rebuild.scan (rebuild.keep (rebuild.hook s))
        (rebuild.rlist (rebuild.hook s) list) 0 0 } = some s' := h
  have hperm := (finish_frame _ _ h').2.2.2.2.2.2.2.2.2.2.2.2.2.2
  simp only [] at hperm
  rw [List.enum_eq_enumFrom, ← scan_pairs (rebuild.keep (rebuild.hook s))
    (rebuild.rlist (rebuild.hook s) list) 0 0]
  exact hperm.map _

theorem keep_replaced (s : advuilist T) (c : List T) :
    rebuild.keep (rebuild.hook { s with _olist := c }) = rebuild.keep s := by
  funext x
  obtain ⟨-, b2, -, -, b5, -, b7, -, -, -, -⟩ := hook_frame ({ s with _olist := c } : advuilist T)
  unfold rebuild.keep
  rw [b2, b5, b7]

end advuilist

/-- C8: in an engine state `s` a rebuild returned, `save_state` followed by
`load_state` with rebuild on the same engine returns a state `s'` with the sort index,
the group index and the filter text of `s`, also when the collection of the engine has
been replaced by any collection `c` in between, and even when its sort index, group
index and filter text have been changed in between.  The entries of `s'` are those of
the collection the rebuild reads, which is `c` unless the `on_force_rebuild` hook runs
and replaces its contents: every element of it that passes the filter of `s`, with its
position, once.  The cursor index of `s'` is the cursor index of `s` clamped to the
last valid index of that new list: the same index when it is still valid. -/
theorem save_load_round_trip {T : Type} (s0 s : advuilist T) (l0 : Option (List T))
    (st : advuilist_save_state) (c : List T) (csort cgroup : Nat) (filter : String)
    (hreach : s0.rebuild l0 = some s) :
    ∃ s', advuilist.load_state
        { s with _olist := c, _csort := csort, _cgroup := cgroup, _filter := filter }
        (s.save_state st) true = some s' ∧
      s'._csort = s._csort ∧ s'._cgroup = s._cgroup ∧ s'._filter = s._filter ∧
      (s'._list.map entry_pair).Perm
        ((advuilist.rebuild.hook { s with _olist := c })._olist.enum.filter
          (fun q => advuilist.rebuild.keep s q.2)) ∧
      (s._force_rebuild = false →
        (s'._list.map entry_pair).Perm
          (c.enum.filter (fun q => advuilist.rebuild.keep s q.2))) ∧
      s'._cidx = clamp_idx s._cidx s'._list.length ∧
      (s._cidx < s'._list.length → s'._cidx = s._cidx) := by
  obtain ⟨so, gr, hso, hgr⟩ := advuilist.rebuild_valid s0 s l0 hreach
  obtain ⟨-, -, a3, a4, -, -, -, a8, a9, -, -⟩ := advuilist.rebuild_frame s0 s l0 hreach
  rw [← a3, ← a8] at hso
  rw [← a4, ← a9] at hgr
  obtain ⟨s', hs'⟩ := advuilist.rebuild_returns { s with _olist := c } none so gr hso hgr
  obtain ⟨-, -, -, -, -, -, b7, b8, b9, -, b11⟩ := advuilist.rebuild_frame _ s' none hs'
  have hperm := advuilist.rebuild_list_perm _ s' none hs'
  rw [advuilist.keep_replaced] at hperm
  refine ⟨s', (advuilist.load_after_save s st c csort cgroup filter).trans hs', b8, b9, b7,
    hperm, ?_, b11, fun h => ?_⟩
  · intro hf
    have hh : advuilist.rebuild.hook { s with _olist := c } = { s with _olist := c } := by
      unfold advuilist.rebuild.hook
      simp only [hf]
    rw [hh] at hperm
    exact hperm
  · rw [b11]
    simp only [clamp_idx]
    split_ifs <;> omega

/-- C8 at the engine `numbers` with the cursor at 4, when after `save_state` the
collection has shrunk to its first three numbers and the sort index, the group index
and the filter text have been set to 1, 1 and "x": the round trip gives back the sort
index, the group index and the filter text of before, the entries are those three
numbers and the cursor index is 2. -/
theorem save_load_round_trip_witness :
    ∃ s', advuilist.load_state
        { numbers_at 4 with _olist := [5, 2, 7], _csort := 1, _cgroup := 1, _filter := "x" }
        ((numbers_at 4).save_state {}) true = some s' ∧
      s'._csort = (numbers_at 4)._csort ∧ s'._cgroup = (numbers_at 4)._cgroup ∧
      s'._filter = (numbers_at 4)._filter ∧
      (s'._list.map entry_pair).Perm
        ((advuilist.rebuild.hook { numbers_at 4 with _olist := [5, 2, 7] })._olist.enum.filter
          (fun q => advuilist.rebuild.keep (numbers_at 4) q.2)) ∧
      ((numbers_at 4)._force_rebuild = false →
        (s'._list.map entry_pair).Perm
          ([5, 2, 7].enum.filter (fun q => advuilist.rebuild.keep (numbers_at 4) q.2))) ∧
      s'._cidx = clamp_idx (numbers_at 4)._cidx s'._list.length ∧
      ((numbers_at 4)._cidx < s'._list.length → s'._cidx = (numbers_at 4)._cidx) :=
  save_load_round_trip (numbers_at 4) (numbers_at 4) none {} [5, 2, 7] 1 1 "x" rfl

/-- C9 fails on the code: the engines `numbers_at 4` and `numbers_at 0` differ in the
cursor only; the state saved by the first holds the cursor index 4, and after
`load_state` of it with rebuild the second has the sort index, the group index and the
filter text of the first but still its own cursor index 0. -/
theorem load_state_drops_cursor :
    ((numbers_at 4).save_state {}).idx = 4 ∧
    (advuilist.load_state (numbers_at 0) ((numbers_at 4).save_state {}) true).map
        (fun s => (s._csort, s._cgroup, s._filter, s._cidx)) = some (0, 0, "", 0) ∧
    (advuilist.load_state (numbers_at 0) ((numbers_at 4).save_state {}) false).map
        (fun s => (s._csort, s._cgroup, s._filter, s._cidx)) = some (0, 0, "", 4) :=
  ⟨rfl, by decide, by decide⟩

/-- C10 fails as stated: the engine `numbers_at 0` has two sorters; after `load_state`
without rebuild of a state whose sort index is 5 the active sort index is 5, and
`load_state` of it with rebuild indexes the sorters out of range. -/
theorem load_state_keeps_bad_index :
    (advuilist.load_state (numbers_at 0) { sort := 5 } false).map
        (fun s => (s._csort, s._sorters.length)) = some (5, 2) ∧
    (advuilist.load_state (numbers_at 0) { sort := 5 } true).isNone = true :=
  ⟨by decide, by decide⟩

namespace advuilist
variable {T : Type}

theorem clamp_idx_valid (idx n : Nat) :
    clamp_idx idx n < n ∨ (n = 0 ∧ clamp_idx idx n = 0) := by
  unfold clamp_idx
  split_ifs <;> omega

end advuilist

/-- C10, as amended: for a saved state whose sort index and group index are valid indices
of the registries, `load_state` with rebuild returns, and so does `load_state` without
rebuild in an engine whose pages are those of its list; in the state either returns
the active sort index and group index are the saved ones, valid indices of the
registries, and the cursor index is below the length of the list, or 0 for an empty
list. -/
theorem load_state_valid_indices {T : Type} (s : advuilist T) (st : advuilist_save_state)
    (hsort : st.sort < s._sorters.length) (hgroup : st.group < s._groupers.length) :
    (∃ s', s.load_state st true = some s' ∧
      s'._csort = st.sort ∧ s'._csort < s'._sorters.length ∧
      s'._cgroup = st.group ∧ s'._cgroup < s'._groupers.length ∧
      (s'._cidx < s'._list.length ∨ (s'._list.length = 0 ∧ s'._cidx = 0))) ∧
    (s._paginate = some s →
      ∃ s', s.load_state st false = some s' ∧
        s'._csort = st.sort ∧ s'._csort < s'._sorters.length ∧
        s'._cgroup = st.group ∧ s'._cgroup < s'._groupers.length ∧
        (s'._cidx < s'._list.length ∨ (s'._list.length = 0 ∧ s'._cidx = 0))) := by
  constructor
  · obtain ⟨s', hs'⟩ := advuilist.rebuild_returns
      { s with _csort := st.sort, _cgroup := st.group, _filter := st.filter } none
      s._sorters[st.sort] s._groupers[st.group]
      (List.getElem?_eq_getElem hsort) (List.getElem?_eq_getElem hgroup)
    obtain ⟨-, -, b3, b4, -, -, -, b8, b9, -, b11⟩ := advuilist.rebuild_frame _ s' none hs'
    simp only [] at b3 b4 b8 b9
    refine ⟨s', by simp only [advuilist.load_state, if_true]; exact hs', b8, ?_, b9, ?_, ?_⟩
    · rw [b8, b3]; exact hsort
    · rw [b9, b4]; exact hgroup
    · rw [b11]; exact advuilist.clamp_idx_valid _ _
  · intro hpag
    obtain ⟨hne, hcov⟩ := advuilist.paginated_covers s hpag
    obtain ⟨cpage, hset, -⟩ := advuilist.setidx_some
      { s with _csort := st.sort, _cgroup := st.group, _filter := st.filter } st.idx
      s._list.length hne hcov
    refine ⟨_, by simp only [advuilist.load_state, Bool.false_eq_true, if_false]; exact hset,
      rfl, hsort, rfl, hgroup, advuilist.clamp_idx_valid _ _⟩

/-- C10, as amended, at the engine `numbers_at 0` and a saved state that selects the
sorter by value and the grouper by parity and has the cursor index 9. -/
theorem load_state_valid_indices_witness :
    (∃ s', (numbers_at 0).load_state { sort := 1, group := 1, idx := 9 } true = some s' ∧
      s'._csort = 1 ∧ s'._csort < s'._sorters.length ∧
      s'._cgroup = 1 ∧ s'._cgroup < s'._groupers.length ∧
      (s'._cidx < s'._list.length ∨ (s'._list.length = 0 ∧ s'._cidx = 0))) ∧
    ((numbers_at 0)._paginate = some (numbers_at 0) →
      ∃ s', (numbers_at 0).load_state { sort := 1, group := 1, idx := 9 } false = some s' ∧
        s'._csort = 1 ∧ s'._csort < s'._sorters.length ∧
        s'._cgroup = 1 ∧ s'._cgroup < s'._groupers.length ∧
        (s'._cidx < s'._list.length ∨ (s'._list.length = 0 ∧ s'._cidx = 0))) :=
  load_state_valid_indices (numbers_at 0) { sort := 1, group := 1, idx := 9 }
    (by decide) (by decide)

theorem find_if_some {α : Type} (p : α → Bool) : ∀ (l : List α) (i : Nat), find_if p l = some i →
    ∃ a, l[i]? = some a ∧ p a = true ∧ ∀ j b, j < i → l[j]? = some b → p b = false
  | [], _, h => by simp [find_if] at h
  | a :: l, i, h => by
    simp only [find_if] at h
    split_ifs at h with hp
    · cases h
      exact ⟨a, by simp, hp, fun j b hj => absurd hj (Nat.not_lt_zero j)⟩
    · cases hf : find_if p l with
      | none => simp [hf] at h
      | some k =>
        simp only [hf, Option.map_some', Option.some.injEq] at h
        subst h
        obtain ⟨x, hx, hpx, hlt⟩ := find_if_some p l k hf
        refine ⟨x, by simpa using hx, hpx, ?_⟩
        intro j b hj hb
        cases j with
        | zero =>
          simp only [List.getElem?_cons_zero, Option.some.injEq] at hb
          subst hb
          simpa using hp
        | succ j =>
          simp only [List.getElem?_cons_succ] at hb
          exact hlt j b (by omega) hb

theorem find_if_none {α : Type} (p : α → Bool) : ∀ (l : List α), find_if p l = none →
    ∀ a ∈ l, p a = false
  | [], _ => by simp
  | a :: l, h => by
    simp only [find_if] at h
    split_ifs at h with hp
    cases hf : find_if p l with
    | some k => simp [hf] at h
    | none =>
      intro b hb
      rcases List.mem_cons.mp hb with rfl | hb
      · simpa using hp
      · exact find_if_none p l hf b hb

theorem add_common_upsert {C : Type} (name : C → String) (cont : List C) (newc : C) :
    is_upsert name cont newc (advuilist._add_common name cont newc) ∧
    cont.length ≤ (advuilist._add_common name cont newc).length := by
  unfold advuilist._add_common
  cases hf : find_if (fun v => decide (name v = name newc)) cont with
  | some i =>
    obtain ⟨old, hold, hp, hlt⟩ := find_if_some _ cont i hf
    have hi : i < cont.length := by
      rcases List.getElem?_eq_some.mp hold with ⟨h, _⟩
      exact h
    simp only []
    refine ⟨Or.inl ⟨i, old, hold, by simpa using hp, ?_, by simp, ?_, ?_⟩, by simp⟩
    · intro j b hj hb
      simpa using hlt j b hj hb
    · simp [List.getElem?_set, hi]
    · intro j hj
      simp [List.getElem?_set, Ne.symm hj]
  | none =>
    simp only []
    refine ⟨Or.inr ⟨?_, rfl⟩, by simp⟩
    intro b hb
    simpa using find_if_none _ cont hf b hb

theorem add_common_none {C : Type} (name : C → String) (cont : List C) (newc : C)
    (h : none_at_zero name cont) : none_at_zero name (advuilist._add_common name cont newc) := by
  obtain ⟨n, hn, hname⟩ := h
  cases cont with
  | nil => simp at hn
  | cons a l =>
    simp only [List.getElem?_cons_zero, Option.some.injEq] at hn
    subst hn
    unfold advuilist._add_common
    simp only [find_if]
    split_ifs with hp
    · exact ⟨newc, by simp, by rw [← hname]; exact (by simpa using hp : name a = name newc).symm⟩
    · cases hf : find_if (fun v => decide (name v = name newc)) l with
      | none => exact ⟨a, by simp, hname⟩
      | some k => exact ⟨a, by simp, hname⟩

/-- C19: `add_sorter` and `add_grouper` are upserts by name.  When an entry of the new
name exists, the first such entry is overwritten at its index, and the length of the
registry and every other entry stay; otherwise the new entry is appended at the end.
The registry never shrinks, the other registry is left alone, and when index 0 held an
entry named "none" before the call it holds one after it. -/
theorem add_sorter_grouper_upsert {T : Type} (s : advuilist T) (so : sorter_t T)
    (gr : grouper_t T) :
    is_upsert sorter_t.name s._sorters so (s.add_sorter so)._sorters ∧
    is_upsert grouper_t.name s._groupers gr (s.add_grouper gr)._groupers ∧
    s._sorters.length ≤ (s.add_sorter so)._sorters.length ∧
    s._groupers.length ≤ (s.add_grouper gr)._groupers.length ∧
    (none_at_zero sorter_t.name s._sorters →
      none_at_zero sorter_t.name (s.add_sorter so)._sorters) ∧
    (none_at_zero grouper_t.name s._groupers →
      none_at_zero grouper_t.name (s.add_grouper gr)._groupers) ∧
    (s.add_sorter so)._groupers = s._groupers ∧ (s.add_grouper gr)._sorters = s._sorters ∧
    none_at_zero sorter_t.name ((advuilist.create s._olist).add_sorter so)._sorters ∧
    none_at_zero grouper_t.name ((advuilist.create s._olist).add_grouper gr)._groupers :=
  ⟨(add_common_upsert _ _ _).1, (add_common_upsert _ _ _).1, (add_common_upsert _ _ _).2,
    (add_common_upsert _ _ _).2, add_common_none _ _ _, add_common_none _ _ _, rfl, rfl,
    add_common_none _ _ _ ⟨{ name := "none", sorter := none }, by simp [advuilist.create], rfl⟩,
    add_common_none _ _ _
      ⟨{ name := "none", sorter := none, fgid := none }, by simp [advuilist.create], rfl⟩⟩

/-! ## Replacement collections -/

namespace advuilist
variable {T : Type}

theorem finish_frame_geometry (s1 s2 : advuilist T) (h : rebuild.finish s1 = some s2) :
    s2._fcounter = s1._fcounter ∧ s2._size = s1._size ∧ s2._osize = s1._osize ∧
    s2._origin = s1._origin ∧ s2._oorigin = s1._oorigin ∧ s2._innerw = s1._innerw ∧
    s2._headersize = s1._headersize ∧ s2._footersize = s1._footersize := by
  obtain ⟨so, gr, hso, hgr⟩ := finish_valid _ _ h
  obtain ⟨pages, cpage, hr, -, -⟩ := rebuild_finish_some s1 so gr hso hgr
  rw [hr] at h
  simp only [Option.some.injEq] at h
  subst h
  exact ⟨rfl, rfl, rfl, rfl, rfl, rfl, rfl, rfl⟩

theorem hook_frame_geometry (s : advuilist T) :
    (rebuild.hook s)._fcounter = s._fcounter ∧ (rebuild.hook s)._size = s._size ∧
    (rebuild.hook s)._osize = s._osize ∧ (rebuild.hook s)._origin = s._origin ∧
    (rebuild.hook s)._oorigin = s._oorigin ∧ (rebuild.hook s)._innerw = s._innerw ∧
    (rebuild.hook s)._headersize = s._headersize ∧
    (rebuild.hook s)._footersize = s._footersize := by
  unfold rebuild.hook
  split <;> simp

theorem rebuild_frame_geometry (s s' : advuilist T) (list : Option (List T))
    (h : s.rebuild list = some s') :
    s'._fcounter = s._fcounter ∧ s'._size = s._size ∧ s'._osize = s._osize ∧
    s'._origin = s._origin ∧ s'._oorigin = s._oorigin ∧ s'._innerw = s._innerw ∧
    s'._headersize = s._headersize ∧ s'._footersize = s._footersize := by
  have h' : rebuild.finish { rebuild.hook s with
      _list := rebuild.scan (rebuild.keep (rebuild.hook s))
        (rebuild.rlist (rebuild.hook s) list) 0 0 } = some s' := h
  obtain ⟨a1, a2, a3, a4, a5, a6, a7, a8⟩ := finish_frame_geometry _ _ h'
  obtain ⟨b1, b2, b3, b4, b5, b6, b7, b8⟩ := hook_frame_geometry s
  simp only [] at a1 a2 a3 a4 a5 a6 a7 a8
  exact ⟨a1.trans b1, a2.trans b2, a3.trans b3, a4.trans b4, a5.trans b5, a6.trans b6,
    a7.trans b7, a8.trans b8⟩

theorem rebuild_olist (s s' : advuilist T) (list : Option (List T))
    (h : s.rebuild list = some s') : s'._olist = (rebuild.hook s)._olist := by
  have h' : rebuild.finish { rebuild.hook s with
      _list := rebuild.scan (rebuild.keep (rebuild.hook s))
        (rebuild.rlist (rebuild.hook s) list) 0 0 } = some s' := h
  exact (finish_frame _ _ h').2.2.2.2.2.2.2.2.2.2.2.2.1

/-- Two engines that agree on the container the hook leaves and on what a rebuild reads
get the same entries and pages from `rebuild()`. -/
theorem rebuild_none_agree (a b a' : advuilist T)
    (ho : (rebuild.hook a)._olist = (rebuild.hook b)._olist)
    (h1 : a._pagesize = b._pagesize) (h2 : a._columns = b._columns)
    (h3 : a._sorters = b._sorters) (h4 : a._groupers = b._groupers)
    (h5 : a._ffilter = b._ffilter) (h7 : a._filter = b._filter)
    (h9 : a._csort = b._csort) (h10 : a._cgroup = b._cgroup)
    (ha : a.rebuild none = some a') :
    ∃ b', b.rebuild none = some b' ∧ b'._list = a'._list ∧ b'._pages = a'._pages := by
  obtain ⟨so, gr, hso, hgr⟩ := rebuild_valid a a' none ha
  obtain ⟨a1, a2, a3, a4, a5, -, a7, a8, a9, -, -⟩ := hook_frame a
  obtain ⟨b1, b2, b3, b4, b5, -, b7, b8, b9, -, -⟩ := hook_frame b
  have hkeep : rebuild.keep (rebuild.hook b) = rebuild.keep (rebuild.hook a) := by
    funext x
    simp only [rebuild.keep, a2, a5, a7, b2, b5, b7, h2, h5, h7]
  have ha' : rebuild.finish { rebuild.hook a with
      _list := rebuild.scan (rebuild.keep (rebuild.hook a)) (rebuild.hook a)._olist 0 0 } =
      some a' := ha
  have hb' : b.rebuild none = rebuild.finish { rebuild.hook b with
      _list := rebuild.scan (rebuild.keep (rebuild.hook a)) (rebuild.hook a)._olist 0 0 } := by
    show rebuild.finish { rebuild.hook b with
      _list := rebuild.scan (rebuild.keep (rebuild.hook b)) (rebuild.hook b)._olist 0 0 } = _
    rw [hkeep, ho]
  obtain ⟨pa, ca, hra, hpa, -⟩ := rebuild_finish_some { rebuild.hook a with
      _list := rebuild.scan (rebuild.keep (rebuild.hook a)) (rebuild.hook a)._olist 0 0 } so gr
    (by simpa only [a3, a8] using hso) (by simpa only [a4, a9] using hgr)
  obtain ⟨pb, cb, hrb, hpb, -⟩ := rebuild_finish_some { rebuild.hook b with
      _list := rebuild.scan (rebuild.keep (rebuild.hook a)) (rebuild.hook a)._olist 0 0 } so gr
    (by simpa only [b3, b8, ← h3, ← h9] using hso) (by simpa only [b4, b9, ← h4, ← h10] using hgr)
  simp only [] at hpa hpb
  rw [a1, a9, a4] at hpa
  rw [b1, b9, b4, ← h1, ← h10, ← h4, hpa] at hpb
  simp only [Option.some.injEq] at hpb
  rw [hra] at ha'
  simp only [Option.some.injEq] at ha'
  subst ha'
  rw [hb', hrb]
  exact ⟨_, rfl, rfl, hpb.symm⟩

end advuilist

/-- C18 fails as stated: an engine built over the numbers 1, 2, 3 and rebuilt with the
replacement collection 7, 8 lists 7, 8, and the next `rebuild()` without argument lists
1, 2, 3 again: the replacement is not kept. -/
theorem rebuild_forgets_replacement :
    ((advuilist.create [1, 2, 3]).rebuild (some [7, 8])).map
        (fun s => (s._list.map (fun e => e.ptr.elem), s._olist)) =
      some ([7, 8], [1, 2, 3]) ∧
    (((advuilist.create [1, 2, 3]).rebuild (some [7, 8])).bind
        (fun s => s.rebuild none)).map (fun s => s._list.map (fun e => e.ptr.elem)) =
      some [1, 2, 3] ∧
    (((advuilist.create [1, 2, 3]).rebuild (some [7, 8])).bind
        (fun s => s._setfilter "")).map (fun s => s._list.map (fun e => e.ptr.elem)) =
      some [1, 2, 3] :=
  ⟨by decide, by decide, by decide⟩

/-- C18, amended: a replacement collection serves the one call `rebuild(L)` and is not
kept.  After a call `rebuild(L)` that returns, the container the engine points to is
the one it pointed to before (as the forced rebuild hook, if it runs, left it), and a
later `rebuild()` without argument, the rebuild after a change of the filter text and
the rebuild after a resize that changes the page size all return with the entries and
the pages the same operation gives on the engine that was never handed `L`. -/
theorem rebuild_replacement_not_kept {T : Type} (s s1 : advuilist T) (L : List T)
    (hstable : ∀ hook, s._force_rebuild = true → s._ffrebuild = some hook →
      hook (hook s._olist) = hook s._olist)
    (h : s.rebuild (some L) = some s1) :
    s1._olist = (advuilist.rebuild.hook s)._olist ∧
    (∃ s0 s2, s.rebuild none = some s0 ∧ s1.rebuild none = some s2 ∧
      s2._list = s0._list ∧ s2._pages = s0._pages) ∧
    (∀ filter, ∃ s0 s2, s._setfilter filter = some s0 ∧ s1._setfilter filter = some s2 ∧
      s2._list = s0._list ∧ s2._pages = s0._pages) ∧
    (∀ TERM size origin reserved_rows,
      (advuilist.resize.geometry TERM s size origin reserved_rows).2 ≠ s._pagesize →
      ∃ s0 s2, s.resize TERM size origin reserved_rows = some s0 ∧
        s1.resize TERM size origin reserved_rows = some s2 ∧
        s2._list = s0._list ∧ s2._pages = s0._pages) := by
  obtain ⟨so, gr, hso, hgr⟩ := advuilist.rebuild_valid s s1 _ h
  obtain ⟨f1, f2, f3, f4, f5, f6, f7, f8, f9, f10, -⟩ := advuilist.rebuild_frame s s1 _ h
  obtain ⟨g1, g2, g3, g4, g5, g6, g7, g8⟩ := advuilist.rebuild_frame_geometry s s1 _ h
  have hol := advuilist.rebuild_olist s s1 _ h
  have hhook : ∀ (a b : advuilist T), a._force_rebuild = s._force_rebuild →
      a._ffrebuild = s._ffrebuild → a._olist = s._olist →
      b._force_rebuild = s._force_rebuild → b._ffrebuild = s._ffrebuild →
      b._olist = s1._olist →
      (advuilist.rebuild.hook a)._olist = (advuilist.rebuild.hook b)._olist := by
    intro a b a1 a2 a3 b1 b2 b3
    unfold advuilist.rebuild.hook at hol ⊢
    rw [a1, a2, b1, b2]
    cases hf : s._force_rebuild <;> cases hh : s._ffrebuild <;>
      simp only [hf, hh] at hol ⊢ <;> rw [b3, hol, a3]
    exact (hstable _ hf hh).symm
  refine ⟨hol, ?_, ?_, ?_⟩
  · obtain ⟨s0, hs0⟩ := advuilist.rebuild_returns s none so gr hso hgr
    obtain ⟨s2, hs2, hl, hp⟩ := advuilist.rebuild_none_agree s s1 s0
      (hhook s s1 rfl rfl rfl f10 f6 rfl) f1.symm f2.symm f3.symm f4.symm f5.symm f7.symm
      f8.symm f9.symm hs0
    exact ⟨s0, s2, hs0, hs2, hl, hp⟩
  · intro filter
    obtain ⟨s0, hs0⟩ := advuilist.rebuild_returns { s with _filter := filter } none so gr hso hgr
    obtain ⟨s2, hs2, hl, hp⟩ := advuilist.rebuild_none_agree { s with _filter := filter }
      { s1 with _filter := filter } s0
      (hhook _ _ rfl rfl rfl f10 f6 rfl) f1.symm f2.symm f3.symm f4.symm f5.symm rfl
      f8.symm f9.symm hs0
    exact ⟨s0, s2, hs0, hs2, hl, hp⟩
  · intro TERM size origin reserved_rows hne
    have hg2 : (advuilist.resize.geometry TERM s1 size origin reserved_rows).2 =
        (advuilist.resize.geometry TERM s size origin reserved_rows).2 := by
      simp only [advuilist.resize.geometry, g7, g8]
    have hne1 : (advuilist.resize.geometry TERM s1 size origin reserved_rows).2 ≠
        s1._pagesize := by
      rw [hg2, f1]
      exact hne
    obtain ⟨s0, hs0⟩ := advuilist.rebuild_returns
      { (advuilist.resize.geometry TERM s size origin reserved_rows).1 with
        _pagesize := (advuilist.resize.geometry TERM s size origin reserved_rows).2 }
      none so gr hso hgr
    obtain ⟨s2, hs2, hl, hp⟩ := advuilist.rebuild_none_agree
      { (advuilist.resize.geometry TERM s size origin reserved_rows).1 with
        _pagesize := (advuilist.resize.geometry TERM s size origin reserved_rows).2 }
      { (advuilist.resize.geometry TERM s1 size origin reserved_rows).1 with
        _pagesize := (advuilist.resize.geometry TERM s1 size origin reserved_rows).2 } s0
      (hhook _ _ rfl rfl rfl f10 f6 rfl) hg2.symm f2.symm f3.symm f4.symm f5.symm f7.symm
      f8.symm f9.symm hs0
    refine ⟨s0, s2, ?_, ?_, hl, hp⟩
    · unfold advuilist.resize
      simp only [if_pos hne]
      exact hs0
    · unfold advuilist.resize
      simp only [if_pos hne1]
      exact hs2

/-- C18, amended, at the engine over 1, 2, 3 handed the replacement 7, 8. -/
theorem rebuild_replacement_not_kept_witness :
    ∃ s1 : advuilist Nat, (advuilist.create [1, 2, 3]).rebuild (some [7, 8]) = some s1 ∧
      s1._olist = [1, 2, 3] ∧
      ∃ s0 s2, (advuilist.create [1, 2, 3]).rebuild none = some s0 ∧
        s1.rebuild none = some s2 ∧ s2._list = s0._list ∧ s2._pages = s0._pages := by
  obtain ⟨s1, h1⟩ := advuilist.rebuild_returns (advuilist.create [1, 2, 3]) (some [7, 8])
    { name := "none", sorter := none } { name := "none", sorter := none, fgid := none } rfl rfl
  obtain ⟨ho, hr, -, -⟩ := rebuild_replacement_not_kept (advuilist.create [1, 2, 3]) s1 [7, 8]
    (fun hook hf => by cases hf) h1
  exact ⟨s1, h1, ho, hr⟩

/-! ## Selection -/

namespace advuilist
variable {T : Type}

theorem peek_some (s : advuilist T) (e : entry_t T) (amount : Nat)
    (hcur : s._list[s._cidx]? = some e) :
    s._peek amount = some [{ count := amount, ptr := e.ptr }] := by
  unfold _peek
  cases hl : s._list with
  | nil => simp [hl] at hcur
  | cons a l =>
    simp only []
    rw [← hl, hcur]

theorem peekcount_some (s : advuilist T) (e : entry_t T)
    (hcur : s._list[s._cidx]? = some e) : s._peekcount = some (selectable_count s e) := by
  unfold _peekcount _count selectable_count
  cases hl : s._list with
  | nil => simp [hl] at hcur
  | cons a l =>
    simp only []
    cases hf : s._fcounter with
    | none => rfl
    | some f =>
      simp only []
      rw [← hl, hcur]

theorem handler_continues (fctxt : Option (advuilist T → action_t → Option (advuilist T)))
    (action : action_t) (r : Option (advuilist T)) (sel : List (selection_t T))
    (s1 : advuilist T) : select.handler fctxt action r ≠ some (select_step.returned sel s1) := by
  unfold select.handler
  intro h
  split at h
  · cases h
  · cases h
  · split at h <;> cases h

theorem redraw_unforced (s : advuilist T) (h : s._force_rebuild = false) : s.redraw = some s := by
  simp [redraw, h]

end advuilist

namespace advuilist
variable {T : Type}

theorem partial_step (fctxt : Option (advuilist T → action_t → Option (advuilist T)))
    (s : advuilist T) (io : select_io) (e : entry_t T)
    (hact : io.action = action_t.SELECT_PARTIAL)
    (hcur : s._list[s._cidx]? = some e) :
    select.step fctxt s io =
      if io.amount_canceled = false ∧ 0 < min io.amount (selectable_count s e) then
        some (select_step.returned
          [{ count := min io.amount (selectable_count s e), ptr := e.ptr }] s)
      else select.handler fctxt action_t.SELECT_PARTIAL (some s) := by
  have hne : ∃ a l, s._list = a :: l := by
    cases hl : s._list with
    | nil => simp [hl] at hcur
    | cons a l => exact ⟨a, l, rfl⟩
  obtain ⟨a, l, hl⟩ := hne
  unfold select.step
  simp only [hact, hl]
  simp only [ _querypartial, peekcount_some s e hcur, gt_iff_lt,
    Nat.min_comm (selectable_count s e)]
  cases hc : io.amount_canceled with
  | true => simp
  | false =>
    simp only [Bool.false_eq_true, if_false, true_and]
    by_cases hpos : 0 < min io.amount (selectable_count s e)
    · simp only [if_pos hpos]
      rw [peek_some s e _ hcur]
    · simp only [if_neg hpos]

end advuilist

/-- C16: the select-partial action.  On a list whose highlighted entry `e` has the
selectable count m, a pass of the loop of `select()` with the select-partial action
answered with the number a returns exactly the one selection of count min(a, m) and the
highlighted element when the prompt is not canceled and min(a, m) > 0; otherwise, so
when a = 0 or the prompt is canceled, the pass returns no selection and the loop goes
on with the input handler.  Called on an engine that is initialized and not under
forced rebuild, `select()` itself returns that one selection. -/
theorem select_partial_count {T : Type}
    (fctxt : Option (advuilist T → action_t → Option (advuilist T)))
    (s : advuilist T) (io : select_io) (e : entry_t T)
    (hact : io.action = action_t.SELECT_PARTIAL)
    (hcur : s._list[s._cidx]? = some e) :
    (io.amount_canceled = false → 0 < min io.amount (selectable_count s e) →
      advuilist.select.step fctxt s io = some (select_step.returned
        [{ count := min io.amount (selectable_count s e), ptr := e.ptr }] s)) ∧
    (io.amount_canceled = true ∨ io.amount = 0 →
      advuilist.select.step fctxt s io =
          advuilist.select.handler fctxt action_t.SELECT_PARTIAL (some s) ∧
        ∀ sel s1, advuilist.select.step fctxt s io ≠ some (select_step.returned sel s1)) ∧
    (io.amount_canceled = false → 0 < min io.amount (selectable_count s e) →
      s._needsinit = false → s._force_rebuild = false →
      ∀ rest, advuilist.select fctxt s (io :: rest) = some (select_result.returned
        [{ count := min io.amount (selectable_count s e), ptr := e.ptr }]
        { s with _exit := false })) := by
  refine ⟨?_, ?_, ?_⟩
  · intro hc hpos
    rw [advuilist.partial_step fctxt s io e hact hcur, if_pos ⟨hc, hpos⟩]
  · intro h0
    have hs : advuilist.select.step fctxt s io =
        advuilist.select.handler fctxt action_t.SELECT_PARTIAL (some s) := by
      rw [advuilist.partial_step fctxt s io e hact hcur, if_neg]
      rintro ⟨hc, hpos⟩
      rcases h0 with h | h
      · rw [h] at hc
        cases hc
      · rw [h] at hpos
        simp at hpos
    refine ⟨hs, ?_⟩
    intro sel s1
    rw [hs]
    exact advuilist.handler_continues _ _ _ _ _
  · intro hc hpos hinit hforce rest
    have hstep := advuilist.partial_step fctxt { s with _exit := false } io e hact hcur
    have hsc : selectable_count ({ s with _exit := false } : advuilist T) e =
        selectable_count s e := rfl
    rw [hsc, if_pos ⟨hc, hpos⟩] at hstep
    unfold advuilist.select
    simp only [hinit, Bool.false_eq_true, if_false]
    unfold advuilist.select.loop advuilist.select.pass
    simp only [Bool.false_eq_true, if_false]
    rw [advuilist.redraw_unforced _ (by exact hforce)]
    simp only [hinit] at hstep
    simp only [hstep]

/-- C16 at the scenario of the specification: the highlighted stack counts 5 and the
prompt is answered with 3, which selects 3 of it. -/
theorem select_partial_count_witness :
    advuilist.select none (stacks_at 0) [{ action := action_t.SELECT_PARTIAL, amount := 3 }] =
      some (select_result.returned
        [{ count := 3, ptr := { pos := 0, elem := ⟨"arrow", 5⟩ } }]
        { stacks_at 0 with _exit := false }) :=
  (select_partial_count none (stacks_at 0) { action := action_t.SELECT_PARTIAL, amount := 3 }
    { idx := 0, ptr := { pos := 0, elem := ⟨"arrow", 5⟩ } } rfl rfl).2.2 rfl (by decide) rfl rfl []

/-- C17 fails in the code: the counting function gives 0 for the empty quiver, and
select-whole on it returns a selection of count 0, as select-all does for its entry,
while select-partial on it returns no selection. -/
theorem select_whole_zero_count :
    (advuilist.select none (stacks_at 1) [{ action := action_t.SELECT_WHOLE }]).map
        selection_view = some (some [(0, 1)]) ∧
    (advuilist.select none (stacks_at 0) [{ action := action_t.SELECT_ALL }]).map
        selection_view = some (some [(5, 0), (0, 1)]) ∧
    (advuilist.select none (stacks_at 1)
        [{ action := action_t.SELECT_PARTIAL, amount := 3 }]).map
        selection_view = some none :=
  ⟨by decide, by decide, by decide⟩

namespace advuilist
variable {T : Type}

theorem peek_counts (s : advuilist T) (amount : Nat) (sel : List (selection_t T))
    (h : s._peek amount = some sel) : ∀ x ∈ sel, x.count = amount := by
  unfold _peek at h
  split at h
  · cases h
    simp
  · split at h
    · cases h
      simp
    · cases h

theorem count_positive (s : advuilist T) (idx amount : Nat) (a : entry_t T)
    (l : List (entry_t T)) (hl : s._list = a :: l)
    (hpos : ∀ f, s._fcounter = some f → ∀ x, 0 < f x)
    (h : s._count idx = some amount) : 0 < amount := by
  unfold _count at h
  rw [hl] at h
  simp only [] at h
  cases hf : s._fcounter with
  | none =>
    simp only [hf, Option.some.injEq] at h
    omega
  | some f =>
    simp only [hf] at h
    split at h
    · cases h
      exact hpos f hf _
    · cases h

theorem peekall_loop_positive (s : advuilist T) (a : entry_t T) (l : List (entry_t T))
    (hl : s._list = a :: l) (hpos : ∀ f, s._fcounter = some f → ∀ x, 0 < f x) :
    ∀ (idxs : List Nat) (sel : List (selection_t T)), _peekall.loop s idxs = some sel →
      ∀ x ∈ sel, 0 < x.count
  | [], sel, h => by
    simp only [_peekall.loop, Option.some.injEq] at h
    subst h
    simp
  | idx :: rest, sel, h => by
    simp only [_peekall.loop] at h
    split at h
    · next amount e ret hc he hr =>
      cases h
      intro x hx
      rcases List.mem_cons.mp hx with rfl | hx
      · exact count_positive s idx amount a l hl hpos hc
      · exact peekall_loop_positive s a l hl hpos rest ret hr x hx
    · cases h

/-- With a counting function that never returns 0, or with none, every selection a
pass of the loop of `select()` returns has a count above 0. -/
theorem step_counts_positive (fctxt : Option (advuilist T → action_t → Option (advuilist T)))
    (s s1 : advuilist T) (io : select_io) (sel : List (selection_t T))
    (hpos : ∀ f, s._fcounter = some f → ∀ x, 0 < f x)
    (h : select.step fctxt s io = some (select_step.returned sel s1)) :
    ∀ x ∈ sel, 0 < x.count := by
  have hpeek : ∀ (amount : Nat) (r : List (selection_t T)), 0 < amount →
      s._peek amount = some r → ∀ x ∈ r, 0 < x.count := by
    intro amount r ha hr x hx
    rw [peek_counts s amount r hr x hx]
    exact ha
  unfold select.step at h
  split at h
  all_goals first
    | exact absurd h (handler_continues _ _ _ _ _)
    | skip
  · split at h
    · split_ifs at h
      · split at h
        · next r hr =>
          cases h
          exact hpeek 1 _ Nat.one_pos hr
        · cases h
      · exact absurd h (handler_continues _ _ _ _ _)
    · exact absurd h (handler_continues _ _ _ _ _)
  · split at h
    · exact absurd h (handler_continues _ _ _ _ _)
    · exact absurd h (handler_continues _ _ _ _ _)
  · split at h
    · next r hr =>
      cases h
      exact hpeek 1 _ Nat.one_pos hr
    · cases h
  · split at h
    · exact absurd h (handler_continues _ _ _ _ _)
    · split at h
      · split_ifs at h with hin
        · split at h
          · next r hr =>
            cases h
            exact hpeek _ _ hin hr
          · cases h
        · exact absurd h (handler_continues _ _ _ _ _)
      · cases h
  · split at h
    · next amount hc =>
      split at h
      · next r hr =>
        cases h
        cases hl : s._list with
        | nil =>
          unfold _peek at hr
          rw [hl] at hr
          cases hr
          simp
        | cons a l => exact hpeek amount _ (count_positive s _ amount a l hl hpos hc) hr
      · cases h
    · cases h
  · split at h
    · next r hr =>
      cases h
      cases hl : s._list with
      | nil =>
        unfold _peekall at hr
        rw [hl] at hr
        simp only [List.length_nil, List.range_zero, _peekall.loop, Option.some.injEq] at hr
        subst hr
        simp
      | cons a l => exact peekall_loop_positive s a l hl hpos _ _ hr
    · cases h

end advuilist

/-! ## Maps -/

theorem map_find_set_self {V : Type} (v : V) (k : Nat) :
    ∀ m : List (Nat × V), map_find (map_set m k v) k = some v
  | [] => by simp [map_set, map_find]
  | (k1, v1) :: rest => by
    simp only [map_set]
    split_ifs with h1 h2
    · simp [map_find]
    · simp [map_find]
    · have hne : k1 ≠ k := fun h => h2 h.symm
      simp only [map_find, if_neg hne]
      exact map_find_set_self v k rest

theorem map_find_set_other {V : Type} (v : V) (k k2 : Nat) (hk : k2 ≠ k) :
    ∀ m : List (Nat × V), map_find (map_set m k v) k2 = map_find m k2
  | [] => by simp [map_set, map_find, Ne.symm hk]
  | (k1, v1) :: rest => by
    simp only [map_set]
    split_ifs with h1 h2
    · simp only [map_find, if_neg (Ne.symm hk)]
    · subst h2
      simp only [map_find, if_neg (Ne.symm hk)]
    · simp only [map_find]
      split_ifs
      · rfl
      · exact map_find_set_other v k k2 hk rest

theorem map_find_mem {V : Type} (k : Nat) (v : V) :
    ∀ m : List (Nat × V), map_find m k = some v → (k, v) ∈ m
  | [], h => by simp [map_find] at h
  | (k1, v1) :: rest, h => by
    simp only [map_find] at h
    split_ifs at h with h1
    · cases h
      subst h1
      exact List.mem_cons_self _ _
    · exact List.mem_cons_of_mem _ (map_find_mem k v rest h)

theorem map_set_mem {V : Type} (k : Nat) (v : V) (p : Nat × V) :
    ∀ m : List (Nat × V), p ∈ map_set m k v → p = (k, v) ∨ p ∈ m
  | [], h => by
    simp only [map_set, List.mem_singleton] at h
    exact Or.inl h
  | (k1, v1) :: rest, h => by
    simp only [map_set] at h
    split_ifs at h with h1 h2
    · rcases List.mem_cons.mp h with h | h
      · exact Or.inl h
      · exact Or.inr h
    · rcases List.mem_cons.mp h with h | h
      · exact Or.inl h
      · exact Or.inr (List.mem_cons_of_mem _ h)
    · rcases List.mem_cons.mp h with h | h
      · exact Or.inr (h ▸ List.mem_cons_self _ _)
      · rcases map_set_mem k v p rest h with h | h
        · exact Or.inl h
        · exact Or.inr (List.mem_cons_of_mem _ h)

theorem map_set_ne_nil {V : Type} (k : Nat) (v : V) :
    ∀ m : List (Nat × V), map_set m k v ≠ []
  | [] => by simp [map_set]
  | (k1, v1) :: rest => by
    simp only [map_set]
    split_ifs <;> simp

theorem slotcont_find_set_self {V : Type} (v : V) (k : Nat) :
    ∀ m : List (Nat × V), map_find (slotcont_set m k v) k = some v
  | [] => by simp [slotcont_set, map_find]
  | (k1, v1) :: rest => by
    simp only [slotcont_set]
    split_ifs with h1 h2
    · simp [map_find]
    · simp [map_find]
    · have hne : k1 ≠ k := fun h => h2 h.symm
      simp only [map_find, if_neg hne]
      exact slotcont_find_set_self v k rest

theorem slotcont_find_set_other {V : Type} (v : V) (k k2 : Nat) (hk : k2 ≠ k) :
    ∀ m : List (Nat × V), map_find (slotcont_set m k v) k2 = map_find m k2
  | [] => by simp [slotcont_set, map_find, Ne.symm hk]
  | (k1, v1) :: rest => by
    simp only [slotcont_set]
    split_ifs with h1 h2
    · simp only [map_find, if_neg (Ne.symm hk)]
    · subst h2
      simp only [map_find, if_neg (Ne.symm hk)]
    · simp only [map_find]
      split_ifs
      · rfl
      · exact slotcont_find_set_other v k k2 hk rest

theorem slotcont_set_ne_nil {V : Type} (k : Nat) (v : V) :
    ∀ m : List (Nat × V), slotcont_set m k v ≠ []
  | [] => by simp [slotcont_set]
  | (k1, v1) :: rest => by
    simp only [slotcont_set]
    split_ifs <;> simp

/-- The frame of `add_source`, for every sourced list: after `add_source(slot, src)`
the source under the pair of `slot` and the icon of `src` is `src`, and the source
under every other pair is what it was; the icon of `src` becomes the current icon of a
slot that had no entry, the current icon of a slot that had an entry is unchanged, and
so is that of every other slot. -/
theorem add_source_frame {T : Type} (s : advuilist_sourced T) (slot : Nat) (src : source_t T) :
    (s.add_source slot src).binding slot src.icon = some src ∧
    (∀ slot2 icon2, slot2 ≠ slot ∨ icon2 ≠ src.icon →
      (s.add_source slot src).binding slot2 icon2 = s.binding slot2 icon2) ∧
    (map_find s._sources slot = none →
      (s.add_source slot src).cur_icon_of slot = some src.icon) ∧
    (∀ sl, map_find s._sources slot = some sl →
      (s.add_source slot src).cur_icon_of slot = some sl.cur_icon) ∧
    (∀ slot2, slot2 ≠ slot → (s.add_source slot src).cur_icon_of slot2 = s.cur_icon_of slot2) := by
  refine ⟨?_, ?_, ?_, ?_, ?_⟩
  all_goals simp only [advuilist_sourced.binding, advuilist_sourced.cur_icon_of,
    advuilist_sourced.add_source]
  · cases hf : map_find s._sources slot <;>
      simp only [map_find_set_self, Option.some_bind, slotcont_find_set_self]
  · intro slot2 icon2 h
    by_cases hs : slot2 = slot
    · subst hs
      rcases h with h | h
      · exact absurd rfl h
      · cases hf : map_find s._sources slot2 with
        | none =>
          simp only [map_find_set_self, Option.some_bind, Option.none_bind]
          rw [slotcont_find_set_other _ _ _ h]
          rfl
        | some sl =>
          simp only [map_find_set_self, Option.some_bind]
          exact slotcont_find_set_other _ _ _ h _
    · cases hf : map_find s._sources slot <;> simp only [map_find_set_other _ _ _ hs]
  · intro hf
    simp only [hf, map_find_set_self, Option.map_some']
  · intro sl hf
    simp only [hf, map_find_set_self, Option.map_some']
  · intro slot2 hs
    cases hf : map_find s._sources slot <;> simp only [map_find_set_other _ _ _ hs]

/-- In a sourced list whose slot entries all hold a source, `add_source(slot, src)`
makes the icon of `src` the current icon of a slot that had no source before and leaves
the current icon of a slot that had one, and the slot entries of the list after the
call all hold a source again. -/
theorem add_source_bound_slots {T : Type} (s : advuilist_sourced T) (slot : Nat)
    (src : source_t T) (hwf : slots_bound s) :
    ((∀ icon, s.binding slot icon = none) →
      (s.add_source slot src).cur_icon_of slot = some src.icon) ∧
    (∀ icon b, s.binding slot icon = some b →
      (s.add_source slot src).cur_icon_of slot = s.cur_icon_of slot) ∧
    slots_bound (s.add_source slot src) := by
  obtain ⟨-, -, h3, h4, -⟩ := add_source_frame s slot src
  refine ⟨?_, ?_, ?_⟩
  · intro h
    cases hf : map_find s._sources slot with
    | none => exact h3 hf
    | some sl =>
      exfalso
      have hne := hwf _ (map_find_mem _ _ _ hf)
      cases hc : sl.slotcont with
      | nil => exact hne (by simp [hc])
      | cons p rest =>
        have := h p.1
        simp [advuilist_sourced.binding, hf, hc, map_find] at this
  · intro icon b h
    cases hf : map_find s._sources slot with
    | none => simp [advuilist_sourced.binding, hf] at h
    | some sl =>
      rw [h4 sl hf]
      simp only [advuilist_sourced.cur_icon_of, hf, Option.map_some']
  · unfold advuilist_sourced.add_source
    intro p hp
    cases hf : map_find s._sources slot with
    | none =>
      simp only [hf] at hp
      rcases map_set_mem _ _ _ _ hp with h | h
      · rw [h]
        exact fun h0 => slotcont_set_ne_nil _ _ _ (List.length_eq_zero.mp h0)
      · exact hwf p h
    | some sl =>
      simp only [hf] at hp
      rcases map_set_mem _ _ _ _ hp with h | h
      · rw [h]
        exact fun h0 => slotcont_set_ne_nil _ _ _ (List.length_eq_zero.mp h0)
      · exact hwf p h

/-- C15 fails in the code on a slot entry without sources.  In the sourced list `loft`
the slot 0 has an entry and no source: `set_source( 5 )` made the entry when it read
the current icon of the current slot 0, which was never bound.  `add_source( 0, B )`
stores the source B under slot 0 and icon B (66), and the current icon of slot 0 stays
0, under which no source is bound, instead of becoming B; in the sourced list `attic`,
where slot 0 has no entry, the same call makes B the current icon. -/
theorem add_source_keeps_zero_icon :
    attic.set_source 5 0 false false = some (true, loft) ∧
    attic._sources.map (fun p => p.1) = [5] ∧
    loft._sources.map (fun p => (p.1, p.2.cur_icon, p.2.slotcont.length)) =
      [(0, 0, 0), (5, 65, 1)] ∧
    (loft.add_source 0 (number_source 66 true [4])).binding 0 66 =
      some (number_source 66 true [4]) ∧
    (loft.add_source 0 (number_source 66 true [4])).cur_icon_of 0 = some 0 ∧
    (loft.add_source 0 (number_source 66 true [4])).binding 0 0 = none ∧
    (attic.add_source 0 (number_source 66 true [4])).cur_icon_of 0 = some 66 :=
  ⟨rfl, rfl, rfl, rfl, rfl, rfl, rfl⟩

/-! ## Sourced list -/

namespace advuilist_sourced
variable {T : Type}

theorem find_touch_bound (d : slot_t T) (m : List (Nat × slot_t T)) (c k : Nat) (v : slot_t T)
    (h : map_find m k = some v) : map_find (map_touch d m c) k = some v := by
  unfold map_touch
  cases hc : map_find m c with
  | some w => exact h
  | none =>
    have hne : k ≠ c := by
      rintro rfl
      rw [hc] at h
      cases h
    simp only []
    rw [map_find_set_other _ _ _ hne]
    exact h

theorem find_set_cur_icon (slotidx target k : Nat) : ∀ m : List (Nat × slot_t T),
    map_find (set_cur_icon m slotidx target) k =
      (map_find m k).map (fun sl => if k = slotidx then { sl with cur_icon := target } else sl)
  | [] => rfl
  | (k1, v1) :: rest => by
    have ih := find_set_cur_icon slotidx target k rest
    show map_find ((if k1 = slotidx then (k1, { v1 with cur_icon := target }) else (k1, v1)) ::
      set_cur_icon rest slotidx target) k = _
    by_cases h1 : k1 = slotidx
    · rw [if_pos h1]
      simp only [map_find]
      by_cases h2 : k1 = k
      · simp only [if_pos h2, Option.map_some', if_pos (h2 ▸ h1)]
      · simp only [if_neg h2]
        exact ih
    · rw [if_neg h1]
      simp only [map_find]
      by_cases h2 : k1 = k
      · simp only [if_pos h2, Option.map_some', if_neg (h2 ▸ h1)]
      · simp only [if_neg h2]
        exact ih

theorem cycle_slot_bound (s : advuilist_sourced T) (idx first : Nat) (slot : slot_t T)
    (hb : map_find s._sources idx = some slot) :
    s._cycle_slot idx first = (_cycle_slot.pick slot first).map (fun i => (i, s)) := by
  unfold _cycle_slot map_index map_touch
  simp only [hb]
  cases _cycle_slot.pick slot first <;> rfl

theorem find_avail_none : ∀ l : List (Nat × source_t T),
    (∀ p ∈ l, p.2.source_avail_func = some false) → find_avail l = some none
  | [], _ => rfl
  | (k, src) :: rest, h => by
    have h1 : src.source_avail_func = some false := h (k, src) (List.mem_cons_self _ _)
    simp only [find_avail, h1]
    exact find_avail_none rest (fun p hp => h p (List.mem_cons_of_mem _ hp))

theorem find_avail_total : ∀ l : List (Nat × source_t T),
    (∀ p ∈ l, p.2.source_avail_func.isSome = true) → ∃ r, find_avail l = some r
  | [], _ => ⟨none, rfl⟩
  | (k, src) :: rest, h => by
    have h1 : src.source_avail_func.isSome = true := h (k, src) (List.mem_cons_self _ _)
    cases ha : src.source_avail_func with
    | none => simp [ha] at h1
    | some a =>
      cases a with
      | true => exact ⟨some k, by simp only [find_avail, ha]⟩
      | false =>
        simp only [find_avail, ha]
        exact find_avail_total rest (fun p hp => h p (List.mem_cons_of_mem _ hp))

theorem find_avail_found : ∀ (l : List (Nat × source_t T)) (k : Nat),
    find_avail l = some (some k) →
    ∃ pre src post, l = pre ++ (k, src) :: post ∧ src.source_avail_func = some true ∧
      ∀ p ∈ pre, p.2.source_avail_func = some false
  | [], _, h => by simp [find_avail] at h
  | (k1, src) :: rest, k, h => by
    simp only [find_avail] at h
    cases ha : src.source_avail_func with
    | none => simp [ha] at h
    | some a =>
      cases a with
      | true =>
        simp only [ha, Option.some.injEq] at h
        subst h
        exact ⟨[], src, rest, rfl, ha, fun p hp => absurd hp (List.not_mem_nil p)⟩
      | false =>
        simp only [ha] at h
        obtain ⟨pre, src2, post, hl, hs, hp⟩ := find_avail_found rest k h
        refine ⟨(k1, src) :: pre, src2, post, by rw [hl]; rfl, hs, ?_⟩
        intro p hpm
        rcases List.mem_cons.mp hpm with rfl | hpm
        · exact ha
        · exact hp p hpm

theorem find_avail_not_found : ∀ (l : List (Nat × source_t T)),
    find_avail l = some none → ∀ p ∈ l, p.2.source_avail_func = some false
  | [], _ => fun p hp => absurd hp (List.not_mem_nil p)
  | (k1, src) :: rest, h => by
    simp only [find_avail] at h
    cases ha : src.source_avail_func with
    | none => simp [ha] at h
    | some a =>
      cases a with
      | true => simp [ha] at h
      | false =>
        simp only [ha] at h
        intro p hpm
        rcases List.mem_cons.mp hpm with rfl | hpm
        · exact ha
        · exact find_avail_not_found rest h p hpm

theorem pick_first (slot : slot_t T) (first : Nat) (src0 : source_t T)
    (rest : List (Nat × source_t T)) (hc : slot.slotcont = (first, src0) :: rest)
    (h0 : first ≠ 0) :
    _cycle_slot.pick slot first = (find_avail slot.slotcont).map (fun r => r.getD 0) := by
  unfold _cycle_slot.pick
  simp only [if_neg h0, hc, find_pos, if_true, List.drop_zero, List.take_zero, find_avail]
  cases hf : find_avail ((first, src0) :: rest) with
  | none => simp only [find_avail] at hf; simp only [hf]; rfl
  | some r =>
    simp only [find_avail] at hf
    cases r <;> simp only [hf] <;> rfl

theorem pick_unavailable (slot : slot_t T) (first : Nat)
    (hun : ∀ p ∈ slot.slotcont, p.2.source_avail_func = some false) :
    _cycle_slot.pick slot first = some 0 := by
  unfold _cycle_slot.pick
  simp only []
  rw [find_avail_none _ (fun p hp => hun p (List.mem_of_mem_drop hp))]
  simp only []
  rw [find_avail_none _ (fun p hp => hun p (List.mem_of_mem_take hp))]

theorem resource_frame (s s1 : advuilist_sourced T) (h : s._resource = some s1) :
    ∃ c, s1 = { s with base := { s.base with _olist := c } } := by
  unfold _resource at h
  split at h
  · cases h
  · split at h
    · cases h
    · split at h
      · cases h
        exact ⟨_, rfl⟩
      · cases h

theorem resource_congr (s : advuilist_sourced T) (b : advuilist T) :
    _resource { s with base := b } =
      (s._resource).map (fun s1 => { s with base := { b with _olist := s1.base._olist } }) := by
  unfold _resource
  simp only []
  cases map_find s._sources s._cslot with
  | none => rfl
  | some slot =>
    simp only []
    cases map_find slot.slotcont slot.cur_icon with
    | none => rfl
    | some src =>
      simp only []
      cases src.source_func <;> rfl

theorem base_rebuild_some (s : advuilist_sourced T)
    (hs : s.base._csort < s.base._sorters.length) (hg : s.base._cgroup < s.base._groupers.length)
    (hres : s.base._force_rebuild = true → s._resource.isSome = true) :
    ∃ b c, s.base_rebuild = some { s with base := b } ∧ b._olist = c ∧
      (s.base._force_rebuild = false → c = s.base._olist) ∧
      b._list.Perm (advuilist.rebuild.scan (advuilist.rebuild.keep s.base) c 0 0) ∧
      (∃ pages,
        advuilist._paginate.pages s.base._pagesize s.base._cgroup s.base._groupers b._list =
          some pages ∧ b._pages = pages) ∧
      b._force_rebuild = s.base._force_rebuild ∧ b._sorters = s.base._sorters ∧
      b._groupers = s.base._groupers ∧ b._csort = s.base._csort ∧ b._cgroup = s.base._cgroup ∧
      b._exit = s.base._exit := by
  obtain ⟨so, hso⟩ : ∃ so, s.base._sorters[s.base._csort]? = some so :=
    ⟨_, List.getElem?_eq_getElem hs⟩
  obtain ⟨gr, hgr⟩ : ∃ gr, s.base._groupers[s.base._cgroup]? = some gr :=
    ⟨_, List.getElem?_eq_getElem hg⟩
  have key : ∀ s0 : advuilist_sourced T, (∃ c, s0 = { s with base := { s.base with _olist := c } }) →
      (s.base._force_rebuild = false → s0 = s) →
      (match advuilist.rebuild.finish { s0.base with
          _list := advuilist.rebuild.scan (advuilist.rebuild.keep s0.base) s0.base._olist 0 0 } with
        | some b => some ({ s0 with base := b } : advuilist_sourced T)
        | none => none) = s.base_rebuild →
      ∃ b c, s.base_rebuild = some { s with base := b } ∧ b._olist = c ∧
      (s.base._force_rebuild = false → c = s.base._olist) ∧
      b._list.Perm (advuilist.rebuild.scan (advuilist.rebuild.keep s.base) c 0 0) ∧
      (∃ pages,
        advuilist._paginate.pages s.base._pagesize s.base._cgroup s.base._groupers b._list =
          some pages ∧ b._pages = pages) ∧
      b._force_rebuild = s.base._force_rebuild ∧ b._sorters = s.base._sorters ∧
      b._groupers = s.base._groupers ∧ b._csort = s.base._csort ∧ b._cgroup = s.base._cgroup ∧
      b._exit = s.base._exit := by
    rintro s0 ⟨c, rfl⟩ hunf heq
    obtain ⟨pages, cpage, hr, hp, -⟩ := advuilist.rebuild_finish_some
      { ({ s.base with _olist := c } : advuilist T) with
        _list := advuilist.rebuild.scan
          (advuilist.rebuild.keep ({ s.base with _olist := c } : advuilist T)) c 0 0 } so gr hso hgr
    simp only [] at heq
    rw [hr] at heq
    refine ⟨_, c, heq.symm, rfl, ?_, stable_sort_perm _ _, ⟨pages, hp, rfl⟩,
      rfl, rfl, rfl, rfl, rfl, rfl⟩
    intro hf
    have := congrArg (fun x : advuilist_sourced T => x.base._olist) (hunf hf)
    exact this
  by_cases hf : s.base._force_rebuild = true
  · have h1 := hres hf
    cases hr : s._resource with
    | none => simp [hr] at h1
    | some s0 =>
      refine key s0 (resource_frame s s0 hr) (fun h => by rw [hf] at h; cases h) ?_
      unfold base_rebuild
      simp only [hf, if_true, hr]
  · have hf0 : s.base._force_rebuild = false := by simpa using hf
    refine key s ⟨s.base._olist, rfl⟩ (fun _ => rfl) ?_
    unfold base_rebuild
    simp only [hf0, Bool.false_eq_true, if_false]

end advuilist_sourced

namespace advuilist_sourced
variable {T : Type}

theorem ordered_find (k : Nat) (src : source_t T) (post : List (Nat × source_t T)) :
    ∀ pre : List (Nat × source_t T), icons_ordered (pre ++ (k, src) :: post) →
      map_find (pre ++ (k, src) :: post) k = some src ∧
        ∀ p ∈ post, icon_key k < icon_key p.1
  | [], h => by
    unfold icons_ordered at h
    simp only [List.nil_append, List.map_cons, List.pairwise_cons, List.mem_map] at h
    refine ⟨by simp [map_find], ?_⟩
    intro p hp
    exact h.1 (icon_key p.1) ⟨p, hp, rfl⟩
  | (k1, v1) :: pre, h => by
    have h' : icons_ordered (pre ++ (k, src) :: post) := by
      unfold icons_ordered at h ⊢
      simp only [List.cons_append, List.map_cons, List.pairwise_cons] at h
      exact h.2
    have hlt : icon_key k1 < icon_key k := by
      unfold icons_ordered at h
      simp only [List.cons_append, List.map_cons, List.pairwise_cons] at h
      exact h.1 (icon_key k) (by simp)
    have hne : k1 ≠ k := by
      intro he
      rw [he] at hlt
      exact lt_irrefl _ hlt
    obtain ⟨ih1, ih2⟩ := ordered_find k src post pre h'
    refine ⟨?_, ih2⟩
    simp only [List.cons_append, map_find, if_neg hne]
    exact ih1

/-- The icon `find_avail` gives for a slot in the order of its map is bound, available
and the first available icon of the slot in the order of the icons as values of
`char`. -/
theorem find_avail_least (slot : slot_t T) (k : Nat) (ho : icons_ordered slot.slotcont)
    (h : find_avail slot.slotcont = some (some k)) :
    icon_available slot k ∧ ∀ k2, icon_available slot k2 → icon_key k ≤ icon_key k2 := by
  obtain ⟨pre, src, post, hl, hs, hp⟩ := find_avail_found _ _ h
  rw [hl] at ho
  obtain ⟨hf, hpost⟩ := ordered_find k src post pre ho
  refine ⟨⟨src, by rw [hl]; exact hf, hs⟩, ?_⟩
  rintro k2 ⟨src2, hf2, hs2⟩
  have hm := map_find_mem _ _ _ hf2
  rw [hl] at hm
  rcases List.mem_append.mp hm with hm | hm
  · have := hp _ hm
    rw [hs2] at this
    cases this
  · rcases List.mem_cons.mp hm with hm | hm
    · cases hm
      exact le_refl _
    · exact le_of_lt (hpost _ hm)

theorem find_avail_no_icon (slot : slot_t T) (h : find_avail slot.slotcont = some none)
    (k : Nat) : ¬ icon_available slot k := by
  rintro ⟨src, hf, hs⟩
  have := find_avail_not_found _ h _ (map_find_mem _ _ _ hf)
  rw [hs] at this
  cases this

theorem target_state (s s1 : advuilist_sourced T) (slot : slot_t T) (slotidx icon target : Nat)
    (hb : map_find s._sources slotidx = some slot)
    (h : set_source.target s slot slotidx icon = some (target, s1)) : s1 = s := by
  unfold set_source.target at h
  simp only [] at h
  split at h
  · cases h
  · cases h
    rfl
  · split at h
    · cases h
    · rw [cycle_slot_bound s _ _ slot hb] at h
      simp only [Option.map_eq_some'] at h
      obtain ⟨a, -, ha⟩ := h
      cases ha
      rfl

/-- The icon `set_source` settles on in a well-formed slot: the wanted icon when it is
bound and available, else the first available icon of the slot in the order of its
map, else 0. -/
theorem target_spec (s : advuilist_sourced T) (slot : slot_t T) (slotidx icon : Nat)
    (hb : map_find s._sources slotidx = some slot) (hok : slot_ok slot) :
    ∃ target, set_source.target s slot slotidx icon = some (target, s) ∧
      ((icon_available slot (if icon = 0 then slot.cur_icon else icon) ∧
          target = (if icon = 0 then slot.cur_icon else icon) ∧ target ≠ 0) ∨
        (¬ icon_available slot (if icon = 0 then slot.cur_icon else icon) ∧
          find_avail slot.slotcont = some (some target) ∧ target ≠ 0) ∨
        (¬ icon_available slot (if icon = 0 then slot.cur_icon else icon) ∧
          find_avail slot.slotcont = some none ∧ target = 0)) := by
  obtain ⟨hlen, hord, hkeys⟩ := hok
  obtain ⟨r, hr⟩ := find_avail_total slot.slotcont (fun p hp => (hkeys p hp).2)
  have hcycle : ¬ icon_available slot (if icon = 0 then slot.cur_icon else icon) →
      set_source.invalid slot (if icon = 0 then slot.cur_icon else icon) = some true →
      ∃ target, set_source.target s slot slotidx icon = some (target, s) ∧
      ((icon_available slot (if icon = 0 then slot.cur_icon else icon) ∧
          target = (if icon = 0 then slot.cur_icon else icon) ∧ target ≠ 0) ∨
        (¬ icon_available slot (if icon = 0 then slot.cur_icon else icon) ∧
          find_avail slot.slotcont = some (some target) ∧ target ≠ 0) ∨
        (¬ icon_available slot (if icon = 0 then slot.cur_icon else icon) ∧
          find_avail slot.slotcont = some none ∧ target = 0)) := by
    intro hna hinv
    cases hc : slot.slotcont with
    | nil => simp [hc] at hlen
    | cons p0 rest =>
      obtain ⟨first, src0⟩ := p0
      have h0 : first ≠ 0 := (hkeys (first, src0) (by rw [hc]; exact List.mem_cons_self _ _)).1
      have ht : set_source.target s slot slotidx icon =
          (find_avail slot.slotcont).map (fun r => (r.getD 0, s)) := by
        unfold set_source.target
        simp only [hinv, hc]
        rw [cycle_slot_bound s _ _ slot hb, pick_first slot first src0 rest hc h0, hc]
        cases find_avail ((first, src0) :: rest) <;> rfl
      rw [hr] at ht
      have hr' : find_avail ((first, src0) :: rest) = some r := by
        rw [← hc]
        exact hr
      cases r with
      | none => exact ⟨0, ht, Or.inr (Or.inr ⟨hna, hr', rfl⟩)⟩
      | some k =>
        refine ⟨k, ht, Or.inr (Or.inl ⟨hna, hr', ?_⟩)⟩
        obtain ⟨pre, src, post, hl, -, -⟩ := find_avail_found _ _ hr
        exact (hkeys (k, src) (by rw [hl]; simp)).1
  cases hm : map_find slot.slotcont (if icon = 0 then slot.cur_icon else icon) with
  | none =>
    refine hcycle ?_ ?_
    · rintro ⟨src, hf, -⟩
      rw [hm] at hf
      cases hf
    · unfold set_source.invalid
      rw [hm]
  | some src =>
    have hsome := (hkeys _ (map_find_mem _ _ _ hm)).2
    cases ha : src.source_avail_func with
    | none => simp [ha] at hsome
    | some a =>
      cases a with
      | false =>
        refine hcycle ?_ ?_
        · rintro ⟨src2, hf, hs⟩
          rw [hm] at hf
          cases hf
          rw [ha] at hs
          cases hs
        · unfold set_source.invalid
          rw [hm]
          simp only [ha, Bool.not_false]
      | true =>
        refine ⟨_, ?_, Or.inl ⟨⟨src, hm, ha⟩, rfl, (hkeys _ (map_find_mem _ _ _ hm)).1⟩⟩
        unfold set_source.target set_source.invalid
        simp only [hm, ha, Bool.not_true]

theorem set_source_unfold (s : advuilist_sourced T) (slotidx icon target : Nat)
    (fallthrough reb : Bool) (slot : slot_t T) (hb : map_find s._sources slotidx = some slot)
    (ht : set_source.target s slot slotidx icon = some (target, s)) :
    s.set_source slotidx icon fallthrough reb =
      if target ≠ 0 then
        if reb then
          match (set_source.commit s slotidx target)._quick_rebuild with
          | some s3 => some (true, s3)
          | none => none
        else some (true, set_source.commit s slotidx target)
      else if fallthrough then
        match base_rebuild { s with base := { s.base with _olist := [] } } with
        | some s3 => some (false, s3)
        | none => none
      else some (false, s) := by
  unfold set_source
  simp only [hb, ht]

theorem commit_find (s : advuilist_sourced T) (slotidx target : Nat) (slot : slot_t T)
    (hb : map_find s._sources slotidx = some slot) :
    map_find (set_source.commit s slotidx target)._sources slotidx =
      some { slot with cur_icon := target } := by
  unfold set_source.commit
  simp only []
  rw [find_set_cur_icon, find_touch_bound _ _ _ _ _ hb]
  simp

theorem base_rebuild_frame (s s1 : advuilist_sourced T) (h : s.base_rebuild = some s1) :
    ∃ b, s1 = { s with base := b } := by
  unfold base_rebuild at h
  split at h
  · cases h
  · next s0 h0 =>
    have hs0 : ∃ c, s0 = { s with base := { s.base with _olist := c } } := by
      split_ifs at h0
      · exact resource_frame s s0 h0
      · cases h0
        exact ⟨s.base._olist, rfl⟩
    obtain ⟨c, rfl⟩ := hs0
    split at h
    · cases h
      exact ⟨_, rfl⟩
    · cases h

theorem quick_rebuild_frame (s s1 : advuilist_sourced T) (h : s._quick_rebuild = some s1) :
    ∃ b, s1 = { s with base := b } := by
  unfold _quick_rebuild at h
  split at h
  · next s0 h0 =>
    obtain ⟨c, rfl⟩ := resource_frame s s0 h0
    obtain ⟨b, hb⟩ := base_rebuild_frame _ _ h
    exact ⟨b, hb⟩
  · cases h

theorem resource_base_isSome (s : advuilist_sourced T) (b : advuilist T) :
    (_resource { s with base := b }).isSome = s._resource.isSome := by
  rw [resource_congr]
  cases s._resource <;> rfl

theorem quick_rebuild_some (s : advuilist_sourced T)
    (hs : s.base._csort < s.base._sorters.length) (hg : s.base._cgroup < s.base._groupers.length)
    (hres : s._resource.isSome = true) :
    ∃ b, s._quick_rebuild = some { s with base := b } := by
  unfold _quick_rebuild
  cases hr : s._resource with
  | none => simp [hr] at hres
  | some s0 =>
    obtain ⟨c, rfl⟩ := resource_frame s s0 hr
    simp only []
    obtain ⟨b, c2, hb, -⟩ := base_rebuild_some
      ({ s with base := { s.base with _olist := c } } : advuilist_sourced T) hs hg
      (fun _ => by rw [resource_base_isSome]; exact hres)
    exact ⟨b, hb⟩

end advuilist_sourced

/-- C11: the result of `set_source`.  For a slot that, when it is bound, is well formed
(it holds a source, its icons are in order, none is 0, and no availability function is
empty), and a list whose rebuilds return, `set_source(slotidx, icon, fallthrough, reb)`
returns; the value it returns is true exactly when the slot is bound and some icon
bound in it is available; and when it is true the current slot is `slotidx`, the
sources of the slot are unchanged, and the current icon of the slot is bound and
available: it is the wanted icon (`icon`, or the previous current icon of the slot when
`icon` is 0) when that one is bound and available. -/
theorem set_source_result {T : Type} (s : advuilist_sourced T) (slotidx icon : Nat)
    (fallthrough reb : Bool)
    (hok : ∀ slot, map_find s._sources slotidx = some slot → slot_ok slot)
    (hready : rebuild_ready s slotidx) :
    ∃ r s1, s.set_source slotidx icon fallthrough reb = some (r, s1) ∧
      (r = true ↔ ∃ slot k, map_find s._sources slotidx = some slot ∧ icon_available slot k) ∧
      (r = true → s1._cslot = slotidx ∧
        ∃ slot slot1, map_find s._sources slotidx = some slot ∧
          map_find s1._sources slotidx = some slot1 ∧ slot1.slotcont = slot.slotcont ∧
          icon_available slot slot1.cur_icon ∧
          (icon_available slot (if icon = 0 then slot.cur_icon else icon) →
            slot1.cur_icon = if icon = 0 then slot.cur_icon else icon)) := by
  obtain ⟨hs, hg, hfun, hres⟩ := hready
  cases hb : map_find s._sources slotidx with
  | none =>
    refine ⟨false, s, by unfold advuilist_sourced.set_source; simp only [hb], ?_, ?_⟩
    · constructor
      · intro h
        cases h
      · rintro ⟨slot, k, h, -⟩
        cases h
    · intro h
      cases h
  | some slot =>
    have hslot := hok slot hb
    obtain ⟨target, ht, hcase⟩ := advuilist_sourced.target_spec s slot slotidx icon hb hslot
    have hun := advuilist_sourced.set_source_unfold s slotidx icon target fallthrough reb slot hb ht
    have hcommit : target ≠ 0 → icon_available slot target →
        ∃ s1, s.set_source slotidx icon fallthrough reb = some (true, s1) ∧
          s1._cslot = slotidx ∧
          map_find s1._sources slotidx = some { slot with cur_icon := target } := by
      intro h0 hav
      rw [hun, if_pos h0]
      cases reb with
      | false =>
        exact ⟨_, rfl, rfl, advuilist_sourced.commit_find s slotidx target slot hb⟩
      | true =>
        obtain ⟨src, hsrc, -⟩ := hav
        have hsf : src.source_func.isSome = true := by
          have hm : (target, src) ∈ (map_index {} s._sources slotidx).slotcont := by
            unfold map_index
            rw [hb]
            exact map_find_mem _ _ _ hsrc
          exact hfun _ hm
        have hres2 : (advuilist_sourced.set_source.commit s slotidx target)._resource.isSome =
            true := by
          unfold advuilist_sourced._resource
          have hcs : (advuilist_sourced.set_source.commit s slotidx target)._cslot = slotidx := rfl
          rw [hcs, advuilist_sourced.commit_find s slotidx target slot hb]
          simp only [hsrc]
          cases hf : src.source_func with
          | none => simp [hf] at hsf
          | some c => rfl
        obtain ⟨b, hq⟩ := advuilist_sourced.quick_rebuild_some
          (advuilist_sourced.set_source.commit s slotidx target) hs hg hres2
        simp only [if_true, hq]
        exact ⟨_, rfl, rfl, advuilist_sourced.commit_find s slotidx target slot hb⟩
    rcases hcase with ⟨hav, heq, h0⟩ | ⟨hna, hfa, h0⟩ | ⟨hna, hfa, h0⟩
    · obtain ⟨s1, h1, h2, h3⟩ := hcommit h0 (heq ▸ hav)
      refine ⟨true, s1, h1, ⟨fun _ => ⟨slot, _, rfl, hav⟩, fun _ => rfl⟩, fun _ => ⟨h2, slot, _, rfl, h3, rfl,
        heq ▸ hav, fun _ => heq⟩⟩
    · have hav := (advuilist_sourced.find_avail_least slot target hslot.2.1 hfa).1
      obtain ⟨s1, h1, h2, h3⟩ := hcommit h0 hav
      refine ⟨true, s1, h1, ⟨fun _ => ⟨slot, _, rfl, hav⟩, fun _ => rfl⟩, fun _ => ⟨h2, slot, _, rfl, h3, rfl,
        hav, fun h => absurd h hna⟩⟩
    · have hfalse : ∃ s1, s.set_source slotidx icon fallthrough reb = some (false, s1) := by
        rw [hun, if_neg (by simpa using h0)]
        cases fallthrough with
        | false => exact ⟨_, rfl⟩
        | true =>
          obtain ⟨b, c, hbr, -⟩ := advuilist_sourced.base_rebuild_some
            ({ s with base := { s.base with _olist := [] } } : advuilist_sourced T) hs hg
            (fun hf => by rw [advuilist_sourced.resource_base_isSome]; exact hres hf)
          simp only [if_true, hbr]
          exact ⟨_, rfl⟩
      obtain ⟨s1, h1⟩ := hfalse
      have hno : ¬ ∃ slot2 k, some slot = some slot2 ∧ icon_available slot2 k := by
        rintro ⟨slot2, k, hs2, hk⟩
        cases hs2
        exact advuilist_sourced.find_avail_no_icon slot hfa k hk
      exact ⟨false, s1, h1, ⟨fun h => Bool.noConfusion h, fun h => absurd h hno⟩,
        fun h => Bool.noConfusion h⟩

/-- C11 at the sourced list `shelf`: its slot 0 is well formed and the icon B asked for
is bound but not available, so `set_source` returns true with another available icon of
the slot as the current one. -/
theorem set_source_result_witness :
    ∃ r s1, shelf.set_source 0 66 false true = some (r, s1) ∧
      (r = true ↔ ∃ slot k, map_find shelf._sources 0 = some slot ∧ icon_available slot k) ∧
      (r = true → s1._cslot = 0 ∧
        ∃ slot slot1, map_find shelf._sources 0 = some slot ∧
          map_find s1._sources 0 = some slot1 ∧ slot1.slotcont = slot.slotcont ∧
          icon_available slot slot1.cur_icon ∧
          (icon_available slot (if 66 = 0 then slot.cur_icon else 66) →
            slot1.cur_icon = if 66 = 0 then slot.cur_icon else 66)) :=
  set_source_result shelf 0 66 false true
    (fun slot h => by
      have h2 : slot = map_index {} shelf._sources 0 := by
        unfold map_index
        rw [h]
      rw [h2]
      decide)
    (by decide)

/-- C12 fails as stated: in slot 0 of the sourced list `shelf` the icons A and C are
available and B is not; `set_source` asked for B settles on A, the first available icon
from the start of the slot, while the search forward from B that wraps around gives C
first. -/
theorem set_source_restarts_search :
    (shelf.set_source 0 66 false false).map (fun r => (r.1, r.2.cur_icon_of 0)) =
      some (true, some 65) ∧
    cyclic_search_from (map_index {} shelf._sources 0) 66 = some 67 :=
  ⟨by decide, by decide⟩

/-- C12, amended: the fallback of `set_source` is the first available icon of the slot.
When the wanted icon of a bound, well-formed slot is missing or not available and some
icon of the slot is available, `set_source` returns true and the current icon of the
slot is the first available icon in the order in which the map of the slot iterates,
counted from its first icon: it is bound and available, every source before it in the
slot is not available, and no available icon of the slot comes before it in the order
of the icons as values of `char`, wherever the wanted icon lies. -/
theorem set_source_fallback_least {T : Type} (s : advuilist_sourced T) (slotidx icon : Nat)
    (fallthrough reb : Bool) (slot : slot_t T)
    (hb : map_find s._sources slotidx = some slot) (hok : slot_ok slot)
    (hready : rebuild_ready s slotidx)
    (hinv : ¬ icon_available slot (if icon = 0 then slot.cur_icon else icon))
    (havail : ∃ k, icon_available slot k) :
    ∃ s1 slot1, s.set_source slotidx icon fallthrough reb = some (true, s1) ∧
      map_find s1._sources slotidx = some slot1 ∧ slot1.slotcont = slot.slotcont ∧
      icon_available slot slot1.cur_icon ∧
      (∀ k, icon_available slot k → icon_key slot1.cur_icon ≤ icon_key k) ∧
      advuilist_sourced.find_avail slot.slotcont = some (some slot1.cur_icon) ∧
      ∃ pre src post, slot.slotcont = pre ++ (slot1.cur_icon, src) :: post ∧
        src.source_avail_func = some true ∧ ∀ p ∈ pre, p.2.source_avail_func = some false := by
  obtain ⟨hs, hg, hfun, hres⟩ := hready
  obtain ⟨target, ht, hcase⟩ := advuilist_sourced.target_spec s slot slotidx icon hb hok
  have hun := advuilist_sourced.set_source_unfold s slotidx icon target fallthrough reb slot hb ht
  rcases hcase with ⟨hav, -, -⟩ | ⟨-, hfa, h0⟩ | ⟨-, hfa, -⟩
  · exact absurd hav hinv
  · obtain ⟨hav, hleast⟩ := advuilist_sourced.find_avail_least slot target hok.2.1 hfa
    have hsplit := advuilist_sourced.find_avail_found _ _ hfa
    have hfind := advuilist_sourced.commit_find s slotidx target slot hb
    rw [if_pos h0] at hun
    cases reb with
    | false => exact ⟨_, _, hun, hfind, rfl, hav, hleast, hfa, hsplit⟩
    | true =>
      obtain ⟨src, hsrc, -⟩ := hav
      have hsf : src.source_func.isSome = true := by
        have hm : (target, src) ∈ (map_index {} s._sources slotidx).slotcont := by
          unfold map_index
          rw [hb]
          exact map_find_mem _ _ _ hsrc
        exact hfun _ hm
      have hres2 : (advuilist_sourced.set_source.commit s slotidx target)._resource.isSome =
          true := by
        unfold advuilist_sourced._resource
        have hcs : (advuilist_sourced.set_source.commit s slotidx target)._cslot = slotidx := rfl
        rw [hcs, hfind]
        simp only [hsrc]
        cases hf : src.source_func with
        | none => simp [hf] at hsf
        | some c => rfl
      obtain ⟨b, hq⟩ := advuilist_sourced.quick_rebuild_some
        (advuilist_sourced.set_source.commit s slotidx target) hs hg hres2
      simp only [if_true, hq] at hun
      exact ⟨_, _, hun, hfind, rfl, (advuilist_sourced.find_avail_least slot target hok.2.1 hfa).1,
        hleast, hfa, hsplit⟩
  · obtain ⟨k, hk⟩ := havail
    exact absurd hk (advuilist_sourced.find_avail_no_icon slot hfa k)

/-- C12, amended, at the sourced list `cellar`, whose slot 0 holds the available icons Z
(90) and the icon of code 200, which as a `char` has the value -56 and comes first in
the map of the slot: asked for the icon d (100), which is not bound, `set_source` makes
the icon of code 200 the current icon. -/
theorem set_source_fallback_least_witness :
    (map_index {} cellar._sources 0).slotcont.map (fun p => p.1) = [200, 90] ∧
    ∃ s1 slot1, cellar.set_source 0 100 false true = some (true, s1) ∧
      map_find s1._sources 0 = some slot1 ∧
      slot1.slotcont = (map_index {} cellar._sources 0).slotcont ∧
      icon_available (map_index {} cellar._sources 0) slot1.cur_icon ∧
      (∀ k, icon_available (map_index {} cellar._sources 0) k →
        icon_key slot1.cur_icon ≤ icon_key k) ∧
      advuilist_sourced.find_avail (map_index {} cellar._sources 0).slotcont =
        some (some slot1.cur_icon) ∧
      ∃ pre src post, (map_index {} cellar._sources 0).slotcont =
          pre ++ (slot1.cur_icon, src) :: post ∧
        src.source_avail_func = some true ∧ ∀ p ∈ pre, p.2.source_avail_func = some false :=
  ⟨rfl, set_source_fallback_least cellar 0 100 false true (map_index {} cellar._sources 0) rfl
    (by decide) (by decide)
    (by
      rintro ⟨src, hf, -⟩
      have h3 : (none : Option (source_t Nat)) = some src := hf
      cases h3)
    ⟨90, number_source 90 true [1], rfl, rfl⟩⟩

namespace advuilist
variable {T : Type}

theorem pages_nil (pagesize cgroup : Nat) (groupers : List (grouper_t T))
    (hg : cgroup < groupers.length) :
    _paginate.pages pagesize cgroup groupers [] = some [(0, 0)] := by
  unfold _paginate.pages
  simp only [List.getElem?_eq_getElem hg]
  split_ifs <;> simp [_paginate.finish]

end advuilist

/-- C13 fails as stated: the sourced list `stocked` shows slot 0 and its buffer holds
two numbers.  A call of `set_source` with `fallthrough` for slot 7, which is not bound
and so has no available icon, returns false and leaves the buffer and the two entries;
and under forced rebuild a call for slot 1, whose one icon is not available, returns
false after the rebuild hook has filled the buffer again from the current source. -/
theorem set_source_keeps_buffer :
    stocked.base._olist = [5, 2] ∧
    (stocked.set_source 7 0 true true).map
        (fun r => (r.1, r.2.base._olist, r.2.base._list.length)) = some (false, [5, 2], 2) ∧
    ((stocked.force_rebuild true).set_source 1 0 true true).map
        (fun r => (r.1, r.2.base._olist, r.2.base._list.length)) = some (false, [5, 2], 2) ∧
    (stocked.set_source 1 0 true true).map
        (fun r => (r.1, r.2.base._olist, r.2.base._list.length)) = some (false, [], 0) :=
  ⟨by decide, by decide, by decide, by decide⟩

/-- C13, amended: the fallthrough of `set_source` outside forced rebuild.  For a
sourced list that is not under forced rebuild and whose sort and group indices are
valid, `set_source` called with `fallthrough` on a bound slot that holds sources none
of which is available returns false, and on return the buffer is empty, the engine has
no entries and its pages are the one empty page. -/
theorem set_source_fallthrough_empties {T : Type} (s : advuilist_sourced T)
    (slotidx icon : Nat) (reb : Bool) (slot : slot_t T)
    (hb : map_find s._sources slotidx = some slot)
    (hne : slot.slotcont.length ≠ 0)
    (hun : ∀ p ∈ slot.slotcont, p.2.source_avail_func = some false)
    (hforce : s.base._force_rebuild = false)
    (hs : s.base._csort < s.base._sorters.length)
    (hg : s.base._cgroup < s.base._groupers.length) :
    ∃ s1, s.set_source slotidx icon true reb = some (false, s1) ∧
      s1.base._olist = [] ∧ s1.base._list = [] ∧ s1.base._pages = [(0, 0)] := by
  have hinv : advuilist_sourced.set_source.invalid slot
      (if icon = 0 then slot.cur_icon else icon) = some true := by
    unfold advuilist_sourced.set_source.invalid
    cases hm : map_find slot.slotcont (if icon = 0 then slot.cur_icon else icon) with
    | none => rfl
    | some src =>
      have h2 : src.source_avail_func = some false := hun _ (map_find_mem _ _ _ hm)
      simp only [h2, Bool.not_false]
  have ht : advuilist_sourced.set_source.target s slot slotidx icon = some (0, s) := by
    unfold advuilist_sourced.set_source.target
    simp only [hinv]
    cases hc : slot.slotcont with
    | nil => simp [hc] at hne
    | cons p0 rest =>
      simp only []
      rw [advuilist_sourced.cycle_slot_bound s _ _ slot hb,
        advuilist_sourced.pick_unavailable slot _ hun]
      rfl
  rw [advuilist_sourced.set_source_unfold s slotidx icon 0 true reb slot hb ht]
  simp only [ne_eq, not_true_eq_false, if_false, if_true]
  obtain ⟨b, c, hbr, hc, hcf, hperm, ⟨pages, hp, hpages⟩, -⟩ :=
    advuilist_sourced.base_rebuild_some
      ({ s with base := { s.base with _olist := [] } } : advuilist_sourced T) hs hg
      (fun hf => by
        have : s.base._force_rebuild = true := hf
        rw [hforce] at this
        cases this)
  rw [hbr]
  have hc0 : c = [] := hcf hforce
  rw [hc0] at hperm hc
  have hl : b._list = [] := by
    have := hperm.length_eq
    simp only [advuilist.rebuild.scan, List.length_nil] at this
    exact List.length_eq_zero.mp this
  refine ⟨_, rfl, hc, hl, ?_⟩
  rw [hl, advuilist.pages_nil _ _ _ hg] at hp
  simp only [Option.some.injEq] at hp
  show b._pages = [(0, 0)]
  rw [hpages, ← hp]

/-- C13, amended, at the sourced list `stocked`, whose slot 1 holds one icon that is not
available. -/
theorem set_source_fallthrough_empties_witness :
    ∃ s1, stocked.set_source 1 0 true true = some (false, s1) ∧
      s1.base._olist = [] ∧ s1.base._list = [] ∧ s1.base._pages = [(0, 0)] :=
  set_source_fallthrough_empties stocked 1 0 true (map_index {} stocked._sources 1)
    rfl (by decide) (by decide) (by decide) (by decide) (by decide)

namespace advuilist_sourced
variable {T : Type}

/-- The two shapes of a state `set_source` leaves: after the assignments for an icon
that is not 0, or the state it was called on, in both cases up to the engine. -/
theorem set_source_form (s s1 : advuilist_sourced T) (slotidx icon : Nat)
    (fallthrough reb r : Bool)
    (h : s.set_source slotidx icon fallthrough reb = some (r, s1)) :
    (r = true ∧ ∃ slot target b, map_find s._sources slotidx = some slot ∧ target ≠ 0 ∧
        set_source.target s slot slotidx icon = some (target, s) ∧
        s1 = { set_source.commit s slotidx target with base := b } ∧
        (reb = false → b = s.base)) ∨
      (r = false ∧ ∃ b, s1 = { s with base := b } ∧ (fallthrough = false → b = s.base)) := by
  unfold set_source at h
  cases hb : map_find s._sources slotidx with
  | none =>
    simp only [hb, Option.some.injEq, Prod.mk.injEq] at h
    obtain ⟨hr, hs⟩ := h
    subst hr hs
    exact Or.inr ⟨rfl, s.base, rfl, fun _ => rfl⟩
  | some slot =>
    simp only [hb] at h
    cases ht : set_source.target s slot slotidx icon with
    | none => simp [ht] at h
    | some p =>
      obtain ⟨target, s0⟩ := p
      have hs0 := target_state s s0 slot slotidx icon target hb ht
      subst hs0
      simp only [ht] at h
      by_cases h0 : target ≠ 0
      · simp only [if_pos h0] at h
        cases reb with
        | false =>
          simp only [Bool.false_eq_true, if_false, Option.some.injEq, Prod.mk.injEq] at h
          obtain ⟨hr, hs⟩ := h
          subst hr hs
          exact Or.inl ⟨rfl, slot, target, s0.base, rfl, h0, ht, rfl, fun _ => rfl⟩
        | true =>
          simp only [if_true] at h
          cases hq : (set_source.commit s0 slotidx target)._quick_rebuild with
          | none => simp [hq] at h
          | some s3 =>
            simp only [hq, Option.some.injEq, Prod.mk.injEq] at h
            obtain ⟨hr, hs⟩ := h
            subst hr hs
            obtain ⟨b, hb3⟩ := quick_rebuild_frame _ _ hq
            exact Or.inl ⟨rfl, slot, target, b, rfl, h0, ht, hb3, fun h => Bool.noConfusion h⟩
      · simp only [if_neg h0] at h
        cases fallthrough with
        | false =>
          simp only [Bool.false_eq_true, if_false, Option.some.injEq, Prod.mk.injEq] at h
          obtain ⟨hr, hs⟩ := h
          subst hr hs
          exact Or.inr ⟨rfl, s0.base, rfl, fun _ => rfl⟩
        | true =>
          simp only [if_true] at h
          cases hq : base_rebuild
              ({ s0 with base := { s0.base with _olist := [] } } : advuilist_sourced T) with
          | none => simp [hq] at h
          | some s3 =>
            simp only [hq, Option.some.injEq, Prod.mk.injEq] at h
            obtain ⟨hr, hs⟩ := h
            subst hr hs
            obtain ⟨b, hb3⟩ := base_rebuild_frame _ _ hq
            exact Or.inr ⟨rfl, b, hb3, fun h => Bool.noConfusion h⟩

/-- What `get_source()` gives is the current slot and its current icon. -/
theorem get_source_some (s : advuilist_sourced T) (g : getsource_t) (hg : s.get_source = some g) :
    ∃ slot src, map_find s._sources s._cslot = some slot ∧ g.slotidx = s._cslot ∧
      g.icon = slot.cur_icon ∧ map_find slot.slotcont slot.cur_icon = some src ∧
      src.source_avail_func = some g.avail := by
  unfold get_source at hg
  split at hg
  · cases hg
  · next slot hslot =>
    split at hg
    · cases hg
    · next src hsrc =>
      split at hg
      · next a ha =>
        cases hg
        exact ⟨slot, src, hslot, rfl, rfl, hsrc, ha⟩
      · cases hg

end advuilist_sourced

/-- C14: the previous source.  When a call of `set_source` returns true, the previous
source it leaves is the pair of the slot that was current before the call and the
current icon that slot had before the call, which is the pair `get_source()` gave
before the call whenever it gave one, also when the new slot is the old one; when the
call returns false the previous source is what it was. -/
theorem set_source_records_previous {T : Type} (s s1 : advuilist_sourced T)
    (slotidx icon : Nat) (fallthrough reb r : Bool)
    (h : s.set_source slotidx icon fallthrough reb = some (r, s1)) :
    (r = true →
      s1.get_source_prev =
          { slotidx := s._cslot
            icon := (map_index {} s._sources s._cslot).cur_icon
            avail := true } ∧
        ∀ g, s.get_source = some g →
          s1.get_source_prev.slotidx = g.slotidx ∧ s1.get_source_prev.icon = g.icon ∧
            s1.get_source_prev.eq g = true) ∧
    (r = false → s1.get_source_prev = s.get_source_prev) := by
  rcases advuilist_sourced.set_source_form s s1 slotidx icon fallthrough reb r h with
    ⟨hr, slot, target, b, -, -, -, hs1, -⟩ | ⟨hr, b, hs1, -⟩
  · subst hr hs1
    refine ⟨fun _ => ⟨rfl, ?_⟩, fun h => Bool.noConfusion h⟩
    intro g hg
    obtain ⟨sl, src, hsl, h1, h2, -, -⟩ := advuilist_sourced.get_source_some s g hg
    have h3 : (map_index {} s._sources s._cslot).cur_icon = g.icon := by
      unfold map_index
      rw [hsl, h2]
    have e1 : ({ advuilist_sourced.set_source.commit s slotidx target with
        base := b } : advuilist_sourced T).get_source_prev.slotidx = g.slotidx := h1.symm
    have e2 : ({ advuilist_sourced.set_source.commit s slotidx target with
        base := b } : advuilist_sourced T).get_source_prev.icon = g.icon := h3
    refine ⟨e1, e2, ?_⟩
    unfold getsource_t.eq
    rw [decide_eq_true e1, decide_eq_true e2]
    rfl
  · subst hr hs1
    exact ⟨fun h => Bool.noConfusion h, fun _ => rfl⟩

/-- C14 at the sourced list `stocked`, which shows the icon A of slot 0: after
`set_source` for the icon C of the same slot the current icon of the slot is C and the
previous source is slot 0 with the icon A. -/
theorem set_source_records_previous_witness :
    (stocked.set_source 0 67 false false).map
        (fun r => (r.1, r.2.cur_icon_of 0)) = some (true, some 67) ∧
    (advuilist_sourced.set_source.commit stocked 0 67).get_source_prev =
      { slotidx := 0, icon := 65, avail := true } :=
  ⟨by decide,
    ((set_source_records_previous stocked (advuilist_sourced.set_source.commit stocked 0 67)
      0 67 false false true rfl).1 rfl).1⟩

/-! ## Two-pane window -/

namespace advuilist_sourced
variable {T : Type}

theorem base_resize_some (TERM : point) (p : advuilist_sourced T)
    (size origin reserved_rows : point)
    (hs : p.base._csort < p.base._sorters.length) (hg : p.base._cgroup < p.base._groupers.length)
    (hf : p.base._force_rebuild = false) :
    ∃ b, p.base_resize TERM size origin reserved_rows = some { p with base := b } := by
  unfold base_resize
  simp only []
  split_ifs with hne
  · obtain ⟨b, c, hb, -⟩ := base_rebuild_some
      ({ p with base := { (advuilist.resize.geometry TERM p.base size origin reserved_rows).1 with
          _pagesize := (advuilist.resize.geometry TERM p.base size origin reserved_rows).2 } } :
        advuilist_sourced T) hs hg
      (fun h => by
        have h2 : p.base._force_rebuild = true := h
        rw [hf] at h2
        cases h2)
    exact ⟨b, hb⟩
  · exact ⟨_, rfl⟩

theorem resize_some (TERM : point) (p : advuilist_sourced T) (size origin reserved_rows : point)
    (hs : p.base._csort < p.base._sorters.length) (hg : p.base._cgroup < p.base._groupers.length)
    (hf : p.base._force_rebuild = false) :
    ∃ b sz og, p.resize TERM size origin reserved_rows =
      some { p with base := b, _size := sz, _origin := og } := by
  unfold resize
  simp only []
  obtain ⟨b, hb⟩ := base_resize_some TERM
    ({ p with
      _size := advuilist.resize.size TERM size { x := Int.tdiv TERM.x 4, y := Int.tdiv TERM.y 4 }
      _origin := advuilist.resize.origin TERM
        (advuilist.resize.size TERM size { x := Int.tdiv TERM.x 4, y := Int.tdiv TERM.y 4 })
        origin } : advuilist_sourced T)
    { x := (advuilist.resize.size TERM size
        { x := Int.tdiv TERM.x 4, y := Int.tdiv TERM.y 4 }).x - 0,
      y := (advuilist.resize.size TERM size
        { x := Int.tdiv TERM.x 4, y := Int.tdiv TERM.y 4 }).y - (1 + 1 + p._map_size.y) }
    { x := (advuilist.resize.origin TERM
        (advuilist.resize.size TERM size { x := Int.tdiv TERM.x 4, y := Int.tdiv TERM.y 4 })
        origin).x + 0,
      y := (advuilist.resize.origin TERM
        (advuilist.resize.size TERM size { x := Int.tdiv TERM.x 4, y := Int.tdiv TERM.y 4 })
        origin).y + (1 + 1 + p._map_size.y) }
    reserved_rows hs hg hf
  exact ⟨b, _, _, hb⟩

theorem undo_set_source (cur0 cur : advuilist_sourced T) (g0 : getsource_t) (slot icon : Nat)
    (reb : Bool) (hg0 : cur0.get_source = some g0) (hg0a : g0.avail = true)
    (hg0i : g0.icon ≠ 0) (hact : cur0.set_source slot icon false reb = some (true, cur)) :
    cur.get_source_prev.slotidx = g0.slotidx ∧ cur.get_source_prev.icon = g0.icon ∧
    ∃ cur1, cur.set_source g0.slotidx g0.icon false false = some (true, cur1) ∧
      cur1.get_source = some g0 ∧ cur1.base = cur.base := by
  obtain ⟨sl0, src0, hsl0, h1, h2, hsrc0, hav0⟩ := get_source_some cur0 g0 hg0
  rw [hg0a] at hav0
  rcases set_source_form cur0 cur slot icon false reb true hact with
    ⟨-, sl, target, b, hsl, ht0, -, hcur, -⟩ | ⟨hr, -⟩
  swap
  · cases hr
  have hicon : (map_index {} cur0._sources cur0._cslot).cur_icon = g0.icon := by
    unfold map_index
    rw [hsl0, h2]
  have hprev1 : cur.get_source_prev.slotidx = g0.slotidx := by
    rw [hcur]
    exact h1.symm
  have hprev2 : cur.get_source_prev.icon = g0.icon := by
    rw [hcur]
    exact hicon
  have hfind : map_find cur._sources g0.slotidx =
      some (if g0.slotidx = slot then { sl0 with cur_icon := target } else sl0) := by
    rw [hcur, h1]
    show map_find (set_cur_icon (map_touch {} cur0._sources cur0._cslot) slot target)
      cur0._cslot = _
    rw [find_set_cur_icon, find_touch_bound _ _ _ _ _ hsl0]
    rfl
  have hcont : (if g0.slotidx = slot then ({ sl0 with cur_icon := target } : slot_t T)
      else sl0).slotcont = sl0.slotcont := by
    split_ifs <;> rfl
  have htarget : set_source.target cur
      (if g0.slotidx = slot then { sl0 with cur_icon := target } else sl0) g0.slotidx g0.icon =
      some (g0.icon, cur) := by
    unfold set_source.target set_source.invalid
    simp only [if_neg hg0i, hcont]
    rw [h2, hsrc0]
    simp only [hav0, Bool.not_true]
  have hset := set_source_unfold cur g0.slotidx g0.icon g0.icon false false _ hfind htarget
  simp only [if_pos hg0i, Bool.false_eq_true, if_false] at hset
  refine ⟨hprev1, hprev2, _, hset, ?_, rfl⟩
  unfold get_source
  have hcs : (set_source.commit cur g0.slotidx g0.icon)._cslot = g0.slotidx := rfl
  rw [hcs, commit_find cur g0.slotidx g0.icon _ hfind]
  simp only [hcont]
  rw [h2, hsrc0]
  simp only [hav0]
  rw [← h2, ← hg0a]

end advuilist_sourced

namespace transaction_ui
variable {T : Type}

theorem swap_some (TERM : point) (ui : transaction_ui T)
    (h1 : ui._panes.1.base._csort < ui._panes.1.base._sorters.length)
    (h2 : ui._panes.1.base._cgroup < ui._panes.1.base._groupers.length)
    (h3 : ui._panes.1.base._force_rebuild = false)
    (h4 : ui._panes.2.base._csort < ui._panes.2.base._sorters.length)
    (h5 : ui._panes.2.base._cgroup < ui._panes.2.base._groupers.length)
    (h6 : ui._panes.2.base._force_rebuild = false) :
    ∃ bl br sl ol sr og sz og2, ui._process TERM event.SWAP = some { ui with
      _size := sz
      _origin := og2
      _panes := ({ ui._panes.2 with base := bl, _size := sl, _origin := ol },
        { ui._panes.1 with base := br, _size := sr, _origin := og }) } := by
  unfold _process _swap_panes resize
  simp only []
  obtain ⟨bl, sl, ol, hl⟩ := advuilist_sourced.resize_some TERM ui._panes.2
    { x := Int.tdiv (advuilist.resize.size TERM ui._size
        { x := Int.tdiv (TERM.x * 3) 4, y := TERM.y }).x 2,
      y := (advuilist.resize.size TERM ui._size
        { x := Int.tdiv (TERM.x * 3) 4, y := TERM.y }).y }
    (advuilist.resize.origin TERM (advuilist.resize.size TERM ui._size
        { x := Int.tdiv (TERM.x * 3) 4, y := TERM.y }) ui._origin)
    { x := -1, y := -1 } h4 h5 h6
  obtain ⟨br, sr, og, hr⟩ := advuilist_sourced.resize_some TERM ui._panes.1
    { x := Int.tdiv (advuilist.resize.size TERM ui._size
        { x := Int.tdiv (TERM.x * 3) 4, y := TERM.y }).x 2,
      y := (advuilist.resize.size TERM ui._size
        { x := Int.tdiv (TERM.x * 3) 4, y := TERM.y }).y }
    { x := (advuilist.resize.origin TERM (advuilist.resize.size TERM ui._size
        { x := Int.tdiv (TERM.x * 3) 4, y := TERM.y }) ui._origin).x +
        Int.tdiv (advuilist.resize.size TERM ui._size
          { x := Int.tdiv (TERM.x * 3) 4, y := TERM.y }).x 2,
      y := (advuilist.resize.origin TERM (advuilist.resize.size TERM ui._size
        { x := Int.tdiv (TERM.x * 3) 4, y := TERM.y }) ui._origin).y }
    { x := -1, y := -1 } h1 h2 h3
  rw [hl, hr]
  exact ⟨bl, br, sl, ol, sr, og, _, _, rfl⟩

end transaction_ui

/-- The swap of the panes when the source shown before the action is still available.
The focused pane showed the available source `g0`; an
action switched it with `set_source`, which returned true, and it now shows the same
slot and icon as the other pane, both available.  Then `swap_panes_maybe` returns true,
having set the focused pane back to `g0` and put a `SWAP` event at the back of the
queue; processing that event returns, exchanges the pane at the left and the pane at
the right (each resized, otherwise as it was), and leaves the focus index unchanged, so
that the pane at the focused position shows the source that was asked for and the pane
at the other position shows `g0`.  The panes are not under forced rebuild and their
sort and group indices are valid. -/
theorem swap_panes_exchanges {T : Type} (TERM : point) (grab : Nat) (ui : transaction_ui T)
    (mouse : Bool) (cur0 cur other : advuilist_sourced T) (g0 csrc osrc : getsource_t)
    (slot icon : Nat) (reb : Bool)
    (hg0 : cur0.get_source = some g0) (hg0a : g0.avail = true) (hg0i : g0.icon ≠ 0)
    (hact : cur0.set_source slot icon false reb = some (true, cur))
    (hfocus : ui.cur_pane = some cur) (hother : ui.other_pane = some other)
    (hcs : cur.get_source = some csrc) (hos : other.get_source = some osrc)
    (hca : csrc.avail = true) (hoa : osrc.avail = true) (heq : csrc.eq osrc = true)
    (hcf : cur.base._force_rebuild = false) (hof : other.base._force_rebuild = false)
    (hcs1 : cur.base._csort < cur.base._sorters.length)
    (hcg1 : cur.base._cgroup < cur.base._groupers.length)
    (hos1 : other.base._csort < other.base._sorters.length)
    (hog1 : other.base._cgroup < other.base._groupers.length) :
    ∃ ui1 ui2 f o,
      swap_panes_maybe grab ui mouse = some (true, ui1) ∧
      ui1._queue = ui._queue ++ [event.SWAP] ∧
      ui1.cur_pane.bind advuilist_sourced.get_source = some g0 ∧
      ui1._process TERM event.SWAP = some ui2 ∧
      (∃ bl br sl ol sr og, ui2._panes =
        ({ ui1._panes.2 with base := bl, _size := sl, _origin := ol },
          { ui1._panes.1 with base := br, _size := sr, _origin := og })) ∧
      ui2._cpane = ui._cpane ∧
      ui2.cur_pane = some f ∧ ui2.other_pane = some o ∧
      f.get_source = some osrc ∧ osrc.slotidx = csrc.slotidx ∧ osrc.icon = csrc.icon ∧
      o.get_source = some g0 := by
  obtain ⟨hp1, hp2, cur1, hundo, hg1, hbase⟩ :=
    advuilist_sourced.undo_set_source cur0 cur g0 slot icon reb hg0 hg0a hg0i hact
  have heq2 : osrc.slotidx = csrc.slotidx ∧ osrc.icon = csrc.icon := by
    unfold getsource_t.eq at heq
    simp only [Bool.and_eq_true, decide_eq_true_eq] at heq
    exact ⟨heq.1.symm, heq.2.symm⟩
  have hcond : (csrc.avail && osrc.avail &&
      (csrc.eq osrc || (csrc.eq cur.get_source_prev && !mouse) ||
        (is_dragged grab csrc && is_dragged grab osrc))) = true := by
    rw [hca, hoa, heq]
    rfl
  have hswap : ∀ ui0 : transaction_ui T, ui.set_pane ui._cpane cur1.suspend = some ui0 →
      swap_panes_maybe grab ui mouse = some (true, ui0.push_event event.SWAP) := by
    intro ui0 h0
    unfold swap_panes_maybe
    simp only [hfocus, hother, hcs, hos, hcond, if_true, hp1, hp2, hundo, h0]
  have hb1 : cur1.suspend.base._csort < cur1.suspend.base._sorters.length := by
    show cur1.base._csort < cur1.base._sorters.length
    rw [hbase]
    exact hcs1
  have hb2 : cur1.suspend.base._cgroup < cur1.suspend.base._groupers.length := by
    show cur1.base._cgroup < cur1.base._groupers.length
    rw [hbase]
    exact hcg1
  have hb3 : cur1.suspend.base._force_rebuild = false := by
    show cur1.base._force_rebuild = false
    rw [hbase]
    exact hcf
  have hgs : cur1.suspend.get_source = some g0 := hg1
  unfold transaction_ui.cur_pane transaction_ui.pane at hfocus
  unfold transaction_ui.other_pane transaction_ui.pane at hother
  by_cases hc0 : ui._cpane = 0
  · simp only [hc0, if_true, Option.some.injEq] at hfocus
    have hsub : size_sub 1 0 = 1 := by decide
    simp only [hc0, hsub, if_true, Nat.one_ne_zero, if_false, Option.some.injEq] at hother
    have hset : ui.set_pane ui._cpane cur1.suspend =
        some { ui with _panes := (cur1.suspend, ui._panes.2) } := by
      unfold transaction_ui.set_pane
      simp only [hc0, if_true]
    obtain ⟨bl, br, sl, ol, sr, og, sz, og2, hproc⟩ := transaction_ui.swap_some TERM
      (({ ui with _panes := (cur1.suspend, ui._panes.2) } : transaction_ui T).push_event event.SWAP)
      hb1 hb2 hb3 (by rw [← hother] at hos1; exact hos1) (by rw [← hother] at hog1; exact hog1)
      (by rw [← hother] at hof; exact hof)
    refine ⟨_, _, { ui._panes.2 with base := bl, _size := sl, _origin := ol },
      { cur1.suspend with base := br, _size := sr, _origin := og },
      hswap _ hset, rfl, ?_, hproc, ⟨bl, br, sl, ol, sr, og, rfl⟩, rfl, ?_, ?_,
      ?_, heq2.1, heq2.2, ?_⟩
    · show (transaction_ui.pane _ ui._cpane).bind advuilist_sourced.get_source = some g0
      unfold transaction_ui.pane
      simp only [hc0, if_true]
      exact hgs
    · show transaction_ui.pane _ ui._cpane = _
      unfold transaction_ui.pane
      simp only [hc0, if_true]
      rfl
    · show transaction_ui.pane _ (size_sub 1 ui._cpane) = _
      unfold transaction_ui.pane
      simp only [hc0, hsub, Nat.one_ne_zero, if_false, if_true]
      rfl
    · show advuilist_sourced.get_source ui._panes.2 = some osrc
      rw [hother]
      exact hos
    · exact hgs
  · have hc1 : ui._cpane = 1 := by
      by_contra hne
      simp only [hc0, hne, if_false] at hfocus
      cases hfocus
    simp only [hc1, Nat.one_ne_zero, if_false, if_true, Option.some.injEq] at hfocus
    have hsub : size_sub 1 1 = 0 := by decide
    simp only [hc1, hsub, if_true, Option.some.injEq] at hother
    have hset : ui.set_pane ui._cpane cur1.suspend =
        some { ui with _panes := (ui._panes.1, cur1.suspend) } := by
      unfold transaction_ui.set_pane
      simp only [hc1, Nat.one_ne_zero, if_false, if_true]
    obtain ⟨bl, br, sl, ol, sr, og, sz, og2, hproc⟩ := transaction_ui.swap_some TERM
      (({ ui with _panes := (ui._panes.1, cur1.suspend) } : transaction_ui T).push_event event.SWAP)
      (by rw [← hother] at hos1; exact hos1) (by rw [← hother] at hog1; exact hog1)
      (by rw [← hother] at hof; exact hof) hb1 hb2 hb3
    refine ⟨_, _, { ui._panes.1 with base := br, _size := sr, _origin := og },
      { cur1.suspend with base := bl, _size := sl, _origin := ol },
      hswap _ hset, rfl, ?_, hproc, ⟨bl, br, sl, ol, sr, og, rfl⟩, rfl, ?_, ?_,
      ?_, heq2.1, heq2.2, ?_⟩
    · show (transaction_ui.pane _ ui._cpane).bind advuilist_sourced.get_source = some g0
      unfold transaction_ui.pane
      simp only [hc1, Nat.one_ne_zero, if_false, if_true]
      exact hgs
    · show transaction_ui.pane _ ui._cpane = _
      unfold transaction_ui.pane
      simp only [hc1, Nat.one_ne_zero, if_false, if_true]
      rfl
    · show transaction_ui.pane _ (size_sub 1 ui._cpane) = _
      unfold transaction_ui.pane
      simp only [hc1, hsub, if_true]
      rfl
    · show advuilist_sourced.get_source ui._panes.1 = some osrc
      rw [hother]
      exact hos
    · exact hgs

/-- The swap of the panes at the two-pane window `counter`: the left pane, in focus,
showed slot 0, which is still available, and was switched to slot 1, which the right
pane shows. -/
theorem swap_panes_exchanges_witness :
    ∃ ui1 ui2 f o,
      swap_panes_maybe 0 counter false = some (true, ui1) ∧
      ui1._queue = counter._queue ++ [event.SWAP] ∧
      ui1.cur_pane.bind advuilist_sourced.get_source =
        some { slotidx := 0, icon := 65, avail := true } ∧
      ui1._process screen event.SWAP = some ui2 ∧
      (∃ bl br sl ol sr og, ui2._panes =
        ({ ui1._panes.2 with base := bl, _size := sl, _origin := ol },
          { ui1._panes.1 with base := br, _size := sr, _origin := og })) ∧
      ui2._cpane = counter._cpane ∧
      ui2.cur_pane = some f ∧ ui2.other_pane = some o ∧
      f.get_source = some { slotidx := 1, icon := 65, avail := true } ∧
      (1 : Nat) = 1 ∧ (65 : Nat) = 65 ∧
      o.get_source = some { slotidx := 0, icon := 65, avail := true } :=
  swap_panes_exchanges screen 0 counter false (pantry_at 0)
    (advuilist_sourced.set_source.commit (pantry_at 0) 1 65) (pantry_at 1)
    { slotidx := 0, icon := 65, avail := true } { slotidx := 1, icon := 65, avail := true }
    { slotidx := 1, icon := 65, avail := true } 1 0 false
    (by decide) rfl (by decide) rfl rfl rfl (by decide) (by decide) rfl rfl rfl rfl rfl
    (by decide) (by decide) (by decide) (by decide)

/-- C20 fails in the code when the source the focused pane showed before the action is
no longer available.  In the two-pane window `stale` the left pane, in focus, showed
the icon A of slot 0, which has since become unavailable, and an action switched it to
the icon A of slot 1, which the right pane shows; both are available.  The undo
`set_source( 0, A, false, false )` of `swap_panes_maybe` returns false and leaves the
pane on slot 1; `swap_panes_maybe` drops that result, puts a `SWAP` event in the queue
and returns true, and after the event is processed the pane at the focused position and
the pane at the other position both show the icon A of slot 1: the pane at the other
position does not show the source the focused pane showed before the action. -/
theorem swap_after_failed_undo :
    spoiled.get_source = some { slotidx := 0, icon := 65, avail := false } ∧
    (spoiled.set_source 1 0 false false).map (fun r => r.1) = some true ∧
    stale.cur_pane.map (fun p => (p.get_source, p.get_source_prev)) =
      some (some { slotidx := 1, icon := 65, avail := true },
        { slotidx := 0, icon := 65, avail := true }) ∧
    stale.other_pane.map (fun p => p.get_source) =
      some (some { slotidx := 1, icon := 65, avail := true }) ∧
    (stale.cur_pane.bind (fun p => p.set_source 0 65 false false)).map
        (fun r => (r.1, r.2.get_source)) =
      some (false, some { slotidx := 1, icon := 65, avail := true }) ∧
    (swap_panes_maybe 0 stale false).map (fun r => (r.1, r.2._queue)) =
      some (true, [event.SWAP]) ∧
    ((swap_panes_maybe 0 stale false).bind (fun r => r.2._process screen event.SWAP)).map
        (fun u => (u._cpane, u.cur_pane.bind (fun p => p.get_source),
          u.other_pane.bind (fun p => p.get_source))) =
      some (0, some { slotidx := 1, icon := 65, avail := true },
        some { slotidx := 1, icon := 65, avail := true }) :=
  ⟨by decide, by decide, by decide, by decide, by decide, by decide, by decide⟩

/-! ## Focus of the two-pane window -/

namespace transaction_ui
variable {T : Type}

theorem resize_cpane (TERM : point) (ui u : transaction_ui T) (size origin : point)
    (h : ui.resize TERM size origin = some u) : u._cpane = ui._cpane := by
  unfold resize at h
  simp only [] at h
  split at h
  · cases h
    rfl
  · cases h

theorem process_cpane (TERM : point) (ui u : transaction_ui T) (ev : event)
    (hev : ev ≠ event.SWITCH) (h : ui._process TERM ev = some u) : u._cpane = ui._cpane := by
  cases ev with
  | QUIT =>
    simp only [_process, Option.some.injEq] at h
    rw [← h]
  | SWAP =>
    simp only [_process, _swap_panes] at h
    exact resize_cpane TERM
      ({ ui with _panes := (ui._panes.2, ui._panes.1) } : transaction_ui T) u ui._size
      ui._origin h
  | SWITCH => exact absurd rfl hev
  | ACTIVITY =>
    simp only [_process, Option.some.injEq] at h
    rw [← h]
    rfl
  | NEVENTS =>
    simp only [_process, Option.some.injEq] at h
    rw [← h]

theorem switch_value (c : Nat) (hc : c < 2) : size_add (size_sub 0 c) 1 = 1 - c := by
  have h : c = 0 ∨ c = 1 := by omega
  rcases h with rfl | rfl <;> decide

end transaction_ui

/-- C21: the focus index under the events.  With the focus index f at 0 or 1,
processing a `SWITCH` event returns and leaves everything but the focus index, which
becomes 1 - f; two `SWITCH` events in a row give the window back as it was; the events
`QUIT`, `ACTIVITY` and `NEVENTS` return and leave the focus index, and so does `SWAP`
whenever it returns, which it does when the panes are not under forced rebuild and
their sort and group indices are valid. -/
theorem switch_toggles_focus {T : Type} (TERM : point) (ui : transaction_ui T)
    (hcp : ui._cpane < 2) :
    ui._process TERM event.SWITCH = some { ui with _cpane := 1 - ui._cpane } ∧
    (ui._process TERM event.SWITCH).bind (fun u => u._process TERM event.SWITCH) = some ui ∧
    (∀ ev, ev = event.QUIT ∨ ev = event.ACTIVITY ∨ ev = event.NEVENTS →
      ∃ u, ui._process TERM ev = some u ∧ u._cpane = ui._cpane) ∧
    (∀ u, ui._process TERM event.SWAP = some u → u._cpane = ui._cpane) ∧
    (ui._panes.1.base._csort < ui._panes.1.base._sorters.length →
      ui._panes.1.base._cgroup < ui._panes.1.base._groupers.length →
      ui._panes.1.base._force_rebuild = false →
      ui._panes.2.base._csort < ui._panes.2.base._sorters.length →
      ui._panes.2.base._cgroup < ui._panes.2.base._groupers.length →
      ui._panes.2.base._force_rebuild = false →
      ∃ u, ui._process TERM event.SWAP = some u ∧ u._cpane = ui._cpane) := by
  have h1 : ui._process TERM event.SWITCH = some { ui with _cpane := 1 - ui._cpane } := by
    show some ({ ui with _cpane := size_add (size_sub 0 ui._cpane) 1 } : transaction_ui T) = _
    rw [transaction_ui.switch_value _ hcp]
  refine ⟨h1, ?_, ?_, ?_, ?_⟩
  · rw [h1]
    show some ({ ({ ui with _cpane := 1 - ui._cpane } : transaction_ui T) with
      _cpane := size_add (size_sub 0 (1 - ui._cpane)) 1 } : transaction_ui T) = some ui
    rw [transaction_ui.switch_value _ (by omega)]
    have e : 1 - (1 - ui._cpane) = ui._cpane := by omega
    rw [e]
  · rintro ev (rfl | rfl | rfl)
    · exact ⟨_, rfl, rfl⟩
    · exact ⟨_, rfl, rfl⟩
    · exact ⟨_, rfl, rfl⟩
  · intro u h
    exact transaction_ui.process_cpane TERM ui u event.SWAP (by decide) h
  · intro a1 a2 a3 a4 a5 a6
    obtain ⟨bl, br, sl, ol, sr, og, sz, og2, h⟩ := transaction_ui.swap_some TERM ui a1 a2 a3 a4 a5 a6
    exact ⟨_, h, rfl⟩

/-- C21 at the two-pane window `counter`, whose focus is at 0. -/
theorem switch_toggles_focus_witness :
    (counter._process screen event.SWITCH).map (fun u => u._cpane) = some 1 ∧
    ((counter._process screen event.SWITCH).bind
      (fun u => u._process screen event.SWITCH)).map (fun u => u._cpane) = some 0 :=
  ⟨by rw [(switch_toggles_focus screen counter (by decide)).1]; rfl,
    by rw [(switch_toggles_focus screen counter (by decide)).2.1]; rfl⟩

namespace transaction_ui
variable {T : Type}

theorem resize_returns (TERM : point) (ui : transaction_ui T) (size origin : point)
    (h1 : ui._panes.1.base._csort < ui._panes.1.base._sorters.length)
    (h2 : ui._panes.1.base._cgroup < ui._panes.1.base._groupers.length)
    (h3 : ui._panes.1.base._force_rebuild = false)
    (h4 : ui._panes.2.base._csort < ui._panes.2.base._sorters.length)
    (h5 : ui._panes.2.base._cgroup < ui._panes.2.base._groupers.length)
    (h6 : ui._panes.2.base._force_rebuild = false) :
    ∃ u, ui.resize TERM size origin = some u ∧ u._cpane = ui._cpane := by
  unfold resize
  simp only []
  obtain ⟨bl, sl, ol, hl⟩ := advuilist_sourced.resize_some TERM ui._panes.1
    { x := Int.tdiv (advuilist.resize.size TERM size
        { x := Int.tdiv (TERM.x * 3) 4, y := TERM.y }).x 2,
      y := (advuilist.resize.size TERM size
        { x := Int.tdiv (TERM.x * 3) 4, y := TERM.y }).y }
    (advuilist.resize.origin TERM (advuilist.resize.size TERM size
        { x := Int.tdiv (TERM.x * 3) 4, y := TERM.y }) origin)
    { x := -1, y := -1 } h1 h2 h3
  obtain ⟨br, sr, og, hr⟩ := advuilist_sourced.resize_some TERM ui._panes.2
    { x := Int.tdiv (advuilist.resize.size TERM size
        { x := Int.tdiv (TERM.x * 3) 4, y := TERM.y }).x 2,
      y := (advuilist.resize.size TERM size
        { x := Int.tdiv (TERM.x * 3) 4, y := TERM.y }).y }
    { x := (advuilist.resize.origin TERM (advuilist.resize.size TERM size
        { x := Int.tdiv (TERM.x * 3) 4, y := TERM.y }) origin).x +
        Int.tdiv (advuilist.resize.size TERM size
          { x := Int.tdiv (TERM.x * 3) 4, y := TERM.y }).x 2,
      y := (advuilist.resize.origin TERM (advuilist.resize.size TERM size
        { x := Int.tdiv (TERM.x * 3) 4, y := TERM.y }) origin).y }
    { x := -1, y := -1 } h4 h5 h6
  rw [hl, hr]
  exact ⟨_, rfl, rfl⟩

theorem create_returns (TERM srclayout size origin reserved_rows : point) :
    ∃ u : transaction_ui T,
      transaction_ui.create TERM srclayout size origin reserved_rows = some u ∧ u._cpane = 0 := by
  unfold transaction_ui.create
  exact resize_returns TERM _ size origin (by show (0 : Nat) < 1; exact Nat.zero_lt_one)
    (by show (0 : Nat) < 1; exact Nat.zero_lt_one) rfl
    (by show (0 : Nat) < 1; exact Nat.zero_lt_one)
    (by show (0 : Nat) < 1; exact Nat.zero_lt_one) rfl

theorem load_state_cpane (ui u : transaction_ui T) (state : transaction_ui_save_state)
    (reb : Bool) (h : ui.load_state state reb = some u) : u._cpane = state.cpane := by
  unfold load_state at h
  split at h
  · cases h
    rfl
  · cases h

end transaction_ui

/-- C22 fails as stated: the two-pane window `counter` loads a saved state whose focus
index is 5; `load_state` returns with the focus index 5, for which `cur_pane()` and
`other_pane()` are outside the array of the panes. -/
theorem load_state_keeps_bad_focus :
    (counter.load_state
        { left := { slot := 0, icon := 65 }, right := { slot := 1, icon := 65 }, cpane := 5 }
        false).map (fun u => (u._cpane, u.cur_pane.isSome, u.other_pane.isSome)) =
      some (5, false, false) :=
  by decide

/-- C22, amended: the focus index is 0 after construction, which returns; when it is 0
or 1, the current pane and the other pane are the two panes of the window, one each,
and it is 0 or 1 after any event that returns; `load_state` returns whenever the
`load_state` of both panes does and copies the saved focus index as it is, so that after
it the focus index is 0 or 1 exactly when the saved one is. -/
theorem focus_index_range {T : Type} (TERM : point) (ui : transaction_ui T)
    (hcp : ui._cpane < 2) :
    (∀ srclayout size origin reserved_rows, ∃ u : transaction_ui T,
      transaction_ui.create TERM srclayout size origin reserved_rows = some u ∧
        u._cpane = 0) ∧
    (∃ c o, ui.cur_pane = some c ∧ ui.other_pane = some o ∧
      ((ui._cpane = 0 ∧ c = ui._panes.1 ∧ o = ui._panes.2) ∨
        (ui._cpane = 1 ∧ c = ui._panes.2 ∧ o = ui._panes.1))) ∧
    (∀ ev u, ui._process TERM ev = some u → u._cpane < 2) ∧
    (∀ state reb l r, ui._panes.1.load_state state.left reb = some l →
      ui._panes.2.load_state state.right reb = some r →
      ui.load_state state reb = some { ui with _panes := (l, r), _cpane := state.cpane }) ∧
    (∀ state reb u, ui.load_state state reb = some u →
      u._cpane = state.cpane ∧ (u._cpane < 2 ↔ state.cpane < 2)) := by
  refine ⟨fun a b c d => transaction_ui.create_returns TERM a b c d, ?_, ?_, ?_, ?_⟩
  · have h : ui._cpane = 0 ∨ ui._cpane = 1 := by omega
    rcases h with h | h
    · refine ⟨ui._panes.1, ui._panes.2, ?_, ?_, Or.inl ⟨h, rfl, rfl⟩⟩
      · unfold transaction_ui.cur_pane transaction_ui.pane
        simp only [h, if_true]
      · unfold transaction_ui.other_pane transaction_ui.pane
        have hs : size_sub 1 0 = 1 := by decide
        simp only [h, hs, Nat.one_ne_zero, if_false, if_true]
    · refine ⟨ui._panes.2, ui._panes.1, ?_, ?_, Or.inr ⟨h, rfl, rfl⟩⟩
      · unfold transaction_ui.cur_pane transaction_ui.pane
        simp only [h, Nat.one_ne_zero, if_false, if_true]
      · unfold transaction_ui.other_pane transaction_ui.pane
        have hs : size_sub 1 1 = 0 := by decide
        simp only [h, hs, if_true]
  · intro ev u h
    by_cases hev : ev = event.SWITCH
    · subst hev
      have h1 : ui._process TERM event.SWITCH =
          some ({ ui with _cpane := size_add (size_sub 0 ui._cpane) 1 } : transaction_ui T) := rfl
      rw [h1] at h
      simp only [Option.some.injEq] at h
      rw [← h]
      show size_add (size_sub 0 ui._cpane) 1 < 2
      rw [transaction_ui.switch_value _ hcp]
      omega
    · rw [transaction_ui.process_cpane TERM ui u ev hev h]
      exact hcp
  · intro state reb l r hl hr
    unfold transaction_ui.load_state
    rw [hl, hr]
  · intro state reb u h
    have := transaction_ui.load_state_cpane ui u state reb h
    exact ⟨this, by rw [this]⟩

/-- C22, amended, at the two-pane window `counter`. -/
theorem focus_index_range_witness :
    ∃ c o, counter.cur_pane = some c ∧ counter.other_pane = some o ∧
      ((counter._cpane = 0 ∧ c = counter._panes.1 ∧ o = counter._panes.2) ∨
        (counter._cpane = 1 ∧ c = counter._panes.2 ∧ o = counter._panes.1)) :=
  (focus_index_range screen counter (by decide)).2.1

/-! ## Mouse in the two-pane window -/

namespace transaction_ui
variable {T : Type}

theorem contains_iff {T : Type} (pane : advuilist_sourced T) (p : point) :
    inclusive_rectangle_contains pane.get_size.2
      { x := pane.get_size.1.x + pane.get_size.2.x,
        y := pane.get_size.1.y + pane.get_size.2.y } p = true ↔ in_pane_rectangle pane p := by
  unfold inclusive_rectangle_contains in_pane_rectangle advuilist_sourced.get_size
  simp only [Bool.and_eq_true, decide_eq_true_eq]
  constructor
  · rintro ⟨⟨⟨h1, h2⟩, h3⟩, h4⟩
    exact ⟨h1, by omega, h3, by omega⟩
  · rintro ⟨h1, h2, h3, h4⟩
    exact ⟨⟨⟨h1, by omega⟩, h3⟩, by omega⟩

theorem switch_returns (ui : transaction_ui T) (cur : advuilist_sourced T)
    (hcur : ui.cur_pane = some cur) :
    ∃ ui1, _ctxthandler.switch ui = some ui1 ∧ ui1._queue = ui._queue ++ [event.SWITCH] ∧
      ui1.cur_pane = some cur.suspend ∧ ui1._cpane = ui._cpane := by
  unfold _ctxthandler.switch
  rw [hcur]
  simp only []
  unfold cur_pane pane at hcur
  unfold set_pane push_event cur_pane pane
  by_cases h0 : ui._cpane = 0
  · simp only [h0, if_true]
    exact ⟨_, rfl, rfl, rfl, rfl⟩
  · by_cases h1 : ui._cpane = 1
    · simp only [h1, Nat.one_ne_zero, if_false, if_true]
      exact ⟨_, rfl, rfl, rfl, rfl⟩
    · simp only [h0, h1, if_false] at hcur
      cases hcur

end transaction_ui

/-- C23 fails in the code on the far edge of the other pane.  In the two-pane window
`laid_out` the focus is on the right pane, which takes the columns from 40 on, and the
left pane takes the columns 0 to 39.  The position in column 40 and row 5 lies in the
bounds of the focused pane and not in those of the other pane, and a mouse-select there
puts a `SWITCH` event in the queue: the rectangle `_ctxthandler` makes of the other
pane ends at its origin plus its size, one column and one row past the pane, and takes
that corner in. -/
theorem mouse_on_own_edge_switches :
    laid_out._cpane = 1 ∧
    laid_out.cur_pane.map advuilist_sourced.get_size =
      some ({ x := 40, y := 24 }, { x := 40, y := 0 }) ∧
    laid_out.other_pane.map advuilist_sourced.get_size =
      some ({ x := 40, y := 24 }, { x := 0, y := 0 }) ∧
    in_pane_bounds laid_out._panes.2 { x := 40, y := 5 } ∧
    ¬ in_pane_bounds laid_out._panes.1 { x := 40, y := 5 } ∧
    (transaction_ui._ctxthandler none laid_out action_t.MOUSE_SELECT
        (some { x := 40, y := 5 })).map (fun u => u._queue) = some [event.SWITCH] :=
  ⟨by decide, by decide, by decide, by decide, by decide, by decide⟩

/-- What `_ctxthandler` does on a mouse action: on a mouse-select or mouse-move action
it puts a `SWITCH`
event at the back of the queue and suspends the focused pane if and only if a position
is reported and it lies in the rectangle from the origin of the other pane to its origin
plus its size, both corners taken in: origin <= p <= origin + size in both coordinates;
for a position outside that rectangle, or none, it leaves the window as it is. -/
theorem mouse_switches_focus {T : Type} (ui : transaction_ui T) (action : action_t)
    (cur other : advuilist_sourced T)
    (hact : action = action_t.MOUSE_SELECT ∨ action = action_t.MOUSE_MOVE)
    (hcur : ui.cur_pane = some cur) (hother : ui.other_pane = some other) :
    ∃ ui1, ui1._queue = ui._queue ++ [event.SWITCH] ∧ ui1.cur_pane = some cur.suspend ∧
      ui1._cpane = ui._cpane ∧
      (∀ p, in_pane_rectangle other p →
        transaction_ui._ctxthandler none ui action (some p) = some ui1) ∧
      (∀ p, ¬ in_pane_rectangle other p →
        transaction_ui._ctxthandler none ui action (some p) = some ui) ∧
      transaction_ui._ctxthandler none ui action none = some ui ∧
      ∀ o_p u, transaction_ui._ctxthandler none ui action o_p = some u →
        (u._queue = ui._queue ++ [event.SWITCH] ↔ ∃ p, o_p = some p ∧ in_pane_rectangle other p) := by
  obtain ⟨ui1, hsw, hq, hc, hcp⟩ := transaction_ui.switch_returns ui cur hcur
  have hev : ∀ o_p, transaction_ui._ctxthandler none ui action o_p =
      transaction_ui._ctxthandler.mouse ui o_p := by
    intro o_p
    unfold transaction_ui._ctxthandler transaction_ui._ctxthandler.events
    rcases hact with rfl | rfl
    · simp only []
      cases transaction_ui._ctxthandler.mouse ui o_p <;> rfl
    · simp only []
      cases transaction_ui._ctxthandler.mouse ui o_p <;> rfl
  have hin : ∀ p, in_pane_rectangle other p →
      transaction_ui._ctxthandler none ui action (some p) = some ui1 := by
    intro p hp
    rw [hev]
    unfold transaction_ui._ctxthandler.mouse
    simp only [hother, if_pos ((transaction_ui.contains_iff other p).mpr hp), hsw]
  have hout : ∀ p, ¬ in_pane_rectangle other p →
      transaction_ui._ctxthandler none ui action (some p) = some ui := by
    intro p hp
    rw [hev]
    unfold transaction_ui._ctxthandler.mouse
    simp only [hother, if_neg (fun h => hp ((transaction_ui.contains_iff other p).mp h))]
  have hnone : transaction_ui._ctxthandler none ui action none = some ui := by
    rw [hev]
    unfold transaction_ui._ctxthandler.mouse
    simp only [hother]
  have hne : ui._queue ≠ ui._queue ++ [event.SWITCH] := by
    intro h
    have := congrArg List.length h
    simp at this
  refine ⟨ui1, hq, hc, hcp, hin, hout, hnone, ?_⟩
  intro o_p u hu
  cases o_p with
  | none =>
    rw [hnone] at hu
    cases hu
    exact ⟨fun h => absurd h hne, fun ⟨p, hp, _⟩ => by cases hp⟩
  | some p =>
    by_cases hp : in_pane_rectangle other p
    · rw [hin p hp] at hu
      cases hu
      exact ⟨fun _ => ⟨p, rfl, hp⟩, fun _ => hq⟩
    · rw [hout p hp] at hu
      cases hu
      refine ⟨fun h => absurd h hne, ?_⟩
      rintro ⟨q, hq2, hq3⟩
      cases hq2
      exact absurd hq3 hp

/-- A mouse-select at the two-pane window `laid_out` in column 20 and row 5, inside the
left pane, which is not in focus, puts a `SWITCH` event in the queue. -/
theorem mouse_switches_focus_witness :
    ∃ ui1, ui1._queue = laid_out._queue ++ [event.SWITCH] ∧
      transaction_ui._ctxthandler none laid_out action_t.MOUSE_SELECT
        (some { x := 20, y := 5 }) = some ui1 := by
  obtain ⟨ui1, h1, -, -, h4, -⟩ := mouse_switches_focus laid_out action_t.MOUSE_SELECT
    laid_out._panes.2 laid_out._panes.1 (Or.inl rfl) rfl rfl
  exact ⟨ui1, h1, h4 _ (by unfold in_pane_rectangle; decide)⟩

/-! ## Persistence -/

theorem save_state_round_trip_fields (s s0 : advuilist_save_state) :
    s0.deserialize (json_object_of s.serialize) = { s with initialized := true } := by
  unfold advuilist_save_state.deserialize advuilist_save_state.serialize json_object_of
    json_read_number json_read_text json_member
  simp [List.find?]

/-- C24 fails in the code: the flag `initialized` does not round-trip.  The state that
was never saved has the flag off, and what `deserialize` reads from the object
`serialize` wrote for it has the flag on, for the state of a list and for the state of
the two-pane window: `serialize` does not write the flag and `deserialize` sets it to
whether the members were read.  For the advanced inventory this defeats the fallback
of `create_advanced_inv`: for the state that was never saved it loads
`aim_default_state`, and once `save_adv_inv_state` has written that state and
`load_adv_inv_state` has read it back, it loads the state read back, with slot, sort
index and group index 0 in both panes, in place of `aim_default_state`. -/
theorem round_trip_sets_initialized :
    ({} : advuilist_save_state).initialized = false ∧
    (({} : advuilist_save_state).deserialize
      (json_object_of ({} : advuilist_save_state).serialize)).initialized = true ∧
    ({} : transaction_ui_save_state).initialized = false ∧
    (({} : transaction_ui_save_state).deserialize
      (json_object_of ({} : transaction_ui_save_state).serialize)).initialized = true ∧
    create_advanced_inv.state {} = aim_default_state ∧
    (load_adv_inv_state (save_adv_inv_state {} {}) {} {}).1.initialized = true ∧
    create_advanced_inv.state (load_adv_inv_state (save_adv_inv_state {} {}) {} {}).1 =
      { left := { initialized := true }, right := { initialized := true }, cpane := 0,
        initialized := true } ∧
    create_advanced_inv.state (load_adv_inv_state (save_adv_inv_state {} {}) {} {}).1 ≠
      aim_default_state :=
  ⟨rfl, by decide, rfl, by decide, by decide, by decide, by decide, by decide⟩

/-- The members that are written round-trip, whatever the flags are.  What
`deserialize` reads, into any state, from the object `serialize` wrote for a state `s`
of a list has the slot, index, sort index, group index, icon and filter text of `s`
and the flag `initialized` on; for a state `t` of the two-pane window it has the focus
index of `t` and the left and right states of `t` with their flags on, and its own flag
on; whatever the flags of `s` and `t` were. -/
theorem round_trip_fields (s s0 : advuilist_save_state) (t t0 : transaction_ui_save_state) :
    s0.deserialize (json_object_of s.serialize) = { s with initialized := true } ∧
    t0.deserialize (json_object_of t.serialize) =
      { cpane := t.cpane
        left := { t.left with initialized := true }
        right := { t.right with initialized := true }
        initialized := true } := by
  refine ⟨save_state_round_trip_fields s s0, ?_⟩
  have hl := save_state_round_trip_fields t.left t0.left
  have hr := save_state_round_trip_fields t.right t0.right
  unfold transaction_ui_save_state.deserialize transaction_ui_save_state.serialize
  have h1 : json_read_number (json_object_of (json_value.object
      [("cpane", json_value.number t.cpane), ("left", t.left.serialize),
        ("right", t.right.serialize)])) "cpane" = some t.cpane := by
    unfold json_read_number json_member json_object_of
    simp [List.find?]
  have h2 : json_read_object (json_object_of (json_value.object
      [("cpane", json_value.number t.cpane), ("left", t.left.serialize),
        ("right", t.right.serialize)])) "left" = some (json_object_of t.left.serialize) := by
    unfold json_read_object json_member json_object_of advuilist_save_state.serialize
    simp [List.find?]
  have h3 : json_read_object (json_object_of (json_value.object
      [("cpane", json_value.number t.cpane), ("left", t.left.serialize),
        ("right", t.right.serialize)])) "right" = some (json_object_of t.right.serialize) := by
    unfold json_read_object json_member json_object_of advuilist_save_state.serialize
    simp [List.find?]
  rw [h1, h2, h3]
  simp only [Option.getD_some, Option.isSome_some, Bool.and_self]
  rw [hl, hr]

/-! ## Cycling through the icons of a slot -/

namespace advuilist_sourced
variable {T : Type}

theorem find_avail_append : ∀ (a b : List (Nat × source_t T)),
    find_avail (a ++ b) =
      match find_avail a with
      | some none => find_avail b
      | r => r
  | [], b => rfl
  | (k, src) :: a, b => by
    simp only [List.cons_append, find_avail]
    cases hs : src.source_avail_func with
    | none => rfl
    | some v =>
      cases v with
      | true => rfl
      | false =>
        simp only []
        exact find_avail_append a b

theorem map_find_split (k : Nat) (v : source_t T) : ∀ l : List (Nat × source_t T),
    map_find l k = some v → ∃ pre post, l = pre ++ (k, v) :: post ∧ ∀ p ∈ pre, p.1 ≠ k
  | [], h => by simp [map_find] at h
  | (k1, v1) :: rest, h => by
    simp only [map_find] at h
    split_ifs at h with h1
    · cases h
      subst h1
      exact ⟨[], rest, rfl, fun p hp => absurd hp (List.not_mem_nil p)⟩
    · obtain ⟨pre, post, hl, hp⟩ := map_find_split k v rest h
      refine ⟨(k1, v1) :: pre, post, by rw [hl]; rfl, ?_⟩
      intro p hpm
      rcases List.mem_cons.mp hpm with rfl | hpm
      · exact h1
      · exact hp p hpm

theorem find_pos_split (k : Nat) (v : source_t T) (post : List (Nat × source_t T)) :
    ∀ pre : List (Nat × source_t T), (∀ p ∈ pre, p.1 ≠ k) →
      find_pos (pre ++ (k, v) :: post) k = some pre.length
  | [], _ => by simp [find_pos]
  | (k1, v1) :: pre, h => by
    have h1 : k1 ≠ k := h (k1, v1) (List.mem_cons_self _ _)
    have ih := find_pos_split k v post pre (fun p hp => h p (List.mem_cons_of_mem _ hp))
    show find_pos ((k1, v1) :: (pre ++ (k, v) :: post)) k = some ((k1, v1) :: pre).length
    simp only [find_pos, if_neg h1, ih, List.length_cons]
    rfl

theorem ordered_split (k : Nat) (v : source_t T) (pre post : List (Nat × source_t T))
    (h : icons_ordered (pre ++ (k, v) :: post)) :
    (∀ p ∈ pre, icon_key p.1 < icon_key k) ∧ (∀ p ∈ post, icon_key k < icon_key p.1) ∧
      icons_ordered pre ∧ icons_ordered post := by
  unfold icons_ordered at h ⊢
  simp only [List.map_append, List.map_cons, List.pairwise_append, List.pairwise_cons,
    List.mem_map, List.mem_cons] at h
  obtain ⟨h1, ⟨h2, h3⟩, h4⟩ := h
  refine ⟨?_, ?_, h1, h3⟩
  · intro p hp
    exact h4 (icon_key p.1) ⟨p, hp, rfl⟩ (icon_key k) (Or.inl rfl)
  · intro p hp
    exact h2 (icon_key p.1) ⟨p, hp, rfl⟩

theorem ordered_mem_find (l : List (Nat × source_t T)) (k : Nat) (v : source_t T)
    (ho : icons_ordered l) (hm : (k, v) ∈ l) : map_find l k = some v := by
  obtain ⟨pre, post, hl⟩ := List.append_of_mem hm
  rw [hl] at ho ⊢
  exact (ordered_find k v post pre ho).1

/-- The icon `find_avail` gives for a list in the order of the icons is the first
available icon of the list in that order. -/
theorem find_avail_list_least (l : List (Nat × source_t T)) (k : Nat) (ho : icons_ordered l)
    (h : find_avail l = some (some k)) :
    (∃ v, (k, v) ∈ l ∧ v.source_avail_func = some true) ∧
      ∀ p ∈ l, p.2.source_avail_func = some true → icon_key k ≤ icon_key p.1 := by
  obtain ⟨pre, src, post, hl, hs, hp⟩ := find_avail_found _ _ h
  rw [hl] at ho
  obtain ⟨-, hpost, -, -⟩ := ordered_split k src pre post ho
  refine ⟨⟨src, by rw [hl]; simp, hs⟩, ?_⟩
  intro p hm ha
  rw [hl] at hm
  rcases List.mem_append.mp hm with hm | hm
  · have := hp _ hm
    rw [ha] at this
    cases this
  · rcases List.mem_cons.mp hm with hm | hm
    · rw [hm]
    · exact le_of_lt (hpost _ hm)

theorem find_avail_cyclic (pre post : List (Nat × source_t T)) (cur : Nat) (src : source_t T)
    (a : Bool) (ha : src.source_avail_func = some a) :
    (∀ k, find_avail post = some (some k) →
      find_avail (post ++ (pre ++ [(cur, src)])) = some (some k)) ∧
    (find_avail post = some none → ∀ k, find_avail pre = some (some k) →
      find_avail (post ++ (pre ++ [(cur, src)])) = some (some k)) ∧
    (find_avail post = some none → find_avail pre = some none →
      find_avail (post ++ (pre ++ [(cur, src)])) = some (if a = true then some cur else none)) := by
  refine ⟨?_, ?_, ?_⟩
  · intro k h
    rw [find_avail_append, h]
  · intro h k h2
    rw [find_avail_append, h]
    simp only []
    rw [find_avail_append, h2]
  · intro h h2
    rw [find_avail_append, h]
    simp only []
    rw [find_avail_append, h2]
    simp only [find_avail, ha]
    cases a <;> rfl

end advuilist_sourced

/-- C25: cycling is a forward search that wraps around.  For a bound, well-formed slot
whose current icon is bound, `_cycle_slot(idx)` without a start icon returns and leaves
the list as it is; with the icons before the current one as `pre` and those after it as
`post`, the icon it returns is the first available one of `post`, then `pre`, then the
current icon, and 0 when there is none.  Before and after are in the order of the map
of the slot, which is that of the icons as values of `char`.  So it is the least
available icon above the current one when there is one, else the least available icon
below it when there is one; it is the current icon only when no other icon of the slot
is available; it is 0
exactly when no icon of the slot is available; and when it is not 0 it is a bound,
available icon of the slot. -/
theorem cycle_slot_search {T : Type} (s : advuilist_sourced T) (idx : Nat) (slot : slot_t T)
    (src : source_t T)
    (hb : map_find s._sources idx = some slot) (hok : slot_ok slot)
    (hcur : map_find slot.slotcont slot.cur_icon = some src) :
    ∃ r pre post, s._cycle_slot idx 0 = some (r, s) ∧
      slot.slotcont = pre ++ (slot.cur_icon, src) :: post ∧
      (∀ p ∈ pre, icon_key p.1 < icon_key slot.cur_icon) ∧
      (∀ p ∈ post, icon_key slot.cur_icon < icon_key p.1) ∧
      advuilist_sourced.find_avail (post ++ (pre ++ [(slot.cur_icon, src)])) =
        some (if r = 0 then none else some r) ∧
      (∀ k, icon_key slot.cur_icon < icon_key k → icon_available slot k →
        icon_key slot.cur_icon < icon_key r ∧
          ∀ k2, icon_key slot.cur_icon < icon_key k2 → icon_available slot k2 →
            icon_key r ≤ icon_key k2) ∧
      ((∀ k, icon_key slot.cur_icon < icon_key k → ¬ icon_available slot k) →
        ∀ k, icon_key k < icon_key slot.cur_icon → icon_available slot k →
          icon_key r < icon_key slot.cur_icon ∧
            ∀ k2, icon_available slot k2 → icon_key r ≤ icon_key k2) ∧
      (r = slot.cur_icon → ∀ k, icon_available slot k → k = slot.cur_icon) ∧
      (r = 0 ↔ ∀ k, ¬ icon_available slot k) ∧
      (r ≠ 0 → icon_available slot r) := by
  obtain ⟨hlen, hord, hkeys⟩ := hok
  obtain ⟨pre, post, hl, hpre⟩ := advuilist_sourced.map_find_split _ _ _ hcur
  have hord2 := hord
  rw [hl] at hord2
  obtain ⟨hlt, hgt, hopre, hopost⟩ := advuilist_sourced.ordered_split _ _ _ _ hord2
  have hc0 : slot.cur_icon ≠ 0 := (hkeys _ (map_find_mem _ _ _ hcur)).1
  have hmem : ∀ p, p ∈ pre ∨ p = (slot.cur_icon, src) ∨ p ∈ post → p ∈ slot.slotcont := by
    intro p hp
    rw [hl]
    simp only [List.mem_append, List.mem_cons]
    tauto
  have hmem2 : ∀ p ∈ slot.slotcont, p ∈ pre ∨ p = (slot.cur_icon, src) ∨ p ∈ post := by
    intro p hp
    rw [hl] at hp
    simp only [List.mem_append, List.mem_cons] at hp
    exact hp
  -- the three searches return
  obtain ⟨rpost, hrpost⟩ := advuilist_sourced.find_avail_total post
    (fun p hp => (hkeys p (hmem p (Or.inr (Or.inr hp)))).2)
  obtain ⟨rpre, hrpre⟩ := advuilist_sourced.find_avail_total pre
    (fun p hp => (hkeys p (hmem p (Or.inl hp))).2)
  have hsrc := (hkeys _ (map_find_mem _ _ _ hcur)).2
  obtain ⟨a, ha⟩ : ∃ a, src.source_avail_func = some a := by
    cases h : src.source_avail_func with
    | none => simp [h] at hsrc
    | some a => exact ⟨a, rfl⟩
  -- availability of an icon in terms of the three parts
  have havail : ∀ k, icon_available slot k ↔
      (∃ v, (k, v) ∈ pre ∧ v.source_avail_func = some true) ∨
      (k = slot.cur_icon ∧ a = true) ∨
      (∃ v, (k, v) ∈ post ∧ v.source_avail_func = some true) := by
    intro k
    constructor
    · rintro ⟨v, hv, hva⟩
      rcases hmem2 _ (map_find_mem _ _ _ hv) with h | h | h
      · exact Or.inl ⟨v, h, hva⟩
      · cases h
        rw [ha] at hva
        cases hva
        exact Or.inr (Or.inl ⟨rfl, rfl⟩)
      · exact Or.inr (Or.inr ⟨v, h, hva⟩)
    · rintro (⟨v, hv, hva⟩ | ⟨rfl, rfl⟩ | ⟨v, hv, hva⟩)
      · exact ⟨v, advuilist_sourced.ordered_mem_find _ _ _ hord (hmem _ (Or.inl hv)), hva⟩
      · exact ⟨src, hcur, ha⟩
      · exact ⟨v, advuilist_sourced.ordered_mem_find _ _ _ hord (hmem _ (Or.inr (Or.inr hv))),
          hva⟩
  -- the icon the body settles on
  have hpick : ∀ r, advuilist_sourced.find_avail (post ++ (pre ++ [(slot.cur_icon, src)])) =
      some (if r = 0 then none else some r) → (r ≠ 0 ∨ advuilist_sourced.find_avail
        (post ++ (pre ++ [(slot.cur_icon, src)])) = some none) →
      advuilist_sourced._cycle_slot.pick slot 0 = some r := by
    intro r hr _
    unfold advuilist_sourced._cycle_slot.pick
    simp only [if_true]
    rw [hl, advuilist_sourced.find_pos_split _ _ _ _ hpre]
    simp only [if_true]
    have hd : List.drop (pre.length + 1) (pre ++ (slot.cur_icon, src) :: post) = post := by
      rw [List.drop_append_eq_append_drop]
      simp
    have ht : List.take (pre.length + 1) (pre ++ (slot.cur_icon, src) :: post) =
        pre ++ [(slot.cur_icon, src)] := by
      rw [List.take_append_eq_append_take]
      simp
    rw [hd, ht]
    rw [advuilist_sourced.find_avail_append] at hr
    cases hp : advuilist_sourced.find_avail post with
    | none => rw [hrpost] at hp; cases hp
    | some x =>
      rw [hp] at hr
      cases x with
      | some k =>
        simp only [Option.some.injEq] at hr
        by_cases h0 : r = 0
        · rw [if_pos h0] at hr
          cases hr
        · rw [if_neg h0] at hr
          cases hr
          rfl
      | none =>
        simp only [] at hr
        rw [hr]
        by_cases h0 : r = 0
        · rw [if_pos h0, h0]
        · rw [if_neg h0]
  -- case analysis on the three searches
  obtain ⟨hc1, hc2, hc3⟩ := advuilist_sourced.find_avail_cyclic pre post slot.cur_icon src a ha
  have hkey0 : ∀ (l : List (Nat × source_t T)) (k : Nat), (∀ p ∈ l, p ∈ slot.slotcont) →
      advuilist_sourced.find_avail l = some (some k) → k ≠ 0 := by
    intro l k hsub hf
    obtain ⟨pre2, v, post2, hl2, -, -⟩ := advuilist_sourced.find_avail_found _ _ hf
    have hin : (k, v) ∈ l := by
      rw [hl2]
      exact List.mem_append_right _ (List.mem_cons_self _ _)
    exact (hkeys _ (hsub _ hin)).1
  cases rpost with
  | some k =>
    -- an icon above the current one is available
    have hcyc := hc1 k hrpost
    have hk0 := hkey0 post k (fun p hp => hmem p (Or.inr (Or.inr hp))) hrpost
    obtain ⟨⟨v, hv, hva⟩, hleast⟩ :=
      advuilist_sourced.find_avail_list_least post k hopost hrpost
    have hfa : advuilist_sourced.find_avail (post ++ (pre ++ [(slot.cur_icon, src)])) =
        some (if k = 0 then none else some k) := by rw [hcyc, if_neg hk0]
    have hkc : icon_key slot.cur_icon < icon_key k := hgt _ hv
    have hak : icon_available slot k := (havail k).mpr (Or.inr (Or.inr ⟨v, hv, hva⟩))
    refine ⟨k, pre, post, ?_, hl, hlt, hgt, hfa, ?_, ?_, ?_, ?_, fun _ => hak⟩
    · rw [advuilist_sourced.cycle_slot_bound s idx 0 slot hb, hpick k hfa (Or.inl hk0)]
      rfl
    · intro k1 _ _
      refine ⟨hkc, ?_⟩
      intro k2 h2 ha2
      rcases (havail k2).mp ha2 with ⟨v2, hv2, _⟩ | ⟨h3, _⟩ | ⟨v2, hv2, hva2⟩
      · have := hlt _ hv2
        exact absurd this (by simp only []; omega)
      · subst h3
        omega
      · exact hleast _ hv2 hva2
    · intro hnone
      exact absurd hak (hnone k hkc)
    · intro h
      rw [h] at hkc
      exact absurd hkc (lt_irrefl _)
    · constructor
      · intro h
        exact absurd h hk0
      · intro h
        exact absurd hak (h k)
    | none =>
    have hpostun := advuilist_sourced.find_avail_not_found post hrpost
    have hnopost : ∀ k, icon_key slot.cur_icon < icon_key k → ¬ icon_available slot k := by
      intro k hk hav
      rcases (havail k).mp hav with ⟨v2, hv2, _⟩ | ⟨h3, _⟩ | ⟨v2, hv2, hva2⟩
      · have := hlt _ hv2
        simp only [] at this
        omega
      · subst h3
        omega
      · have := hpostun _ hv2
        rw [hva2] at this
        cases this
    cases rpre with
    | some k =>
      have hcyc := hc2 hrpost k hrpre
      have hk0 := hkey0 pre k (fun p hp => hmem p (Or.inl hp)) hrpre
      obtain ⟨⟨v, hv, hva⟩, hleast⟩ :=
        advuilist_sourced.find_avail_list_least pre k hopre hrpre
      have hfa : advuilist_sourced.find_avail (post ++ (pre ++ [(slot.cur_icon, src)])) =
          some (if k = 0 then none else some k) := by rw [hcyc, if_neg hk0]
      have hkc : icon_key k < icon_key slot.cur_icon := hlt _ hv
      have hak : icon_available slot k := (havail k).mpr (Or.inl ⟨v, hv, hva⟩)
      refine ⟨k, pre, post, ?_, hl, hlt, hgt, hfa, ?_, ?_, ?_, ?_, fun _ => hak⟩
      · rw [advuilist_sourced.cycle_slot_bound s idx 0 slot hb, hpick k hfa (Or.inl hk0)]
        rfl
      · intro k1 h1 ha1
        exact absurd ha1 (hnopost k1 h1)
      · intro _ k1 _ _
        refine ⟨hkc, ?_⟩
        intro k2 ha2
        rcases (havail k2).mp ha2 with ⟨v2, hv2, hva2⟩ | ⟨h3, _⟩ | ⟨v2, hv2, hva2⟩
        · exact hleast _ hv2 hva2
        · subst h3
          omega
        · have := hgt _ hv2
          simp only [] at this
          omega
      · intro h
        rw [h] at hkc
        exact absurd hkc (lt_irrefl _)
      · constructor
        · intro h
          exact absurd h hk0
        · intro h
          exact absurd hak (h k)
    | none =>
      have hpreun := advuilist_sourced.find_avail_not_found pre hrpre
      have hnopre : ∀ k, icon_key k < icon_key slot.cur_icon → ¬ icon_available slot k := by
        intro k hk hav
        rcases (havail k).mp hav with ⟨v2, hv2, hva2⟩ | ⟨h3, _⟩ | ⟨v2, hv2, hva2⟩
        · have := hpreun _ hv2
          rw [hva2] at this
          cases this
        · subst h3
          omega
        · have := hgt _ hv2
          simp only [] at this
          omega
      have honly : ∀ k, icon_available slot k → k = slot.cur_icon := by
        intro k hav
        rcases (havail k).mp hav with ⟨v2, hv2, hva2⟩ | ⟨h3, _⟩ | ⟨v2, hv2, hva2⟩
        · have := hpreun _ hv2
          rw [hva2] at this
          cases this
        · exact h3
        · have := hpostun _ hv2
          rw [hva2] at this
          cases this
      have hcyc := hc3 hrpost hrpre
      cases a with
      | true =>
        simp only [if_true] at hcyc
        have hfa : advuilist_sourced.find_avail (post ++ (pre ++ [(slot.cur_icon, src)])) =
            some (if slot.cur_icon = 0 then none else some slot.cur_icon) := by
          rw [hcyc, if_neg hc0]
        have hak : icon_available slot slot.cur_icon := ⟨src, hcur, ha⟩
        refine ⟨slot.cur_icon, pre, post, ?_, hl, hlt, hgt, hfa, ?_, ?_, fun _ => honly, ?_,
          fun _ => hak⟩
        · rw [advuilist_sourced.cycle_slot_bound s idx 0 slot hb,
            hpick slot.cur_icon hfa (Or.inl hc0)]
          rfl
        · intro k1 h1 ha1
          exact absurd ha1 (hnopost k1 h1)
        · intro _ k1 h1 ha1
          exact absurd ha1 (hnopre k1 h1)
        · constructor
          · intro h
            exact absurd h hc0
          · intro h
            exact absurd hak (h _)
      | false =>
        simp only [Bool.false_eq_true, if_false] at hcyc
        have hfa : advuilist_sourced.find_avail (post ++ (pre ++ [(slot.cur_icon, src)])) =
            some (if (0 : Nat) = 0 then none else some 0) := by
          rw [hcyc, if_pos rfl]
        have hno : ∀ k, ¬ icon_available slot k := by
          intro k hav
          have hk := honly k hav
          subst hk
          obtain ⟨v, hv, hva⟩ := hav
          rw [hcur] at hv
          cases hv
          rw [ha] at hva
          cases hva
        refine ⟨0, pre, post, ?_, hl, hlt, hgt, hfa, ?_, ?_, ?_, ?_, fun h => absurd rfl h⟩
        · rw [advuilist_sourced.cycle_slot_bound s idx 0 slot hb, hpick 0 hfa (Or.inr hcyc)]
          rfl
        · intro k1 h1 ha1
          exact absurd ha1 (hnopost k1 h1)
        · intro _ k1 h1 ha1
          exact absurd ha1 (hnopre k1 h1)
        · intro h
          exact absurd h.symm hc0
        · exact ⟨fun _ => hno, fun _ => rfl⟩

/-- C25 at slot 0 of the sourced list `shelf`, whose current icon A is followed by B,
not available, and C, available: cycling gives C. -/
theorem cycle_slot_search_witness :
    ∃ r pre post, shelf._cycle_slot 0 0 = some (r, shelf) ∧
      (map_index {} shelf._sources 0).slotcont =
        pre ++ (65, number_source 65 true [5, 2]) :: post ∧
      advuilist_sourced.find_avail (post ++ (pre ++ [(65, number_source 65 true [5, 2])])) =
        some (if r = 0 then none else some r) ∧
      (r ≠ 0 → icon_available (map_index {} shelf._sources 0) r) := by
  obtain ⟨r, pre, post, h1, h2, -, -, h3, -, -, -, -, h4⟩ :=
    cycle_slot_search shelf 0 (map_index {} shelf._sources 0)
      (number_source 65 true [5, 2]) rfl (by decide) rfl
  exact ⟨r, pre, post, h1, h2, h3, h4⟩

/-! ## Frame of `set_source` -/

namespace advuilist_sourced
variable {T : Type}

theorem set_cur_icon_bindings (slotidx target : Nat) (m : List (Nat × slot_t T)) :
    (set_cur_icon m slotidx target).map (fun p => (p.1, p.2.slotcont)) =
      m.map (fun p => (p.1, p.2.slotcont)) := by
  unfold set_cur_icon
  rw [List.map_map]
  apply List.map_congr_left
  intro p _
  show ((if p.1 = slotidx then (p.1, { p.2 with cur_icon := target }) else p).1,
    (if p.1 = slotidx then (p.1, { p.2 with cur_icon := target }) else p).2.slotcont) = _
  by_cases h : p.1 = slotidx
  · rw [if_pos h]
  · rw [if_neg h]

/-- With a current slot that is bound, a call of `set_source` that returns leaves the
slots, and the icons and sources bound in each slot, as they were. -/
theorem set_source_bindings (s s1 : advuilist_sourced T) (slotidx icon : Nat)
    (fallthrough reb r : Bool) (cur : slot_t T)
    (hc : map_find s._sources s._cslot = some cur)
    (h : s.set_source slotidx icon fallthrough reb = some (r, s1)) :
    s1._sources.map (fun p => (p.1, p.2.slotcont)) =
      s._sources.map (fun p => (p.1, p.2.slotcont)) := by
  rcases set_source_form s s1 slotidx icon fallthrough reb r h with
    ⟨-, slot, target, b, -, -, -, hs1, -⟩ | ⟨-, b, hs1, -⟩
  · rw [hs1]
    show (set_cur_icon (map_touch {} s._sources s._cslot) slotidx target).map _ = _
    rw [set_cur_icon_bindings]
    unfold map_touch
    rw [hc]
  · rw [hs1]

end advuilist_sourced

/-- C30 fails in the code for a current slot that is not bound.  The sourced list
`attic` has the single slot 5 and the current slot 0; `set_source( 5 )` without rebuild
returns true, and the registry then has the two slots 0 and 5, the new slot 0 without
any source: reading the current icon with `_sources[_cslot]` has inserted it. -/
theorem set_source_inserts_slot :
    attic._sources.map (fun p => p.1) = [5] ∧ attic._cslot = 0 ∧
    ∃ s1, attic.set_source 5 0 false false = some (true, s1) ∧
      s1._sources.map (fun p => p.1) = [0, 5] ∧
      (map_find s1._sources 0).map (fun sl => sl.slotcont.length) = some 0 :=
  ⟨rfl, rfl, _, rfl, rfl, rfl⟩

/-! ## Cursor and page -/

namespace advuilist
variable {T : Type}

/-- The loop of `_paginate` keeps what every iteration keeps: a property of the index
and the loop variables that holds before the loop and that the body preserves at every
entry of the list holds after the loop. -/
theorem paginate_loop_invariant (fglabel : Option (T → String)) (L : Nat) (l : List (entry_t T))
    (inv : Nat → paginate_st T → Prop)
    (hstep : ∀ (ci : Nat) (it : entry_t T) (st st1 : paginate_st T), l[ci]? = some it →
      inv ci st → _paginate.body fglabel L st ci it = some st1 → inv (ci + 1) st1) :
    ∀ (rest : List (entry_t T)) (ci : Nat) (st st1 : paginate_st T), l.drop ci = rest →
      ci ≤ l.length → inv ci st → _paginate.loop fglabel L rest ci st = some st1 →
      inv l.length st1
  | [], ci, st, st1, hd, hle, hi, h => by
    simp only [_paginate.loop, Option.some.injEq] at h
    have hlen : l.length ≤ ci := List.drop_eq_nil_iff.mp hd
    have hc : ci = l.length := Nat.le_antisymm hle hlen
    rw [← h, ← hc]
    exact hi
  | it :: rest, ci, st, st1, hd, hle, hi, h => by
    simp only [_paginate.loop] at h
    cases hb : _paginate.body fglabel L st ci it with
    | none => rw [hb] at h; cases h
    | some st2 =>
      rw [hb] at h
      simp only [] at h
      have hit : l[ci]? = some it := by
        rw [← List.head?_drop, hd]
        rfl
      have hd2 : l.drop (ci + 1) = rest := by
        rw [← List.drop_drop, hd]
        rfl
      have hlt : ci < l.length := by
        by_contra hn
        have : l.drop ci = [] := List.drop_eq_nil_iff.mpr (by omega)
        rw [this] at hd
        cases hd
      exact paginate_loop_invariant fglabel L l inv hstep rest (ci + 1) st2 st1 hd2 hlt
        (hstep ci it st st2 hit hi hb) h

end advuilist

namespace advuilist
variable {T : Type}

/-- What one iteration of the loop of `_paginate` does when it returns: with the count
`cpentries` at the test, either the count is within the usable page size and is kept,
or it is above it, passes the assertion, and the page that was open is cut before the
entry, which opens the next page with the count 1.  In both cases the label of `gbegin`
is then the label of the entry. -/
theorem paginate_body_shape (fglabel : Option (T → String)) (L : Nat) (st st1 : paginate_st T)
    (ci : Nat) (it : entry_t T) (h : _paginate.body fglabel L st ci it = some st1) :
    (∀ f, fglabel = some f → f st1.gbegin.ptr.elem = f it.ptr.elem) ∧
    ((_paginate.count fglabel st it ≤ L ∧ st1.pages = st.pages ∧ st1.pbegin = st.pbegin ∧
        st1.cpentries = _paginate.count fglabel st it) ∨
      (L < _paginate.count fglabel st it ∧ _paginate.count fglabel st it % L ≤ 2 ∧
        st1.pages = st.pages ++ [(st.pbegin, ci)] ∧ st1.pbegin = ci ∧ st1.cpentries = 1)) := by
  unfold _paginate.body at h
  unfold _paginate.count
  cases fglabel with
  | none =>
    simp only [Bool.false_eq_true, if_false] at h ⊢
    split_ifs at h with h1 h2
    · cases h
      exact ⟨fun f hf => (by cases hf), Or.inr ⟨h1, h2, rfl, rfl, rfl⟩⟩
    · cases h
      exact ⟨fun f hf => (by cases hf), Or.inl ⟨Nat.le_of_not_lt h1, rfl, rfl, rfl⟩⟩
  | some f =>
    simp only [] at h ⊢
    by_cases hn : f it.ptr.elem ≠ f st.gbegin.ptr.elem
    · simp only [decide_eq_true hn, if_true] at h ⊢
      split_ifs at h with h1 h2
      · cases h
        exact ⟨fun f1 hf => rfl, Or.inr ⟨h1, h2, rfl, rfl, rfl⟩⟩
      · cases h
        exact ⟨fun f1 hf => rfl, Or.inl ⟨Nat.le_of_not_lt h1, rfl, rfl, rfl⟩⟩
    · have he : f it.ptr.elem = f st.gbegin.ptr.elem := not_not.mp hn
      simp only [decide_eq_false hn, Bool.false_eq_true, if_false] at h ⊢
      split_ifs at h with h1 h2
      · cases h
        refine ⟨fun f1 hf => ?_, Or.inr ⟨h1, h2, rfl, rfl, rfl⟩⟩
        cases hf
        exact he.symm
      · cases h
        refine ⟨fun f1 hf => ?_, Or.inl ⟨Nat.le_of_not_lt h1, rfl, rfl, rfl⟩⟩
        cases hf
        exact he.symm

/-- The pages `_paginate` computes for a list that is not empty, with a property the
loop keeps: `_paginate` returns the pages the loop has cut and the page that is still
open, and the property holds of the loop variables at the end of the list. -/
theorem paginate_pages_invariant (pagesize cgroup : Nat) (groupers : List (grouper_t T))
    (g : grouper_t T) (e : entry_t T) (rest : List (entry_t T))
    (inv : Nat → paginate_st T → Prop)
    (hg : groupers[cgroup]? = some g)
    (hL : size_sub pagesize (if cgroup ≠ 0 then 1 else 0) ≠ 0)
    (h0 : inv 0 { pages := [], pbegin := 0, cpentries := 0, gbegin := e })
    (hstep : ∀ (ci : Nat) (it : entry_t T) (st st1 : paginate_st T),
      (e :: rest)[ci]? = some it → inv ci st →
      _paginate.body g.fgid (size_sub pagesize (if cgroup ≠ 0 then 1 else 0)) st ci it = some st1 →
      inv (ci + 1) st1) :
    ∃ st, _paginate.pages pagesize cgroup groupers (e :: rest) =
        some (st.pages ++ [(st.pbegin, rest.length + 1)]) ∧
      inv (rest.length + 1) st ∧ covers st.pages 0 st.pbegin ∧ st.pbegin < rest.length + 1 := by
  obtain ⟨st, hl, hcov, hle⟩ := paginate_loop_spec g.fgid
    (size_sub pagesize (if cgroup ≠ 0 then 1 else 0)) (by omega)
    (e :: rest) 0 { pages := [], pbegin := 0, cpentries := 0, gbegin := e }
    (Nat.zero_le _) (by simp [covers]) (Nat.le_refl _)
  have hinv := paginate_loop_invariant g.fgid _ (e :: rest) inv hstep (e :: rest) 0 _ st rfl
    (Nat.zero_le _) h0 hl
  simp only [List.length_cons] at hle hinv
  have hlt : st.pbegin < rest.length + 1 := by
    have := le_trans hle (max_le (Nat.zero_le _) (by omega : 0 + (rest.length + 1) - 1 ≤ rest.length))
    omega
  refine ⟨st, ?_, hinv, hcov, hlt⟩
  unfold _paginate.pages
  simp only [if_pos hL, hg, hl, _paginate.finish, List.length_cons, if_pos (Or.inl hlt)]

/-- The pages `_paginate` computes are not empty, unless the list is. -/
theorem paginate_pages_nonempty (pagesize cgroup : Nat) (groupers : List (grouper_t T))
    (list : List (entry_t T)) (pages : List page_t) (hne : list ≠ [])
    (h : _paginate.pages pagesize cgroup groupers list = some pages) :
    ∀ p ∈ pages, p.1 < p.2 := by
  cases list with
  | nil => exact absurd rfl hne
  | cons e rest =>
    by_cases hL : size_sub pagesize (if cgroup ≠ 0 then 1 else 0) ≠ 0
    · cases hg : groupers[cgroup]? with
      | none =>
        unfold _paginate.pages at h
        simp only [if_pos hL, hg] at h
        cases h
      | some g =>
        obtain ⟨st, hp, hinv, -, hlt⟩ := paginate_pages_invariant pagesize cgroup groupers g e rest
          (fun ci st => (∀ p ∈ st.pages, p.1 < p.2) ∧ st.pbegin ≤ ci ∧
            (st.pbegin < ci ∨ (ci = 0 ∧ st.cpentries = 0 ∧ st.gbegin = e)))
          hg hL ⟨fun p hp => absurd hp (List.not_mem_nil p), Nat.le_refl _,
            Or.inr ⟨rfl, rfl, rfl⟩⟩ (by
            intro ci it st st1 hit ⟨hpg, hle, hpos⟩ hb
            obtain ⟨-, hshape⟩ := paginate_body_shape _ _ _ _ _ _ hb
            rcases hpos with hpos | ⟨hci, hcp, hgb⟩
            · rcases hshape with ⟨-, h1, h2, -⟩ | ⟨-, -, h1, h2, -⟩
              · rw [h1, h2]
                exact ⟨hpg, by omega, Or.inl (by omega)⟩
              · rw [h1, h2]
                refine ⟨?_, by omega, Or.inl (by omega)⟩
                intro p hp
                rcases List.mem_append.mp hp with hp | hp
                · exact hpg p hp
                · rw [List.mem_singleton.mp hp]
                  exact hpos
            · subst hci
              have hit0 : it = e := by
                simp only [List.getElem?_cons_zero, Option.some.injEq] at hit
                exact hit.symm
              have hcount : _paginate.count g.fgid st it = 1 := by
                unfold _paginate.count
                rw [hcp, hgb, hit0]
                cases g.fgid <;> simp
              rw [hcount] at hshape
              rcases hshape with ⟨-, h1, h2, -⟩ | ⟨hlt, -, -, -, -⟩
              · rw [h1, h2]
                exact ⟨hpg, by omega, Or.inl (by omega)⟩
              · omega)
        rw [hp] at h
        cases h
        intro p hp
        rcases List.mem_append.mp hp with hp | hp
        · exact hinv.1 p hp
        · rw [List.mem_singleton.mp hp]
          exact hlt
    · unfold _paginate.pages at h
      simp only [if_neg hL, _paginate.finish, List.length_cons] at h
      simp only [Nat.add_eq_zero, one_ne_zero, and_false, or_false] at h
      cases h
      intro p hp
      rw [if_pos (Nat.succ_pos _)] at hp
      simp only [List.nil_append, List.mem_singleton] at hp
      rw [hp]
      exact Nat.succ_pos _

end advuilist

namespace advuilist
variable {T : Type}

theorem idxtopage_contains : ∀ (ps : List page_t) (a n c k : Nat), covers ps a n →
    (∀ p ∈ ps, p.1 < p.2) → a ≤ c → c < n → _idxtopage ps c = some k →
    ∃ p, ps[k]? = some p ∧ p.1 ≤ c ∧ c < p.2
  | [], a, n, c, k, hcov, _, hac, hcn, _ => by
    simp only [covers] at hcov
    omega
  | p :: ps, a, n, c, k, hcov, hpos, hac, hcn, hk => by
    obtain ⟨h1, h2, h3⟩ := hcov
    simp only [_idxtopage] at hk
    split_ifs at hk with hif
    · cases hr : _idxtopage ps c with
      | none => rw [hr] at hk; cases hk
      | some k1 =>
        rw [hr] at hk
        simp only [Option.map_some', Option.some.injEq] at hk
        obtain ⟨q, hq, hq1, hq2⟩ := idxtopage_contains ps p.2 n c k1 h3
          (fun q hq => hpos q (List.mem_cons_of_mem _ hq)) hif.2 hcn hr
        refine ⟨q, ?_, hq1, hq2⟩
        rw [← hk, List.getElem?_cons_succ]
        exact hq
    · simp only [Option.some.injEq] at hk
      have hp := hpos p (List.mem_cons_self _ _)
      refine ⟨p, by rw [← hk]; simp, by omega, ?_⟩
      by_contra hn
      exact hif ⟨by omega, by omega⟩

theorem paginated_pages (s : advuilist T) (h : s._paginate = some s) :
    _paginate.pages s._pagesize s._cgroup s._groupers s._list = some s._pages := by
  unfold _paginate at h
  cases hp : _paginate.pages s._pagesize s._cgroup s._groupers s._list with
  | none => rw [hp] at h; cases h
  | some pages =>
    rw [hp] at h
    simp only [Option.some.injEq] at h
    rw [← h]

/-- In an engine whose pages are those of its list, the page `_idxtopage` gives for an
index of the list holds the index. -/
theorem on_page_of_idxtopage (s : advuilist T) (c k : Nat) (hpag : s._paginate = some s)
    (hc : c < s._list.length ∨ (s._list.length = 0 ∧ c = 0))
    (hk : _idxtopage s._pages c = some k) :
    cursor_on_page { s with _cidx := c, _cpage := k } := by
  obtain ⟨hne, hcov⟩ := paginated_covers s hpag
  unfold cursor_on_page
  simp only []
  rcases hc with hc | ⟨hlen, hc0⟩
  · left
    have hl : s._list ≠ [] := by
      intro h
      rw [h] at hc
      exact Nat.not_lt_zero _ hc
    obtain ⟨p, hp, h1, h2⟩ := idxtopage_contains s._pages 0 s._list.length c k hcov
      (paginate_pages_nonempty _ _ _ _ _ hl (paginated_pages s hpag)) (Nat.zero_le _) hc hk
    exact ⟨p, hp, h1, h2⟩
  · right
    refine ⟨hlen, hc0, ?_⟩
    cases hps : s._pages with
    | nil => exact absurd hps hne
    | cons p ps =>
      rw [hps] at hk
      simp only [_idxtopage, hc0, Nat.le_zero_eq] at hk
      rw [if_neg (by intro h; exact h.1 h.2)] at hk
      cases hk
      rfl

theorem on_page_index (s : advuilist T) (hpag : s._paginate = some s) (h : cursor_on_page s) :
    s._cidx < s._list.length ∨ s._list.length = 0 := by
  obtain ⟨hne, hcov⟩ := paginated_covers s hpag
  rcases h with ⟨p, hp, h1, h2⟩ | ⟨h, -, -⟩
  · left
    have hmem : p ∈ s._pages := List.getElem?_mem hp
    have : ∀ (ps : List page_t) (a b : Nat), covers ps a b → ∀ q ∈ ps, q.2 ≤ b := by
      intro ps
      induction ps with
      | nil => intro a b _ q hq; exact absurd hq (List.not_mem_nil q)
      | cons r rs ih =>
        intro a b hc q hq
        obtain ⟨-, -, h3⟩ := hc
        rcases List.mem_cons.mp hq with rfl | hq
        · exact covers_le _ _ _ h3
        · exact ih _ _ h3 q hq
    have := this _ _ _ hcov p hmem
    omega
  · exact Or.inr h

theorem sort_on_page (s s1 : advuilist T) (sidx gidx : Nat) (h : s._sort sidx gidx = some s1)
    (hc : cursor_on_page s) : cursor_on_page s1 := by
  unfold _sort at h
  split at h
  · rename_i so gr _ _
    simp only [Option.some.injEq] at h
    rw [← h]
    unfold cursor_on_page at hc ⊢
    simp only []
    rw [(stable_sort_perm _ s._list).length_eq]
    exact hc
  · cases h

/-- The cursor and the page agree after `rebuild`. -/
theorem rebuild_on_page (s s1 : advuilist T) (list : Option (List T))
    (h : s.rebuild list = some s1) : cursor_on_page s1 := by
  unfold rebuild at h
  simp only [] at h
  unfold rebuild.finish at h
  split at h
  · cases h
  · rename_i s2 hs
    split at h
    · cases h
    · rename_i s3 hp
      split at h
      · cases h
      · rename_i s4 hset
        simp only [Option.some.injEq] at h
        have hpag : s3._paginate = some s3 := by
          unfold _paginate at hp ⊢
          split at hp
          · rename_i pages hpp
            simp only [Option.some.injEq] at hp
            rw [← hp]
            simp only [hpp]
          · cases hp
        obtain ⟨hne, hcov⟩ := paginated_covers s3 hpag
        obtain ⟨cpage, hs4, hidx⟩ := setidx_some s3 s3._cidx s3._list.length hne hcov
        rw [hs4] at hset
        simp only [Option.some.injEq] at hset
        have := on_page_of_idxtopage s3 (clamp_idx s3._cidx s3._list.length) cpage hpag (by
          unfold clamp_idx
          split_ifs <;> omega) hidx
        rw [hset] at this
        rw [← h]
        exact this

/-- The cursor and the page agree after `_setidx`, `_incidx`, `_decidx`, `sort(name)`
and the choice of a sorter in `_querysort`, in an engine whose pages are those of its
list and where they agree before. -/
theorem cursor_on_page_kept (s : advuilist T) (hpag : s._paginate = some s)
    (hcur : cursor_on_page s) :
    (∀ idx s1, s._setidx idx = some s1 → cursor_on_page s1) ∧
    (∀ amount s1, s._incidx amount = some s1 → cursor_on_page s1) ∧
    (∀ amount s1, s._decidx amount = some s1 → cursor_on_page s1) ∧
    (∀ name s1, s.sort name = some s1 → cursor_on_page s1) ∧
    (∀ (menu_ret : Int) s1, menu_ret < (s._sorters.length : Int) →
      s._querysort menu_ret = some s1 → cursor_on_page s1) := by
  obtain ⟨hne, hcov⟩ := paginated_covers s hpag
  have hidx := on_page_index s hpag hcur
  refine ⟨?_, ?_, ?_, ?_, ?_⟩
  · intro idx s1 h
    obtain ⟨cpage, hs, hi⟩ := setidx_some s idx s._list.length hne hcov
    rw [hs] at h
    simp only [Option.some.injEq] at h
    rw [← h]
    exact on_page_of_idxtopage s _ cpage hpag (by unfold clamp_idx; split_ifs <;> omega) hi
  · intro amount s1 h
    by_cases hn : s._list.length = 0
    · rw [hn] at hcov
      rw [incidx_empty s amount hne hcov] at h
      simp only [Option.some.injEq] at h
      rw [← h]
      exact Or.inr ⟨hn, rfl, rfl⟩
    · obtain ⟨cpage, hs, hi⟩ := incidx_some s amount s._list.length hne hcov hn
      rw [hs] at h
      simp only [Option.some.injEq] at h
      rw [← h]
      refine on_page_of_idxtopage s _ cpage hpag (Or.inl ?_) hi
      split_ifs
      · omega
      · have := Nat.min_le_right (size_add s._cidx amount) (s._list.length - 1)
        omega
  · intro amount s1 h
    by_cases hn : s._list.length = 0
    · rw [hn] at hcov
      rw [decidx_empty s amount hne hcov] at h
      simp only [Option.some.injEq] at h
      rw [← h]
      exact Or.inr ⟨hn, rfl, rfl⟩
    · have hlt : s._cidx < s._list.length := by omega
      obtain ⟨cpage, hs, hi⟩ := decidx_some s amount s._list.length hne hcov hlt
      rw [hs] at h
      simp only [Option.some.injEq] at h
      rw [← h]
      refine on_page_of_idxtopage s _ cpage hpag (Or.inl ?_) hi
      split_ifs with h1 h2
      · omega
      · omega
      · have := size_sub_le s._cidx amount (by
          unfold size_add at h2
          simp only [Nat.zero_add] at h2
          omega)
        omega
  · intro name s1 h
    unfold sort at h
    split at h
    · exact sort_on_page s s1 _ _ h hcur
    · cases h
      exact hcur
  · intro menu_ret s1 hm h
    unfold _querysort at h
    split_ifs at h
    · exact sort_on_page s s1 _ _ h hcur
    · cases h
      exact hcur

end advuilist

/-- C26 fails in the code for the choice of a grouper in `_querysort`.  The engine
`grouped` shows seven numbers by parity on pages of three rows, with the cursor on the
last one: after `rebuild` the pages are [0,2), [2,4), [4,6) and [6,7), and the cursor
index 6 is on the page of index 3.  When the sort menu returns its entry 2, the grouper
"none", `_querysort` sorts and paginates and leaves the cursor as it is: the pages are
then [0,3), [3,6) and [6,7), and the page index is still 3, which is not an index of
the page list. -/
theorem querysort_leaves_stale_page :
    ∃ s1 s2, grouped.rebuild none = some s1 ∧
      s1._pages = [(0, 2), (2, 4), (4, 6), (6, 7)] ∧ s1._cidx = 6 ∧ s1._cpage = 3 ∧
      cursor_on_page s1 ∧
      s1._querysort 2 = some s2 ∧
      s2._pages = [(0, 3), (3, 6), (6, 7)] ∧ s2._cidx = 6 ∧ s2._cpage = 3 ∧
      s2._pages[s2._cpage]? = none ∧ ¬ cursor_on_page s2 :=
  ⟨_, _, rfl, rfl, rfl, rfl, by decide, rfl, rfl, rfl, rfl, rfl, by decide⟩

/-! ## The assertion of `_paginate` -/

namespace advuilist
variable {T : Type}

/-- The loop of `_paginate` returns from every state whose count is within a usable page
size that is not 0, and the count is within it again after the loop. -/
theorem paginate_loop_count (fglabel : Option (T → String)) (L : Nat) (hL : 1 ≤ L) :
    ∀ (rest : List (entry_t T)) (ci : Nat) (st : paginate_st T), st.cpentries ≤ L →
      ∃ st1, _paginate.loop fglabel L rest ci st = some st1 ∧ st1.cpentries ≤ L
  | [], _, st, hc => ⟨st, rfl, hc⟩
  | it :: rest, ci, st, hc => by
    obtain ⟨st1, hb, hc1, -⟩ := paginate_body_spec fglabel L st ci it hL hc
    obtain ⟨st2, hl, hc2⟩ := paginate_loop_count fglabel L hL rest (ci + 1) st1 hc1
    exact ⟨st2, by simp only [_paginate.loop, hb, hl], hc2⟩

theorem paginate_count_le (fglabel : Option (T → String)) (st : paginate_st T) (it : entry_t T) :
    st.cpentries + 1 ≤ _paginate.count fglabel st it ∧
      _paginate.count fglabel st it ≤ st.cpentries + 2 := by
  unfold _paginate.count
  split_ifs <;> omega

end advuilist

/-- C28: the assertion of `_paginate` never fails.  For every page size, every valid
group index and every list, `_paginate` computes pages.  When the usable page size
`lpagesize` is not 0, the loop runs, and at every entry of the list the loop has
returned from the entries before it with a count `cpentries` that is at most
`lpagesize`; when the count then exceeds `lpagesize` at the test, it is `lpagesize + 1`
or `lpagesize + 2`, and its remainder by `lpagesize` is at most 2.  When `lpagesize` is
0 the loop, and with it the division, is skipped, and the list is one page. -/
theorem paginate_assert_holds {T : Type} (pagesize cgroup : Nat) (groupers : List (grouper_t T))
    (g : grouper_t T) (list : List (entry_t T)) (hg : groupers[cgroup]? = some g) :
    (∃ pages, advuilist._paginate.pages pagesize cgroup groupers list = some pages) ∧
    (size_sub pagesize (if cgroup ≠ 0 then 1 else 0) ≠ 0 →
      ∀ (ci : Nat) (e it : entry_t T), list.head? = some e → list[ci]? = some it →
        ∃ st, advuilist._paginate.loop g.fgid (size_sub pagesize (if cgroup ≠ 0 then 1 else 0))
            (list.take ci) 0 { pages := [], pbegin := 0, cpentries := 0, gbegin := e } =
            some st ∧
          st.cpentries ≤ size_sub pagesize (if cgroup ≠ 0 then 1 else 0) ∧
          (size_sub pagesize (if cgroup ≠ 0 then 1 else 0) <
              advuilist._paginate.count g.fgid st it →
            (advuilist._paginate.count g.fgid st it =
                size_sub pagesize (if cgroup ≠ 0 then 1 else 0) + 1 ∨
              advuilist._paginate.count g.fgid st it =
                size_sub pagesize (if cgroup ≠ 0 then 1 else 0) + 2) ∧
            advuilist._paginate.count g.fgid st it %
              size_sub pagesize (if cgroup ≠ 0 then 1 else 0) ≤ 2 ∧
            ∃ st1, advuilist._paginate.body g.fgid
              (size_sub pagesize (if cgroup ≠ 0 then 1 else 0)) st ci it = some st1)) ∧
    (size_sub pagesize (if cgroup ≠ 0 then 1 else 0) = 0 →
      advuilist._paginate.pages pagesize cgroup groupers list = some [(0, list.length)]) := by
  have hlt : cgroup < groupers.length := (List.getElem?_eq_some.mp hg).1
  obtain ⟨pages, hp, -⟩ := advuilist.paginate_pages_covers pagesize cgroup groupers list hlt
  refine ⟨⟨pages, hp⟩, ?_, ?_⟩
  · generalize size_sub pagesize (if cgroup ≠ 0 then 1 else 0) = L
    intro hL ci e it _ _
    have hL1 : 1 ≤ L := Nat.one_le_iff_ne_zero.mpr hL
    obtain ⟨st, hl, hc⟩ := advuilist.paginate_loop_count g.fgid L hL1 (list.take ci) 0
      { pages := [], pbegin := 0, cpentries := 0, gbegin := e } (Nat.zero_le _)
    refine ⟨st, hl, hc, ?_⟩
    intro hover
    obtain ⟨h1, h2⟩ := advuilist.paginate_count_le g.fgid st it
    have hcases : advuilist._paginate.count g.fgid st it = L + 1 ∨
        advuilist._paginate.count g.fgid st it = L + 2 := by omega
    obtain ⟨st1, hb, -, -⟩ := advuilist.paginate_body_spec g.fgid L st ci it hL1 hc
    refine ⟨hcases, ?_, st1, hb⟩
    rcases hcases with h | h
    · rw [h, Nat.add_mod_left]
      exact le_trans (Nat.mod_le _ _) (by omega)
    · rw [h, Nat.add_mod_left]
      exact Nat.mod_le _ _
  · intro hL
    unfold advuilist._paginate.pages
    simp only [hL, ne_eq, not_true_eq_false, if_false, advuilist._paginate.finish]
    by_cases hn : list.length = 0
    · rw [if_pos (Or.inr hn)]
      rfl
    · rw [if_pos (Or.inl (Nat.pos_of_ne_zero hn))]
      rfl

/-- C28 at the seven numbers of the engine `numbers` by parity on pages of three rows,
so with a usable page size of 2. -/
theorem paginate_assert_holds_witness :
    numbers._groupers[1]? = some parity_grouper ∧
    (∃ pages, advuilist._paginate.pages 3 1 numbers._groupers numbers._list = some pages) ∧
    (size_sub 3 (if 1 ≠ 0 then 1 else 0) ≠ 0 →
      ∀ (ci : Nat) (e it : entry_t Nat), numbers._list.head? = some e →
        numbers._list[ci]? = some it →
        ∃ st, advuilist._paginate.loop parity_grouper.fgid (size_sub 3 (if 1 ≠ 0 then 1 else 0))
            (numbers._list.take ci) 0 { pages := [], pbegin := 0, cpentries := 0, gbegin := e } =
            some st ∧
          st.cpentries ≤ size_sub 3 (if 1 ≠ 0 then 1 else 0) ∧
          (size_sub 3 (if 1 ≠ 0 then 1 else 0) <
              advuilist._paginate.count parity_grouper.fgid st it →
            (advuilist._paginate.count parity_grouper.fgid st it =
                size_sub 3 (if 1 ≠ 0 then 1 else 0) + 1 ∨
              advuilist._paginate.count parity_grouper.fgid st it =
                size_sub 3 (if 1 ≠ 0 then 1 else 0) + 2) ∧
            advuilist._paginate.count parity_grouper.fgid st it %
              size_sub 3 (if 1 ≠ 0 then 1 else 0) ≤ 2 ∧
            ∃ st1, advuilist._paginate.body parity_grouper.fgid
              (size_sub 3 (if 1 ≠ 0 then 1 else 0)) st ci it = some st1)) ∧
    (size_sub 3 (if 1 ≠ 0 then 1 else 0) = 0 →
      advuilist._paginate.pages 3 1 numbers._groupers numbers._list =
        some [(0, numbers._list.length)]) :=
  ⟨rfl, paginate_assert_holds 3 1 numbers._groupers parity_grouper numbers._list rfl⟩

/-! ## Pages without grouping -/

namespace advuilist
variable {T : Type}

theorem uniform_pages_split (P N m : Nat) (hP : 1 ≤ P) (h1 : m * P < N) (h2 : N ≤ m * P + P) :
    uniform_pages P N = (List.range m).map (fun k => (k * P, (k + 1) * P)) ++ [(m * P, N)] := by
  have hN : N ≠ 0 := by omega
  have hdiv : (N + P - 1) / P = m + 1 := by
    apply Nat.div_eq_of_lt_le
    · rw [Nat.add_mul, Nat.one_mul]
      omega
    · rw [Nat.add_mul, Nat.add_mul, Nat.one_mul]
      omega
  unfold uniform_pages
  rw [if_neg hN, hdiv, List.range_succ, List.map_append]
  congr 1
  · apply List.map_congr_left
    intro k hk
    have hk1 : k < m := List.mem_range.mp hk
    have : (k + 1) * P ≤ m * P := Nat.mul_le_mul_right P hk1
    rw [Nat.min_eq_left (by omega)]
  · simp only [List.map_cons, List.map_nil]
    rw [Nat.add_mul, Nat.one_mul, Nat.min_eq_right h2]

end advuilist

/-- C29: without grouping the pages are uniform.  With a page size `P` of at least 1
and the grouper of index 0 without a label function, `_paginate` computes for a list of
`N` entries the one page [0,0) when `N` is 0, and else the pages
[k*P, min((k+1)*P, N)) for k below `N / P` rounded up. -/
theorem paginate_none_uniform {T : Type} (pagesize : Nat) (groupers : List (grouper_t T))
    (g : grouper_t T) (list : List (entry_t T)) (hP : 1 ≤ pagesize) (hP2 : pagesize < size_mod)
    (hg : groupers[0]? = some g) (hnone : g.fgid = none) :
    advuilist._paginate.pages pagesize 0 groupers list =
      some (uniform_pages pagesize list.length) := by
  have hL : size_sub pagesize (if (0 : Nat) ≠ 0 then 1 else 0) = pagesize := by
    unfold size_sub
    simp only [ne_eq, not_true_eq_false, if_false, Nat.zero_mod, Nat.sub_zero,
      Nat.add_mod_right]
    exact Nat.mod_eq_of_lt hP2
  cases list with
  | nil =>
    unfold advuilist._paginate.pages
    simp only [hL, hg, advuilist._paginate.finish]
    rw [if_pos (by omega)]
    rfl
  | cons e rest =>
    obtain ⟨st, hp, ⟨m, hpg, hpb, hle1, hle2, -⟩, -, hlt⟩ :=
      advuilist.paginate_pages_invariant pagesize 0 groupers g e rest
        (fun ci st => ∃ m, st.pages = (List.range m).map (fun k => (k * pagesize, (k + 1) * pagesize)) ∧
          st.pbegin = m * pagesize ∧ m * pagesize ≤ ci ∧ ci ≤ m * pagesize + pagesize ∧
          st.cpentries = ci - m * pagesize)
        hg (by rw [hL]; omega)
        ⟨0, rfl, by simp, by simp, by simp, by simp⟩ (by
          intro ci it st st1 _ ⟨m, hpg, hpb, hle1, hle2, hcp⟩ hb
          rw [hL] at hb
          obtain ⟨-, hshape⟩ := advuilist.paginate_body_shape _ _ _ _ _ _ hb
          have hcount : advuilist._paginate.count g.fgid st it = st.cpentries + 1 := by
            unfold advuilist._paginate.count
            rw [hnone]
            simp
          rw [hcount] at hshape
          rcases hshape with ⟨h0, h1, h2, h3⟩ | ⟨h0, -, h1, h2, h3⟩
          · exact ⟨m, by rw [h1, hpg], by rw [h2, hpb], by omega, by omega, by omega⟩
          · have hci : ci = (m + 1) * pagesize := by
              rw [Nat.add_mul, Nat.one_mul]
              omega
            refine ⟨m + 1, ?_, by rw [h2, hci], by omega, by omega, by omega⟩
            rw [h1, hpg, hpb, hci, List.range_succ, List.map_append]
            rfl)
    rw [hp, hpb]
    rw [hpb] at hlt
    simp only [List.length_cons]
    rw [advuilist.uniform_pages_split pagesize (rest.length + 1) m hP hlt hle2, hpg]

/-- C29 at the seven numbers of the engine `numbers` on pages of three rows: the pages
are [0,3), [3,6) and [6,7). -/
theorem paginate_none_uniform_witness :
    1 ≤ 3 ∧ 3 < size_mod ∧ numbers._groupers[0]? = some (none_grouper Nat) ∧
    (none_grouper Nat).fgid = none ∧
    advuilist._paginate.pages 3 0 numbers._groupers numbers._list =
      some (uniform_pages 3 numbers._list.length) ∧
    uniform_pages 3 numbers._list.length = [(0, 3), (3, 6), (6, 7)] :=
  ⟨by decide, by decide, rfl, rfl,
    paginate_none_uniform 3 numbers._groupers (none_grouper Nat) numbers._list (by decide)
      (by decide) rfl rfl, by decide⟩

/-! ## Rows of the pages -/

namespace advuilist
variable {T : Type}

theorem covers_snd_le : ∀ (ps : List page_t) (a b : Nat), covers ps a b →
    ∀ q ∈ ps, q.1 ≤ q.2 ∧ q.2 ≤ b
  | [], _, _, _, q, hq => absurd hq (List.not_mem_nil q)
  | r :: rs, a, b, hc, q, hq => by
    obtain ⟨-, h2, h3⟩ := hc
    rcases List.mem_cons.mp hq with rfl | hq
    · exact ⟨h2, covers_le _ _ _ h3⟩
    · exact covers_snd_le rs _ _ h3 q hq

theorem page_slice_length {α : Type} (l : List α) (p : page_t) (h : p.2 ≤ l.length) :
    (page_slice l p).length = p.2 - p.1 := by
  unfold page_slice
  rw [List.length_take, List.length_drop]
  omega

theorem page_slice_snoc {α : Type} (l : List α) (a ci : Nat) (it : α) (ha : a ≤ ci)
    (hit : l[ci]? = some it) :
    page_slice l (a, ci + 1) = page_slice l (a, ci) ++ [it] := by
  unfold page_slice
  simp only []
  have e : ci + 1 - a = (ci - a) + 1 := by omega
  rw [e, List.take_succ, List.getElem?_drop]
  have e2 : a + (ci - a) = ci := by omega
  rw [e2, hit]
  rfl

theorem label_changes_snoc (gl : T → String) (it : entry_t T) :
    ∀ (xs : List (entry_t T)) (prev : entry_t T), xs.getLast? = some prev →
      label_changes gl (xs ++ [it]) =
        label_changes gl xs + (if gl it.ptr.elem ≠ gl prev.ptr.elem then 1 else 0)
  | [], _, h => by simp at h
  | [x], prev, h => by
    simp only [List.getLast?_singleton, Option.some.injEq] at h
    subst h
    simp [label_changes]
  | x :: y :: rest, prev, h => by
    have h2 : (y :: rest).getLast? = some prev := by
      rw [List.getLast?_cons_cons] at h
      exact h
    have ih := label_changes_snoc gl it (y :: rest) prev h2
    show (if gl y.ptr.elem ≠ gl x.ptr.elem then 1 else 0) +
        label_changes gl ((y :: rest) ++ [it]) =
      (if gl y.ptr.elem ≠ gl x.ptr.elem then 1 else 0) + label_changes gl (y :: rest) +
        (if gl it.ptr.elem ≠ gl prev.ptr.elem then 1 else 0)
    rw [ih]
    omega

/-- The count of `_paginate` at the test, from the count before the entry. -/
theorem paginate_count_eq (fglabel : Option (T → String)) (st : paginate_st T) (it : entry_t T) :
    _paginate.count fglabel st it = st.cpentries + 1 +
      match fglabel with
      | some f => if f it.ptr.elem ≠ f st.gbegin.ptr.elem then 1 else 0
      | none => 0 := by
  unfold _paginate.count
  cases fglabel with
  | none => simp
  | some f =>
    simp only [decide_eq_true_eq]
    split_ifs <;> omega

theorem page_weight_snoc (fglabel : Option (T → String)) (st : paginate_st T)
    (xs : List (entry_t T)) (prev it : entry_t T) (hl : xs.getLast? = some prev)
    (hgb : ∀ f, fglabel = some f → f st.gbegin.ptr.elem = f prev.ptr.elem)
    (hw : page_weight fglabel xs = st.cpentries) :
    page_weight fglabel (xs ++ [it]) = _paginate.count fglabel st it := by
  rw [paginate_count_eq, ← hw]
  unfold page_weight
  cases fglabel with
  | none => simp
  | some f =>
    simp only [List.length_append, List.length_singleton]
    rw [label_changes_snoc f it xs prev hl, hgb f rfl]
    omega

/-- The rows `_print` writes for a run of entries with grouping on: a row for each
entry, one for each change of the label, and one for the header at the top unless the
label of the first entry is the text `cgroup`. -/
theorem print_rows_eq (gl : T → String) : ∀ (xs : List (entry_t T)) (cgroup : String),
    _print.rows true gl xs cgroup = xs.length + label_changes gl xs +
      match xs.head? with
      | some x => if gl x.ptr.elem ≠ cgroup then 1 else 0
      | none => 0
  | [], _ => rfl
  | [x], cgroup => by
    simp only [_print.rows, label_changes, List.head?_cons, List.length_singleton, true_and]
    split_ifs <;> rfl
  | x :: y :: rest, cgroup => by
    have ih1 := print_rows_eq gl (y :: rest) (gl x.ptr.elem)
    have ih2 := print_rows_eq gl (y :: rest) cgroup
    simp only [List.head?_cons, List.length_cons] at ih1 ih2
    simp only [_print.rows, label_changes, List.head?_cons, List.length_cons, true_and] at ih1 ih2 ⊢
    by_cases h : gl x.ptr.elem ≠ cgroup
    · rw [if_pos h, if_pos h]
      rw [ih1]
      omega
    · rw [if_neg h, if_neg h]
      have he : gl x.ptr.elem = cgroup := not_not.mp h
      rw [ih2, he]
      omega

/-- The pages of `_paginate` by their rows: every page takes at most `lpagesize` rows
below its top header, when `lpagesize` is not 0. -/
theorem paginate_pages_weight (pagesize cgroup : Nat) (groupers : List (grouper_t T))
    (g : grouper_t T) (list : List (entry_t T)) (hg : groupers[cgroup]? = some g)
    (hL : size_sub pagesize (if cgroup ≠ 0 then 1 else 0) ≠ 0) :
    ∃ pages, _paginate.pages pagesize cgroup groupers list = some pages ∧
      covers pages 0 list.length ∧
      ∀ p ∈ pages, page_weight g.fgid (page_slice list p) ≤
        size_sub pagesize (if cgroup ≠ 0 then 1 else 0) := by
  cases list with
  | nil =>
    have hlt : cgroup < groupers.length := (List.getElem?_eq_some.mp hg).1
    obtain ⟨pages, hp, -, hcov, hnil⟩ := paginate_pages_covers pagesize cgroup groupers [] hlt
    refine ⟨pages, hp, hcov, ?_⟩
    rw [hnil rfl]
    intro p hp
    rw [List.mem_singleton.mp hp]
    unfold page_weight page_slice
    cases g.fgid <;> simp [label_changes]
  | cons e rest =>
    obtain ⟨st, hp, ⟨hpg, hle, hopen⟩, hcov, hlt⟩ :=
      paginate_pages_invariant pagesize cgroup groupers g e rest
        (fun ci st =>
          (∀ p ∈ st.pages, page_weight g.fgid (page_slice (e :: rest) p) ≤
            size_sub pagesize (if cgroup ≠ 0 then 1 else 0)) ∧ st.pbegin ≤ ci ∧
          ((ci = 0 ∧ st.cpentries = 0 ∧ st.gbegin = e) ∨
            (st.cpentries ≤ size_sub pagesize (if cgroup ≠ 0 then 1 else 0) ∧
              page_weight g.fgid (page_slice (e :: rest) (st.pbegin, ci)) = st.cpentries ∧
              ∃ prev, (page_slice (e :: rest) (st.pbegin, ci)).getLast? = some prev ∧
                ∀ f, g.fgid = some f → f st.gbegin.ptr.elem = f prev.ptr.elem)))
        hg hL ⟨fun p hp => absurd hp (List.not_mem_nil p), Nat.le_refl _,
          Or.inl ⟨rfl, rfl, rfl⟩⟩ (by
          generalize size_sub pagesize (if cgroup ≠ 0 then 1 else 0) = L at hL ⊢
          intro ci it st st1 hit ⟨hpg, hle, hopen⟩ hb
          obtain ⟨hlab, hshape⟩ := paginate_body_shape _ _ _ _ _ _ hb
          have hsnoc := page_slice_snoc (e :: rest) st.pbegin ci it hle hit
          have hone : page_slice (e :: rest) (ci, ci + 1) = [it] := by
            have := page_slice_snoc (e :: rest) ci ci it (Nat.le_refl _) hit
            rw [this]
            unfold page_slice
            simp
          have hw1 : page_weight g.fgid [it] = 1 := by
            unfold page_weight
            cases g.fgid <;> simp [label_changes]
          have hweight : L < _paginate.count g.fgid st it ∨
              page_weight g.fgid (page_slice (e :: rest) (st.pbegin, ci + 1)) =
                _paginate.count g.fgid st it := by
            rcases hopen with ⟨hci, hcp, hgb⟩ | ⟨hc, hw, prev, hprev, hgl⟩
            · right
              subst hci
              have hit0 : it = e := by
                simp only [List.getElem?_cons_zero, Option.some.injEq] at hit
                exact hit.symm
              have hpb : st.pbegin = 0 := by omega
              rw [hpb, hone, hw1, paginate_count_eq, hcp, hgb, hit0]
              cases g.fgid <;> simp
            · right
              rw [hsnoc]
              exact page_weight_snoc g.fgid st _ prev it hprev hgl hw
          have hclosed : L < _paginate.count g.fgid st it →
              page_weight g.fgid (page_slice (e :: rest) (st.pbegin, ci)) ≤ L := by
            intro hover
            rcases hopen with ⟨hci, hcp, hgb⟩ | ⟨hc, hw, -⟩
            · subst hci
              have hit0 : it = e := by
                simp only [List.getElem?_cons_zero, Option.some.injEq] at hit
                exact hit.symm
              have : _paginate.count g.fgid st it = 1 := by
                rw [paginate_count_eq, hcp, hgb, hit0]
                cases g.fgid <;> simp
              omega
            · rw [hw]
              exact hc
          rcases hshape with ⟨h0, h1, h2, h3⟩ | ⟨h0, -, h1, h2, h3⟩
          · rw [h1, h2, h3]
            refine ⟨hpg, by omega, Or.inr ⟨h0, ?_, it, ?_, hlab⟩⟩
            · rcases hweight with h | h
              · omega
              · exact h
            · rw [hsnoc]
              simp
          · rw [h1, h2, h3]
            refine ⟨?_, by omega, Or.inr ⟨by omega, ?_, it, ?_, hlab⟩⟩
            · intro p hp
              rcases List.mem_append.mp hp with hp | hp
              · exact hpg p hp
              · rw [List.mem_singleton.mp hp]
                exact hclosed h0
            · rw [hone, hw1]
            · rw [hone]
              rfl)
    have hcov2 : covers (st.pages ++ [(st.pbegin, rest.length + 1)]) 0 (rest.length + 1) :=
      covers_append _ _ _ _ hcov (by omega)
    refine ⟨_, hp, hcov2, ?_⟩
    intro p hpm
    rcases List.mem_append.mp hpm with hpm | hpm
    · exact hpg p hpm
    · rw [List.mem_singleton.mp hpm]
      rcases hopen with ⟨h0, -, -⟩ | ⟨hc, hw, -⟩
      · omega
      · rw [hw]
        exact hc

end advuilist

/-- C27: every page fits the viewport.  For a page size `P`, a valid group index and a
list, `_paginate` computes pages.  With a grouper active, its label function and `P` of
at least 2, every page satisfies: the number of its entries, plus the number of
positions in the page where the label differs from the label of the entry before it in
the page, plus 1 is at most `P`; and the rows `_print` writes for the page, a header
row before every entry whose label is not that of the last header, are at most `P`.
Without grouping (group index 0 without label function) and with `P` of at least 1,
every page holds at most `P` entries. -/
theorem pages_fit_viewport {T : Type} (pagesize cgroup : Nat) (groupers : List (grouper_t T))
    (g : grouper_t T) (list : List (entry_t T)) (hP2 : pagesize < size_mod)
    (hg : groupers[cgroup]? = some g) :
    ∃ pages, advuilist._paginate.pages pagesize cgroup groupers list = some pages ∧
      (∀ gl, cgroup ≠ 0 → g.fgid = some gl → 2 ≤ pagesize → ∀ p ∈ pages,
        (p.2 - p.1) + label_changes gl (page_slice list p) + 1 ≤ pagesize ∧
        advuilist._print.rows (decide (cgroup ≠ 0)) gl (page_slice list p) "" ≤ pagesize) ∧
      (cgroup = 0 → g.fgid = none → 1 ≤ pagesize → ∀ p ∈ pages, p.2 - p.1 ≤ pagesize) := by
  have hlt : cgroup < groupers.length := (List.getElem?_eq_some.mp hg).1
  obtain ⟨pages, hp, -, hcov, -⟩ :=
    advuilist.paginate_pages_covers pagesize cgroup groupers list hlt
  refine ⟨pages, hp, ?_, ?_⟩
  · intro gl hc hgl hP p hpm
    have hL : size_sub pagesize (if cgroup ≠ 0 then 1 else 0) = pagesize - 1 := by
      rw [if_pos hc]
      unfold size_sub
      have e : pagesize + size_mod - 1 % size_mod = (pagesize - 1) + size_mod := by
        have : 1 % size_mod = 1 := by decide
        omega
      rw [e, Nat.add_mod_right]
      exact Nat.mod_eq_of_lt (by omega)
    obtain ⟨pages2, hp2, -, hw⟩ := advuilist.paginate_pages_weight pagesize cgroup groupers g list
      hg (by rw [hL]; omega)
    rw [hp] at hp2
    cases hp2
    have h1 := hw p hpm
    rw [hL] at h1
    unfold page_weight at h1
    rw [hgl] at h1
    simp only [] at h1
    obtain ⟨hle1, hle2⟩ := advuilist.covers_snd_le _ _ _ hcov p hpm
    rw [advuilist.page_slice_length list p hle2] at h1
    refine ⟨by omega, ?_⟩
    rw [decide_eq_true hc, advuilist.print_rows_eq]
    rw [advuilist.page_slice_length list p hle2]
    have : (match (page_slice list p).head? with
        | some x => if gl x.ptr.elem ≠ "" then 1 else 0
        | none => 0) ≤ 1 := by
      split
      · split_ifs <;> omega
      · omega
    omega
  · intro hc hgl hP p hpm
    have hL : size_sub pagesize (if cgroup ≠ 0 then 1 else 0) = pagesize := by
      rw [if_neg (by simp [hc])]
      unfold size_sub
      simp only [Nat.zero_mod, Nat.sub_zero, Nat.add_mod_right]
      exact Nat.mod_eq_of_lt hP2
    obtain ⟨pages2, hp2, -, hw⟩ := advuilist.paginate_pages_weight pagesize cgroup groupers g list
      hg (by rw [hL]; omega)
    rw [hp] at hp2
    cases hp2
    have h1 := hw p hpm
    rw [hL] at h1
    unfold page_weight at h1
    rw [hgl] at h1
    simp only [Nat.add_zero] at h1
    obtain ⟨hle1, hle2⟩ := advuilist.covers_snd_le _ _ _ hcov p hpm
    rw [advuilist.page_slice_length list p hle2] at h1
    exact h1

/-- C27 at the seven numbers of the engine `numbers` by parity on pages of three
rows. -/
theorem pages_fit_viewport_witness :
    3 < size_mod ∧ numbers._groupers[1]? = some parity_grouper ∧
    ∃ pages, advuilist._paginate.pages 3 1 numbers._groupers numbers._list = some pages ∧
      (∀ gl, 1 ≠ 0 → parity_grouper.fgid = some gl → 2 ≤ 3 → ∀ p ∈ pages,
        (p.2 - p.1) + label_changes gl (page_slice numbers._list p) + 1 ≤ 3 ∧
        advuilist._print.rows (decide (1 ≠ 0)) gl (page_slice numbers._list p) "" ≤ 3) ∧
      (1 = 0 → parity_grouper.fgid = none → 1 ≤ 3 → ∀ p ∈ pages, p.2 - p.1 ≤ 3) :=
  ⟨by decide, rfl,
    pages_fit_viewport 3 1 numbers._groupers parity_grouper numbers._list (by decide) rfl⟩
